import Mathlib

/-!
# CHIP-8 interpreter (`src/main.c`): shallow embedding and verified properties

The interpreter is one C function, `main`, whose body is a set-up phase followed by an
endless fetch / decode / execute loop over the global `chip8` record and the SDL window
surface.  The embedding below follows the loop body statement by statement.

* A C array of `n` elements is a function from indices to values together with the
  size `n`; every array access is checked against the size, and an index outside the
  array ends the run with `Halt.outOfBounds` (the C program has undefined behaviour
  there).  The two constant tables `keyMap` and `font` are lists.
* `uint8_t` / `uint16_t` / `uint32_t` values are natural numbers, reduced explicitly
  (`% 256`, `% 65536`) at each store where the C value can leave the range of its type.
* Everything the loop obtains from SDL or libc in one iteration (pending quit request,
  keyboard state, the value of `rand()`, the events delivered while `Fx0A` waits) is
  collected in the record `Env`.
-/

namespace Chip8Emu

/-! ## Constants and tables -/

/-- Constant `#define WIDTH 64` -/
def WIDTH : Nat := 64

/-- Constant `#define HEIGHT 32` -/
def HEIGHT : Nat := 32

/-- Constant `#define ROM_START 0x200` -/
def ROM_START : Nat := 0x200

/-- Constant `#define FONT_START 0x50` -/
def FONT_START : Nat := 0x50

/-- Table `const uint8_t keyMap[16]`: the SDL scancodes of X 1 2 3 Q W E A S D Z C 4 R F V.
The numeric values are those of the SDL header `SDL_scancode.h` (USB HID usage ids),
which is not part of the repository. -/
def keyMap : List Nat :=
  [27, 30, 31, 32, 20, 26, 8, 4, 22, 7, 29, 6, 33, 21, 9, 25]

/-- Table `const uint8_t font[]`: sixteen glyphs of five rows each. -/
def font : List Nat :=
  [0xF0, 0x90, 0x90, 0x90, 0xF0,
   0x20, 0x60, 0x20, 0x20, 0x70,
   0xF0, 0x10, 0xF0, 0x80, 0xF0,
   0xF0, 0x10, 0xF0, 0x10, 0xF0,
   0x90, 0x90, 0xF0, 0x10, 0x10,
   0xF0, 0x80, 0xF0, 0x10, 0xF0,
   0xF0, 0x80, 0xF0, 0x90, 0xF0,
   0xF0, 0x10, 0x20, 0x40, 0x40,
   0xF0, 0x90, 0xF0, 0x90, 0xF0,
   0xF0, 0x90, 0xF0, 0x10, 0xF0,
   0xF0, 0x90, 0xF0, 0x90, 0x90,
   0xE0, 0x90, 0xE0, 0x90, 0xE0,
   0xF0, 0x80, 0x80, 0x80, 0xF0,
   0xE0, 0x90, 0x90, 0x90, 0xE0,
   0xF0, 0x80, 0xF0, 0x80, 0xF0,
   0xF0, 0x80, 0xF0, 0x80, 0x80]

/-! ## State -/

/-- The global `struct { ... } chip8`. -/
structure Chip8 where
  /-- Field `uint8_t heap[4096]` -/
  heap : Nat → Nat
  /-- Field `uint16_t stack[16]` -/
  stack : Nat → Nat
  /-- Field `uint8_t v[16]` -/
  v : Nat → Nat
  /-- Field `uint16_t i` -/
  i : Nat
  /-- Field `uint16_t pc` -/
  pc : Nat
  /-- Field `uint8_t sp` -/
  sp : Nat
  /-- Field `uint8_t delay_timer` -/
  delay_timer : Nat
  /-- Field `uint8_t sound_timer` -/
  sound_timer : Nat

/-- The fields of `SDL_Surface` that the loop uses: `w`, `h` and the pixel buffer of
`w * h` values of type `uint32_t` (the set-up phase has checked that a pixel is four bytes
wide). -/
structure Surface where
  w : Nat
  h : Nat
  pixels : Nat → Nat

/-- Everything the loop body reads or writes: `chip8`, `*windowSurface`, the local `flip`,
and a counter of the calls to `SDL_UpdateWindowSurface` made so far. -/
structure Machine where
  chip8 : Chip8
  windowSurface : Surface
  flip : Bool
  updates : Nat

/-- The arrays that the loop indexes. -/
inductive Arr
  | heap | stack | v | pixels | keyMap | keys
  deriving DecidableEq, Repr

/-- Ways in which an iteration of the loop does not reach its end. -/
inductive Halt
  /-- Event `SDL_QUIT` was received: `SDL_Quit(); return 0;` -/
  | quit
  /-- an array was indexed outside its bounds -/
  | outOfBounds (a : Arr) (index : Nat)
  /-- Operation `% windowSurface->w` or `% windowSurface->h` with a zero divisor -/
  | divideByZero
  /-- The call of `SDL_WaitEvent` finds no further event in the environment -/
  | starved
  deriving DecidableEq, Repr

deriving instance DecidableEq for Except

/-- An event delivered by `SDL_WaitEvent` while `Fx0A` waits; a key-down event comes with
the keyboard state array as it is after the event. -/
inductive Event
  | quit
  | keydown (keys : Nat → Nat)
  | other

/-- What one iteration of the loop obtains from outside the program. -/
structure Env where
  /-- the `SDL_PollEvent` loop at the top of the iteration meets an `SDL_QUIT` event -/
  quit : Bool
  /-- the array returned by `SDL_GetKeyboardState`, indexed by scancode -/
  keys : Nat → Nat
  /-- the value returned by `rand()` -/
  rand : Nat
  /-- the events delivered to `SDL_WaitEvent` -/
  events : List Event

/-! ## Array access -/

/-- Size of `chip8.heap`. -/
def HEAP_SIZE : Nat := 4096

/-- Size of `chip8.stack`. -/
def STACK_SIZE : Nat := 16

/-- Size of `chip8.v`. -/
def V_SIZE : Nat := 16

/-- Size of the keyboard state array: the value of `SDL_NUM_SCANCODES` in the SDL header
`SDL_scancode.h`, which is not part of the repository. -/
def KEYS_SIZE : Nat := 512

/-- Read `arr[idx]` from an array of `size` elements. -/
def load (a : Arr) (size : Nat) (arr : Nat → Nat) (idx : Nat) : Except Halt Nat :=
  if idx < size then .ok (arr idx) else .error (.outOfBounds a idx)

/-- The array `arr` after `arr[idx] = x`. -/
def assign (arr : Nat → Nat) (idx x : Nat) : Nat → Nat :=
  fun k => if k = idx then x else arr k

/-- Write `arr[idx] = x` to an array of `size` elements. -/
def store (a : Arr) (size : Nat) (arr : Nat → Nat) (idx x : Nat) : Except Halt (Nat → Nat) :=
  if idx < size then .ok (assign arr idx x) else .error (.outOfBounds a idx)

/-- Read `v[k]`. -/
def loadV (v : Nat → Nat) (k : Nat) : Except Halt Nat := load .v V_SIZE v k

/-- Write `v[k] = x`. -/
def storeV (v : Nat → Nat) (k x : Nat) : Except Halt (Nat → Nat) := store .v V_SIZE v k x

/-- Read `heap[a]`. -/
def loadHeap (heap : Nat → Nat) (a : Nat) : Except Halt Nat := load .heap HEAP_SIZE heap a

/-- Write `heap[a] = x`. -/
def storeHeap (heap : Nat → Nat) (a x : Nat) : Except Halt (Nat → Nat) :=
  store .heap HEAP_SIZE heap a x

/-! ## Instructions of the `0x8` group that write the flag register -/

/-- Instruction `8xy4`: `v[0xF] = __builtin_add_overflow(v[X], v[Y], &v[X]);` -/
def ADD (X Y : Nat) (c : Chip8) : Except Halt Chip8 := do
  let a ← loadV c.v X
  let b ← loadV c.v Y
  let v1 ← storeV c.v X ((a + b) % 256)
  let v2 ← storeV v1 0xF (if a + b > 255 then 1 else 0)
  pure { c with v := v2 }

/-- The builtin `__builtin_sub_overflow(a, b, &r)` on `uint8_t`: the value stored in `r`
and the returned overflow indication. -/
def subOverflow (a b : Nat) : Nat × Bool :=
  ((((a : Int) - (b : Int)) % 256).toNat, decide (a < b))

/-- Instruction `8xy5`: `v[0xF] = !__builtin_sub_overflow(v[X], v[Y], &v[X]);` -/
def SUB (X Y : Nat) (c : Chip8) : Except Halt Chip8 := do
  let a ← loadV c.v X
  let b ← loadV c.v Y
  let v1 ← storeV c.v X (subOverflow a b).1
  let v2 ← storeV v1 0xF (if (subOverflow a b).2 then 0 else 1)
  pure { c with v := v2 }

/-- Instruction `8xy6`: `v[0xF] = v[X] & 0x1; v[X] >>= 1;` -/
def SHR (X : Nat) (c : Chip8) : Except Halt Chip8 := do
  let a ← loadV c.v X
  let v1 ← storeV c.v 0xF (a &&& 0x1)
  let a1 ← loadV v1 X
  let v2 ← storeV v1 X (a1 >>> 1)
  pure { c with v := v2 }

/-- Instruction `8xy7`: `v[0xF] = !__builtin_sub_overflow(v[Y], v[X], &v[X]);` -/
def SUBN (X Y : Nat) (c : Chip8) : Except Halt Chip8 := do
  let a ← loadV c.v Y
  let b ← loadV c.v X
  let v1 ← storeV c.v X (subOverflow a b).1
  let v2 ← storeV v1 0xF (if (subOverflow a b).2 then 0 else 1)
  pure { c with v := v2 }

/-- Instruction `8xyE`: `v[0xF] = v[X] >> 7; v[X] <<= 1;` -/
def SHL (X : Nat) (c : Chip8) : Except Halt Chip8 := do
  let a ← loadV c.v X
  let v1 ← storeV c.v 0xF (a >>> 7)
  let a1 ← loadV v1 X
  let v2 ← storeV v1 X ((a1 <<< 1) % 256)
  pure { c with v := v2 }

/-! ## Loops -/

/-- Loop `for (k = 0; k < n; k++) body(k)`, the iterations run in increasing order of `k` and
the first failing iteration ends the loop. -/
def forUpTo {σ : Type} (body : Nat → σ → Except Halt σ) : Nat → σ → Except Halt σ
  | 0, s => .ok s
  | n + 1, s =>
    match forUpTo body n s with
    | .ok s1 => body n s1
    | .error e => .error e

/-! ## The remaining instructions -/

/-- Instruction `00E0`: `memset(windowSurface->pixels, 0, w * h * BytesPerPixel);` -/
def CLS (m : Machine) : Except Halt Machine :=
  let n := m.windowSurface.w * m.windowSurface.h
  .ok { m with windowSurface :=
          { m.windowSurface with
            pixels := fun k => if k < n then 0 else m.windowSurface.pixels k } }

/-- Instruction `00EE`: `chip8.pc = chip8.stack[--chip8.sp & 0x0Fu];` -/
def RET (c : Chip8) : Except Halt Chip8 := do
  let sp1 := (c.sp + 255) % 256
  let a ← load .stack STACK_SIZE c.stack (sp1 &&& 0x0F)
  pure { c with sp := sp1, pc := a }

/-- Instruction `1nnn`: `chip8.pc = opcode & 0x0FFFu;` -/
def JP (opcode : Nat) (c : Chip8) : Except Halt Chip8 :=
  pure { c with pc := opcode &&& 0x0FFF }

/-- Instruction `2nnn`: `chip8.stack[chip8.sp++ & 0x0Fu] = chip8.pc; chip8.pc = opcode & 0x0FFFu;` -/
def CALL (opcode : Nat) (c : Chip8) : Except Halt Chip8 := do
  let st ← store .stack STACK_SIZE c.stack (c.sp &&& 0x0F) c.pc
  pure { c with stack := st, sp := (c.sp + 1) % 256, pc := opcode &&& 0x0FFF }

/-- Instruction `3xnn`: `if (v[X] == (opcode & 0x00FFu)) chip8.pc += 2;` -/
def SE_imm (X opcode : Nat) (c : Chip8) : Except Halt Chip8 := do
  let a ← loadV c.v X
  pure (if a = opcode &&& 0x00FF then { c with pc := (c.pc + 2) % 65536 } else c)

/-- Instruction `4xnn`: `if (v[X] != (opcode & 0x00FFu)) chip8.pc += 2;` -/
def SNE_imm (X opcode : Nat) (c : Chip8) : Except Halt Chip8 := do
  let a ← loadV c.v X
  pure (if a ≠ opcode &&& 0x00FF then { c with pc := (c.pc + 2) % 65536 } else c)

/-- Instruction `5xy_`: `if (v[X] == v[Y]) chip8.pc += 2;` -/
def SE_reg (X Y : Nat) (c : Chip8) : Except Halt Chip8 := do
  let a ← loadV c.v X
  let b ← loadV c.v Y
  pure (if a = b then { c with pc := (c.pc + 2) % 65536 } else c)

/-- Instruction `6xnn`: `v[X] = opcode & 0x00FFu;` -/
def LD_imm (X opcode : Nat) (c : Chip8) : Except Halt Chip8 := do
  let v1 ← storeV c.v X (opcode &&& 0x00FF)
  pure { c with v := v1 }

/-- Instruction `7xnn`: `v[X] += opcode & 0x00FFu;` -/
def ADD_imm (X opcode : Nat) (c : Chip8) : Except Halt Chip8 := do
  let a ← loadV c.v X
  let v1 ← storeV c.v X ((a + (opcode &&& 0x00FF)) % 256)
  pure { c with v := v1 }

/-- Instruction `8xy0`: `v[X] = v[Y];` -/
def LD_reg (X Y : Nat) (c : Chip8) : Except Halt Chip8 := do
  let b ← loadV c.v Y
  let v1 ← storeV c.v X b
  pure { c with v := v1 }

/-- Instruction `8xy1`: `v[X] |= v[Y];` -/
def OR (X Y : Nat) (c : Chip8) : Except Halt Chip8 := do
  let a ← loadV c.v X
  let b ← loadV c.v Y
  let v1 ← storeV c.v X (a ||| b)
  pure { c with v := v1 }

/-- Instruction `8xy2`: `v[X] &= v[Y];` -/
def AND (X Y : Nat) (c : Chip8) : Except Halt Chip8 := do
  let a ← loadV c.v X
  let b ← loadV c.v Y
  let v1 ← storeV c.v X (a &&& b)
  pure { c with v := v1 }

/-- Instruction `8xy3`: `v[X] ^= v[Y];` -/
def XOR (X Y : Nat) (c : Chip8) : Except Halt Chip8 := do
  let a ← loadV c.v X
  let b ← loadV c.v Y
  let v1 ← storeV c.v X (a ^^^ b)
  pure { c with v := v1 }

/-- Instruction `9xy_`: `if (v[X] != v[Y]) chip8.pc += 2;` -/
def SNE_reg (X Y : Nat) (c : Chip8) : Except Halt Chip8 := do
  let a ← loadV c.v X
  let b ← loadV c.v Y
  pure (if a ≠ b then { c with pc := (c.pc + 2) % 65536 } else c)

/-- Instruction `Annn`: `chip8.i = opcode & 0x0FFFu;` -/
def LD_I (opcode : Nat) (c : Chip8) : Except Halt Chip8 :=
  pure { c with i := opcode &&& 0x0FFF }

/-- Instruction `Bnnn`: `chip8.pc = opcode & 0x0FFFu + (uint16_t)chip8.v[0x0u];`.  In C the operator
`+` binds tighter than `&`, so the right operand of `&` is `0x0FFFu + v[0]`. -/
def JP_V0 (opcode : Nat) (c : Chip8) : Except Halt Chip8 := do
  let v0 ← loadV c.v 0x0
  pure { c with pc := (opcode &&& (0x0FFF + v0)) % 65536 }

/-- Instruction `Cxnn`: `v[X] = (uint8_t)(rand() % 0x100) & (uint8_t)(opcode & 0x00FF);` -/
def RND (rand X opcode : Nat) (c : Chip8) : Except Halt Chip8 := do
  let v1 ← storeV c.v X (((rand % 0x100) % 256) &&& ((opcode &&& 0x00FF) % 256))
  pure { c with v := v1 }

/-- The offset of `screenPixel` from `windowSurface->pixels`:
`((y + row) * windowSurface->w) + (x + column)`. -/
def pixelIndex (w x y row column : Nat) : Nat := (y + row) * w + (x + column)

/-- The body of the inner loop of `Dxyn`, for one `row` and one `column`. -/
def drwPixel (x y row column : Nat) (m : Machine) : Except Halt Machine := do
  let idx := pixelIndex m.windowSurface.w x y row column
  let b ← loadHeap m.chip8.heap ((m.chip8.i + row) &&& 0x0FFF)
  let spritePixel : Bool := decide (b &&& (0x80 >>> column) ≠ 0)
  if spritePixel then
    let size := m.windowSurface.w * m.windowSurface.h
    let p ← load .pixels size m.windowSurface.pixels idx
    let v1 ← if p ≠ 0 then storeV m.chip8.v 0xF 1 else pure m.chip8.v
    let px ← store .pixels size m.windowSurface.pixels idx (p ^^^ 0x00FFFFFF)
    pure { m with chip8 := { m.chip8 with v := v1 },
                  windowSurface := { m.windowSurface with pixels := px } }
  else pure m

/-- The inner loop of `Dxyn`: `for (column = 0; column < 8; column++)`. -/
def drwRow (x y row : Nat) (m : Machine) : Except Halt Machine :=
  forUpTo (fun column => drwPixel x y row column) 8 m

/-- Instruction `Dxyn`. -/
def DRW (opcode : Nat) (m : Machine) : Except Halt Machine := do
  let vx ← loadV m.chip8.v ((opcode >>> 8) &&& 0x0F)
  if m.windowSurface.w = 0 then throw .divideByZero
  let x := (vx % m.windowSurface.w) % 256
  let vy ← loadV m.chip8.v ((opcode >>> 4) &&& 0x00F)
  if m.windowSurface.h = 0 then throw .divideByZero
  let y := (vy % m.windowSurface.h) % 256
  let v0 ← storeV m.chip8.v 0xF 0
  forUpTo (fun row => drwRow x y row) ((opcode &&& 0x000F) % 256)
    { m with flip := true, chip8 := { m.chip8 with v := v0 } }

/-- Test `keys[keyMap[k]]` -/
def keyDown (keys : Nat → Nat) (k : Nat) : Except Halt Bool :=
  match keyMap[k]? with
  | none => .error (.outOfBounds .keyMap k)
  | some sc =>
    match load .keys KEYS_SIZE keys sc with
    | .ok st => .ok (decide (st ≠ 0))
    | .error e => .error e

/-- Instruction `Ex9E`: `if (keys[keyMap[v[X]]]) chip8.pc += 2;` -/
def SKP (keys : Nat → Nat) (X : Nat) (c : Chip8) : Except Halt Chip8 := do
  let a ← loadV c.v X
  let d ← keyDown keys a
  pure (if d then { c with pc := (c.pc + 2) % 65536 } else c)

/-- Instruction `ExA1`: `if (!keys[keyMap[v[X]]]) chip8.pc += 2;` -/
def SKNP (keys : Nat → Nat) (X : Nat) (c : Chip8) : Except Halt Chip8 := do
  let a ← loadV c.v X
  let d ← keyDown keys a
  pure (if !d then { c with pc := (c.pc + 2) % 65536 } else c)

/-- The `for` loop of `Fx0A` over the candidates `i, i+1, ...`: the first logical key that
is down, if there is one. -/
def scanKeys (keys : Nat → Nat) : List Nat → Except Halt (Option Nat)
  | [] => .ok none
  | k :: rest =>
    match keyDown keys k with
    | .ok true => .ok (some k)
    | .ok false => scanKeys keys rest
    | .error e => .error e

/-- The waiting part of `Fx0A`: `SDL_WaitEvent` until a key-down event, then scan again. -/
def awaitKey : List Event → Except Halt Nat
  | [] => .error .starved
  | .quit :: _ => .error .quit
  | .other :: es => awaitKey es
  | .keydown keys :: es =>
    match scanKeys keys (List.range 16) with
    | .ok (some k) => .ok k
    | .ok none => awaitKey es
    | .error e => .error e

/-- Instruction `Fx0A`. -/
def LD_Vx_K (env : Env) (X : Nat) (c : Chip8) : Except Halt Chip8 := do
  let k ← match scanKeys env.keys (List.range 16) with
    | .ok (some k) => .ok k
    | .ok none => awaitKey env.events
    | .error e => .error e
  let v1 ← storeV c.v X k
  pure { c with v := v1 }

/-- Instruction `Fx07`: `v[X] = chip8.delay_timer;` -/
def LD_Vx_DT (X : Nat) (c : Chip8) : Except Halt Chip8 := do
  let v1 ← storeV c.v X c.delay_timer
  pure { c with v := v1 }

/-- Instruction `Fx15`: `chip8.delay_timer = v[X];` -/
def LD_DT_Vx (X : Nat) (c : Chip8) : Except Halt Chip8 := do
  let a ← loadV c.v X
  pure { c with delay_timer := a }

/-- Instruction `Fx18`: `chip8.sound_timer = v[X];` -/
def LD_ST_Vx (X : Nat) (c : Chip8) : Except Halt Chip8 := do
  let a ← loadV c.v X
  pure { c with sound_timer := a }

/-- Instruction `Fx1E`: `chip8.i += v[X];` -/
def ADD_I_Vx (X : Nat) (c : Chip8) : Except Halt Chip8 := do
  let a ← loadV c.v X
  pure { c with i := (c.i + a) % 65536 }

/-- Instruction `Fx29`: `chip8.i = FONT_START + (5u * v[X]);` -/
def LD_F_Vx (X : Nat) (c : Chip8) : Except Halt Chip8 := do
  let a ← loadV c.v X
  pure { c with i := (FONT_START + 5 * a) % 65536 }

/-- Instruction `Fx33`: the three stores, in the order of the source (ones, tens, hundreds). -/
def LD_B_Vx (X : Nat) (c : Chip8) : Except Halt Chip8 := do
  let value ← loadV c.v X
  let h1 ← storeHeap c.heap ((c.i + 2) &&& 0x0FFF) (value % 10)
  let value1 := (value / 10) % 256
  let h2 ← storeHeap h1 ((c.i + 1) &&& 0x0FFF) (value1 % 10)
  let value2 := (value1 / 10) % 256
  let h3 ← storeHeap h2 (c.i &&& 0x0FFF) (value2 % 10)
  pure { c with heap := h3 }

/-- Instruction `Fx55`: `for (i = 0; i <= X; i++) heap[(chip8.i + i) & 0x0FFFu] = v[i];` -/
def LD_I_Vx (X : Nat) (c : Chip8) : Except Halt Chip8 :=
  forUpTo (fun k c => do
    let a ← loadV c.v k
    let h1 ← storeHeap c.heap ((c.i + k) &&& 0x0FFF) a
    pure { c with heap := h1 }) (X + 1) c

/-- Instruction `Fx65`: `for (i = 0; i <= X; i++) v[i] = heap[(chip8.i + i) & 0x0FFFu];` -/
def LD_Vx_I (X : Nat) (c : Chip8) : Except Halt Chip8 :=
  forUpTo (fun k c => do
    let a ← loadHeap c.heap ((c.i + k) &&& 0x0FFF)
    let v1 ← storeV c.v k a
    pure { c with v := v1 }) (X + 1) c

/-! ## Decode and execute -/

/-- Put the result of an instruction that only touches `chip8` back into the machine. -/
def onChip8 (m : Machine) (r : Except Halt Chip8) : Except Halt Machine :=
  match r with
  | .ok c => .ok { m with chip8 := c }
  | .error e => .error e

/-- The `switch (opcode >> 12u)` statement.  An instruction word that no `case` matches
falls to a `default:` branch, which prints a message and changes nothing. -/
def execute (env : Env) (opcode : Nat) (m : Machine) : Except Halt Machine :=
  let X := (opcode >>> 8) &&& 0x0F
  let Y := (opcode >>> 4) &&& 0x00F
  let c := m.chip8
  if opcode >>> 12 = 0x0 then
    if opcode &&& 0x00FF = 0xe0 then CLS m
    else if opcode &&& 0x00FF = 0xee then onChip8 m (RET c)
    else .ok m
  else if opcode >>> 12 = 0x1 then onChip8 m (JP opcode c)
  else if opcode >>> 12 = 0x2 then onChip8 m (CALL opcode c)
  else if opcode >>> 12 = 0x3 then onChip8 m (SE_imm X opcode c)
  else if opcode >>> 12 = 0x4 then onChip8 m (SNE_imm X opcode c)
  else if opcode >>> 12 = 0x5 then onChip8 m (SE_reg X Y c)
  else if opcode >>> 12 = 0x6 then onChip8 m (LD_imm X opcode c)
  else if opcode >>> 12 = 0x7 then onChip8 m (ADD_imm X opcode c)
  else if opcode >>> 12 = 0x8 then
    if opcode &&& 0x000F = 0x0 then onChip8 m (LD_reg X Y c)
    else if opcode &&& 0x000F = 0x1 then onChip8 m (OR X Y c)
    else if opcode &&& 0x000F = 0x2 then onChip8 m (AND X Y c)
    else if opcode &&& 0x000F = 0x3 then onChip8 m (XOR X Y c)
    else if opcode &&& 0x000F = 0x4 then onChip8 m (ADD X Y c)
    else if opcode &&& 0x000F = 0x5 then onChip8 m (SUB X Y c)
    else if opcode &&& 0x000F = 0x6 then onChip8 m (SHR X c)
    else if opcode &&& 0x000F = 0x7 then onChip8 m (SUBN X Y c)
    else if opcode &&& 0x000F = 0xE then onChip8 m (SHL X c)
    else .ok m
  else if opcode >>> 12 = 0x9 then onChip8 m (SNE_reg X Y c)
  else if opcode >>> 12 = 0xA then onChip8 m (LD_I opcode c)
  else if opcode >>> 12 = 0xB then onChip8 m (JP_V0 opcode c)
  else if opcode >>> 12 = 0xC then onChip8 m (RND env.rand X opcode c)
  else if opcode >>> 12 = 0xD then DRW opcode m
  else if opcode >>> 12 = 0xE then
    if opcode &&& 0x00FF = 0x9E then onChip8 m (SKP env.keys X c)
    else if opcode &&& 0x00FF = 0xA1 then onChip8 m (SKNP env.keys X c)
    else .ok m
  else if opcode >>> 12 = 0xF then
    if opcode &&& 0x00FF = 0x07 then onChip8 m (LD_Vx_DT X c)
    else if opcode &&& 0x00FF = 0x0A then onChip8 m (LD_Vx_K env X c)
    else if opcode &&& 0x00FF = 0x15 then onChip8 m (LD_DT_Vx X c)
    else if opcode &&& 0x00FF = 0x18 then onChip8 m (LD_ST_Vx X c)
    else if opcode &&& 0x00FF = 0x1E then onChip8 m (ADD_I_Vx X c)
    else if opcode &&& 0x00FF = 0x29 then onChip8 m (LD_F_Vx X c)
    else if opcode &&& 0x00FF = 0x33 then onChip8 m (LD_B_Vx X c)
    else if opcode &&& 0x00FF = 0x55 then onChip8 m (LD_I_Vx X c)
    else if opcode &&& 0x00FF = 0x65 then onChip8 m (LD_Vx_I X c)
    else .ok m
  else .ok m

/-! ## One iteration of the main loop -/

/-- The fetch: `opcode = ((uint16_t)heap[pc & 0x0FFFu] << 8u) | (uint16_t)heap[(pc + 1) & 0x0FFFu]`. -/
def fetch (c : Chip8) : Except Halt Nat := do
  let hi ← loadHeap c.heap (c.pc &&& 0x0FFF)
  let lo ← loadHeap c.heap ((c.pc + 1) &&& 0x0FFF)
  pure (((hi <<< 8) ||| lo) % 65536)

/-- Statement `chip8.pc += 2;` -/
def advance (m : Machine) : Machine :=
  { m with chip8 := { m.chip8 with pc := (m.chip8.pc + 2) % 65536 } }

/-- Statement `if (flip) { SDL_UpdateWindowSurface(window); flip = false; }` -/
def present (m : Machine) : Machine :=
  if m.flip then { m with flip := false, updates := m.updates + 1 } else m

/-- The two timer statements at the end of the loop body. -/
def tick (m : Machine) : Machine :=
  let c := m.chip8
  let c1 := if c.delay_timer > 0 then { c with delay_timer := c.delay_timer - 1 } else c
  let c2 := if c1.sound_timer > 0 then { c1 with sound_timer := c1.sound_timer - 1 } else c1
  { m with chip8 := c2 }

/-- The body of `while (true)`: poll for quit, fetch, advance `pc`, decode and execute,
present, tick the timers. -/
def cycle (env : Env) (m : Machine) : Except Halt Machine :=
  if env.quit then .error .quit
  else
    match fetch m.chip8 with
    | .error e => .error e
    | .ok opcode =>
      match execute env opcode (advance m) with
      | .error e => .error e
      | .ok m1 => .ok (tick (present m1))

/-- The first `n` iterations of the loop, iteration `j` (counted from 0) taking its input
from `envs j`. -/
def run (envs : Nat → Env) : Nat → Machine → Except Halt Machine
  | 0, m => .ok m
  | n + 1, m =>
    match run envs n m with
    | .ok m1 => cycle (envs n) m1
    | .error e => .error e

/-- The instruction word that iteration `j` (counted from 0) fetches. -/
def opcodeAt (envs : Nat → Env) (j : Nat) (m : Machine) : Except Halt Nat :=
  match run envs j m with
  | .ok mj => fetch mj.chip8
  | .error e => .error e

/-- The machine after the first `j` iterations (the initial machine if they do not all
succeed). -/
def stateAt (envs : Nat → Env) (j : Nat) (m : Machine) : Machine :=
  match run envs j m with
  | .ok mj => mj
  | .error _ => m

/-! ## Set-up phase and well-formed states -/

/-- The state at the first iteration: `chip8` is zero-initialised, the font is copied to
`FONT_START`, at most `4096 - ROM_START` bytes of the program file are read to
`ROM_START`, `pc = ROM_START`, `flip = false`. -/
def boot (rom : List Nat) (surface : Surface) : Machine :=
  { chip8 :=
      { heap := fun a =>
          if ROM_START ≤ a ∧ a < HEAP_SIZE then rom.getD (a - ROM_START) 0
          else if FONT_START ≤ a ∧ a < FONT_START + font.length then font.getD (a - FONT_START) 0
          else 0
        stack := fun _ => 0
        v := fun _ => 0
        i := 0
        pc := ROM_START
        sp := 0
        delay_timer := 0
        sound_timer := 0 }
    windowSurface := surface
    flip := false
    updates := 0 }

/-- The values held in `chip8` are within their C types. -/
structure Chip8.WF (c : Chip8) : Prop where
  heap_u8 : ∀ a, c.heap a < 256
  stack_u16 : ∀ k, c.stack k < 65536
  v_u8 : ∀ k, c.v k < 256
  i_u16 : c.i < 65536
  pc_u16 : c.pc < 65536
  sp_u8 : c.sp < 256
  delay_u8 : c.delay_timer < 256
  sound_u8 : c.sound_timer < 256

/-- The window surface is the one of a `WIDTH` by `HEIGHT` window (`SDL_CreateWindow` is
called with these dimensions). -/
structure Surface.WF (s : Surface) : Prop where
  w_eq : s.w = WIDTH
  h_eq : s.h = HEIGHT
  pixels_u32 : ∀ k, s.pixels k < 4294967296

/-- A well-formed machine. -/
structure Machine.WF (m : Machine) : Prop where
  chip8 : m.chip8.WF
  surface : m.windowSurface.WF

/-- The pixel in column `px` of row `py`: `pixels[py * w + px]`. -/
def Surface.pixel (s : Surface) (px py : Nat) : Nat := s.pixels (py * s.w + px)

/-- A pixel is on when its value is not zero (the test `if (*screenPixel)`). -/
def Surface.on (s : Surface) (px py : Nat) : Prop := s.pixel px py ≠ 0

instance (s : Surface) (px py : Nat) : Decidable (s.on px py) := by
  unfold Surface.on; infer_instance

/-- The all-off surface of a `WIDTH` by `HEIGHT` window. -/
def blank : Surface := { w := WIDTH, h := HEIGHT, pixels := fun _ => 0 }

/-! ## Notions used to state what `Dxyn` does -/

/-- The sprite of `Dxyn` has a set bit in row `r`, column `c`: bit `7 - c` of the byte at
address `(I + r) mod 4096` is 1 (the most significant bit is column 0). -/
def spriteBit (c8 : Chip8) (r c : Nat) : Prop :=
  (c8.heap ((c8.i + r) % 4096)).testBit (7 - c) = true

instance (c8 : Chip8) (r c : Nat) : Decidable (spriteBit c8 r c) := by
  unfold spriteBit; infer_instance

/-- The pixel indices that `Dxyn` reaches through a set sprite bit, for a sprite of `n`
rows drawn from column `x0` of row `y0` on a surface of width 64. -/
def spriteHits (c8 : Chip8) (x0 y0 n : Nat) (k : Nat) : Prop :=
  ∃ r c, r < n ∧ c < 8 ∧ spriteBit c8 r c ∧ k = pixelIndex 64 x0 y0 r c

/-- The same for the first `cols` columns of the single row `r`. -/
def rowHits (c8 : Chip8) (x0 y0 r cols : Nat) (k : Nat) : Prop :=
  ∃ c, c < cols ∧ spriteBit c8 r c ∧ k = pixelIndex 64 x0 y0 r c

/-- Relation `Toggled m0 m1 H`: the machine `m1` is `m0` with the pixels whose index is in `H`
XORed with `0x00FFFFFF`, with `VF = 1` if one of those pixels was on in `m0` and the `VF`
of `m0` otherwise; nothing else differs. -/
structure Toggled (m0 m1 : Machine) (H : Nat → Prop) : Prop where
  heap : m1.chip8.heap = m0.chip8.heap
  stack : m1.chip8.stack = m0.chip8.stack
  i : m1.chip8.i = m0.chip8.i
  pc : m1.chip8.pc = m0.chip8.pc
  sp : m1.chip8.sp = m0.chip8.sp
  delay : m1.chip8.delay_timer = m0.chip8.delay_timer
  sound : m1.chip8.sound_timer = m0.chip8.sound_timer
  w : m1.windowSurface.w = m0.windowSurface.w
  h : m1.windowSurface.h = m0.windowSurface.h
  flip : m1.flip = m0.flip
  updates : m1.updates = m0.updates
  hit : ∀ k, H k → m1.windowSurface.pixels k = m0.windowSurface.pixels k ^^^ 0x00FFFFFF
  miss : ∀ k, ¬ H k → m1.windowSurface.pixels k = m0.windowSurface.pixels k
  regs : ∀ j, j ≠ 0xF → m1.chip8.v j = m0.chip8.v j
  collide : (∃ k, H k ∧ m0.windowSurface.pixels k ≠ 0) → m1.chip8.v 0xF = 1
  clean : (¬ ∃ k, H k ∧ m0.windowSurface.pixels k ≠ 0) → m1.chip8.v 0xF = m0.chip8.v 0xF

/-- The result `r` is not a failed access to one of the three arrays of `chip8`: it is
neither an index outside `heap`, nor outside `stack`, nor outside `v`. -/
def InBounds {α : Type} (r : Except Halt α) : Prop :=
  ∀ idx, r ≠ .error (.outOfBounds .heap idx) ∧ r ≠ .error (.outOfBounds .stack idx) ∧
    r ≠ .error (.outOfBounds .v idx)

/-! ## Concrete inputs -/

/-- An environment in which nothing happens: no quit request, no key down, `rand()`
returns 0, no event. -/
def env0 : Env := { quit := false, keys := fun _ => 0, rand := 0, events := [] }

/-- The register file holding the values of the list `l` in `V0, V1, ...` and 0 in the
registers after them. -/
def regs (l : List Nat) : Nat → Nat := fun k => l.getD k 0

/-- The machine after the set-up phase with an empty program and an all-off surface. -/
def m0 : Machine := boot [] blank

/-- The machine `m0` with the registers set from a list. -/
def withRegs (l : List Nat) : Machine := { m0 with chip8 := { m0.chip8 with v := regs l } }

/-- A machine whose program counter is at the last byte of the memory: `heap[0xFFF] = 0x12`
and `heap[0x000] = 0x34`. -/
def mWrap : Machine :=
  { m0 with chip8 := { m0.chip8 with pc := 0xFFF, heap := assign (assign m0.chip8.heap 0xFFF 0x12) 0 0x34 } }

/-- The machine `m0` with `I` at the font glyph of the digit `A` (rows `F0 90 F0 90 90`);
all registers are 0, so `D015` draws the glyph at (0, 0). -/
def mGlyph : Machine := { m0 with chip8 := { m0.chip8 with i := FONT_START + 5 * 0xA } }

/-- The machine `m0` with `I` at the font glyph of the digit `0` (rows `F0 90 90 90 F0`),
`V0 = 62` and `V1 = 0`: a sprite drawn at (`V0`, `V1`) starts two columns before the
right edge. -/
def mEdge : Machine :=
  { m0 with chip8 := { m0.chip8 with i := FONT_START, v := regs [62, 0] } }

/-- The machine `m0` with `I` at the font glyph of the digit `0`, `V0 = 0` and `V1 = 31`:
a sprite drawn at (`V0`, `V1`) starts on the last row. -/
def mBottom : Machine :=
  { m0 with chip8 := { m0.chip8 with i := FONT_START, v := regs [0, 31] } }

/-- A program of 17 nested calls: for `k = 0..16` the address `0x200 + 4 * k` holds
`CALL 0x200 + 4 * (k + 1)` followed by `RET`, and the address `0x244` holds `RET`. -/
def callChainRom : List Nat :=
  ((List.range 17).map (fun k => [0x22, 4 + 4 * k, 0x00, 0xEE])).flatten ++ [0x00, 0xEE]

/-- The machine after the set-up phase with the program `callChainRom`, with the stack
pointer at 250 (so that it also passes from 255 to 0 during the calls). -/
def mCalls : Machine :=
  { boot callChainRom blank with chip8 := { (boot callChainRom blank).chip8 with sp := 250 } }

/-- The machine `m0` with `I = 0x0FFE`, two bytes before the end of the memory, and the
registers `V0..VF` holding 1..16: a block transfer of all registers crosses address 4096. -/
def mBlock : Machine :=
  { m0 with chip8 := { m0.chip8 with
      i := 0x0FFE, v := regs [1, 2, 3, 4, 5, 6, 7, 8, 9, 10, 11, 12, 13, 14, 15, 16] } }

/-- The machine `m0` with `V3 = 157` and `I = 0x0FFF`, the last byte of the memory. -/
def mBcd : Machine :=
  { m0 with chip8 := { m0.chip8 with i := 0x0FFF, v := regs [0, 0, 0, 157] } }

/-- The machine `m0` with both timers at 5. -/
def mTimers : Machine :=
  { m0 with chip8 := { m0.chip8 with delay_timer := 5, sound_timer := 5 } }

/-- The environment `env0` in which `rand()` returns `0x1ABCD`. -/
def envRand : Env := { env0 with rand := 0x1ABCD }

/-- The machine after the set-up phase with the one-instruction program `8008` (group
`0x8` has no case for the low nibble 8), the delay timer at 3 and the sound timer at 0. -/
def mNoop : Machine :=
  { boot [0x80, 0x08] blank with
    chip8 := { (boot [0x80, 0x08] blank).chip8 with delay_timer := 3 } }

/-- A surface of a `WIDTH` by `HEIGHT` window on which only the top left pixel is on. -/
def litCorner : Surface :=
  { w := WIDTH, h := HEIGHT, pixels := fun k => if k = 0 then 0x00FFFFFF else 0 }

/-- The machine after the set-up phase with the one-instruction program `00E0` (`CLS`)
and the surface `litCorner`. -/
def mLit : Machine := boot [0x00, 0xE0] litCorner

/-- A program of 16 nested calls: for `k = 0..15` the address `0x200 + 4 * k` holds
`CALL 0x200 + 4 * (k + 1)` followed by `RET`, and the address `0x240` holds `RET`. -/
def lifoRom : List Nat :=
  ((List.range 16).map (fun k => [0x22, 4 + 4 * k, 0x00, 0xEE])).flatten ++ [0x00, 0xEE]

/-- The machine after the set-up phase with the program `lifoRom`, with the stack pointer
at 7. -/
def mLifo : Machine :=
  { boot lifoRom blank with chip8 := { (boot lifoRom blank).chip8 with sp := 7 } }

/-! # Theorems -/

/-! ## Bit operations as arithmetic -/

theorem and_0xF (n : Nat) : n &&& 0x0F = n % 16 := Nat.and_pow_two_sub_one_eq_mod n 4

theorem and_0xFF (n : Nat) : n &&& 0x00FF = n % 256 := Nat.and_pow_two_sub_one_eq_mod n 8

theorem and_0xFFF (n : Nat) : n &&& 0x0FFF = n % 4096 := Nat.and_pow_two_sub_one_eq_mod n 12

theorem shr_4 (n : Nat) : n >>> 4 = n / 16 := Nat.shiftRight_eq_div_pow n 4

theorem shr_8 (n : Nat) : n >>> 8 = n / 256 := Nat.shiftRight_eq_div_pow n 8

theorem shr_12 (n : Nat) : n >>> 12 = n / 4096 := Nat.shiftRight_eq_div_pow n 12

/-- Two bytes combined big-endian: the shifted high byte and the low byte share no bit. -/
theorem word_of_bytes (hi lo : Nat) (hhi : hi < 256) (hlo : lo < 256) :
    ((hi <<< 8) ||| lo) % 65536 = 256 * hi + lo := by
  have h : 2 ^ 8 * hi + lo = 2 ^ 8 * hi ||| lo := Nat.mul_add_lt_is_or hlo hi
  rw [Nat.shiftLeft_eq, Nat.mul_comm hi, ← h]
  omega

/-! ## Well-formed states -/

theorem getD_lt_of_forall (l : List Nat) (B k : Nat) (hB : 0 < B) (h : ∀ b ∈ l, b < B) :
    l.getD k 0 < B := by
  by_cases hk : k < l.length
  · have : l.getD k 0 = l[k] := by simp [List.getD, List.getElem?_eq_getElem hk]
    rw [this]
    exact h _ (List.getElem_mem hk)
  · have : l.getD k 0 = 0 := by
      simp [List.getD, List.getElem?_eq_none (Nat.le_of_not_lt hk)]
    omega

theorem boot_wf (rom : List Nat) (surface : Surface) (hrom : ∀ b ∈ rom, b < 256) :
    (boot rom surface).chip8.WF where
  heap_u8 := by
    intro a
    simp only [boot]
    split
    · exact getD_lt_of_forall rom 256 _ (by decide) hrom
    · split
      · exact getD_lt_of_forall font 256 _ (by decide) (by simp only [font]; decide)
      · decide
  stack_u16 := by intro k; simp [boot]
  v_u8 := by intro k; simp [boot]
  i_u16 := by simp [boot]
  pc_u16 := by simp [boot, ROM_START]
  sp_u8 := by simp [boot]
  delay_u8 := by simp [boot]
  sound_u8 := by simp [boot]

theorem blank_wf : blank.WF where
  w_eq := rfl
  h_eq := rfl
  pixels_u32 := by intro k; simp [blank]

/-! ## Fetch -/

theorem fetch_eq (c : Chip8) (h : c.WF) :
    fetch c = .ok (256 * c.heap (c.pc % 4096) + c.heap ((c.pc + 1) % 4096)) := by
  have h1 : c.pc % 4096 < HEAP_SIZE := by unfold HEAP_SIZE; omega
  have h2 : (c.pc + 1) % 4096 < HEAP_SIZE := by unfold HEAP_SIZE; omega
  simp only [fetch, and_0xFFF, loadHeap, load, h1, h2, if_true, bind, Except.bind,
    pure, Except.pure]
  rw [word_of_bytes _ _ (h.heap_u8 _) (h.heap_u8 _)]

/-! ## Decoding -/

theorem decode_8xyN (x y n : Nat) (hx : x < 16) (hy : y < 16) (hn : n < 16) :
    (0x8000 + 0x100 * x + 0x10 * y + n) >>> 12 = 8 ∧
    ((0x8000 + 0x100 * x + 0x10 * y + n) >>> 8) &&& 0x0F = x ∧
    ((0x8000 + 0x100 * x + 0x10 * y + n) >>> 4) &&& 0x00F = y ∧
    (0x8000 + 0x100 * x + 0x10 * y + n) &&& 0x000F = n := by
  simp only [shr_12, shr_8, shr_4, and_0xF]
  omega

theorem assign_self (arr : Nat → Nat) (idx x : Nat) : assign arr idx x idx = x := by
  simp [assign]

theorem assign_ne (arr : Nat → Nat) (idx x k : Nat) (h : k ≠ idx) :
    assign arr idx x k = arr k := by
  simp [assign, h]

theorem assign_lt (arr : Nat → Nat) (idx x B : Nat) (harr : ∀ k, arr k < B) (hx : x < B) :
    ∀ k, assign arr idx x k < B := by
  intro k
  unfold assign
  split
  · exact hx
  · exact harr k

/-! ## C1: fetch -/

/-- C1. Fetch: in every well-formed state, one iteration of the loop executes the word
`256 * heap[pc mod 4096] + heap[(pc + 1) mod 4096]` (each byte address wrapped on its own)
in the state whose `pc` has already been advanced by 2 modulo 2^16; the iteration then
presents the surface if asked to and ticks the timers. -/
theorem cycle_fetches_big_endian_word (env : Env) (m : Machine) (hwf : m.chip8.WF)
    (hq : env.quit = false) :
    fetch m.chip8
        = .ok (256 * m.chip8.heap (m.chip8.pc % 4096) + m.chip8.heap ((m.chip8.pc + 1) % 4096)) ∧
    cycle env m =
      (match execute env
          (256 * m.chip8.heap (m.chip8.pc % 4096) + m.chip8.heap ((m.chip8.pc + 1) % 4096))
          { m with chip8 := { m.chip8 with pc := (m.chip8.pc + 2) % 65536 } } with
        | .ok m1 => .ok (tick (present m1))
        | .error e => .error e) := by
  refine ⟨fetch_eq _ hwf, ?_⟩
  simp only [cycle, hq, fetch_eq _ hwf, advance, Bool.false_eq_true, if_false]
  cases execute env _ _ <;> rfl

/-- C1 at `pc = 0x0FFF`: the high byte comes from address `0xFFF`, the low byte from
address `0x000`, the word is `0x1234` and it runs with `pc = 0x1001`. -/
theorem cycle_fetches_big_endian_word_witness :
    mWrap.chip8.WF ∧ env0.quit = false ∧ mWrap.chip8.pc = 0x0FFF ∧
    fetch mWrap.chip8 = .ok 0x1234 ∧
    cycle env0 mWrap =
      (match execute env0 0x1234
          { mWrap with chip8 := { mWrap.chip8 with pc := 0x1001 } } with
        | .ok m1 => .ok (tick (present m1))
        | .error e => .error e) :=
  have hwf : mWrap.chip8.WF :=
    { boot_wf [] blank (by simp) with
      heap_u8 := assign_lt _ _ _ 256
        (assign_lt _ _ _ 256 (boot_wf [] blank (by simp)).heap_u8 (by decide)) (by decide)
      pc_u16 := by decide }
  ⟨hwf, rfl, rfl, (cycle_fetches_big_endian_word env0 mWrap hwf rfl).1,
    (cycle_fetches_big_endian_word env0 mWrap hwf rfl).2⟩

/-! ## C2, C3: the arithmetic instructions of the `0x8` group -/

theorem execute_8xyN (env : Env) (m : Machine) (x y n : Nat) (hx : x < 16) (hy : y < 16)
    (hn : n < 16) :
    execute env (0x8000 + 0x100 * x + 0x10 * y + n) m =
      if n = 0x0 then onChip8 m (LD_reg x y m.chip8)
      else if n = 0x1 then onChip8 m (OR x y m.chip8)
      else if n = 0x2 then onChip8 m (AND x y m.chip8)
      else if n = 0x3 then onChip8 m (XOR x y m.chip8)
      else if n = 0x4 then onChip8 m (ADD x y m.chip8)
      else if n = 0x5 then onChip8 m (SUB x y m.chip8)
      else if n = 0x6 then onChip8 m (SHR x m.chip8)
      else if n = 0x7 then onChip8 m (SUBN x y m.chip8)
      else if n = 0xE then onChip8 m (SHL x m.chip8)
      else .ok m := by
  obtain ⟨h12, hX, hY, hN⟩ := decode_8xyN x y n hx hy hn
  simp only [execute, h12, hX, hY, hN]
  simp

theorem subOverflow_value (a b : Nat) :
    ((subOverflow a b).1 : Int) = ((a : Int) - (b : Int)) % 256 := by
  simp only [subOverflow]
  exact Int.toNat_of_nonneg (Int.emod_nonneg _ (by decide))

/-- C2. `ADD Vx,Vy` (8xy4) with `x` in 0..14 and `y` in 0..15: the instruction succeeds,
`Vx` becomes `(Vx + Vy) mod 256`, `VF` becomes 1 when `Vx + Vy > 255` and 0 otherwise, no
other register changes and nothing outside the register file changes. -/
theorem add_vx_vy_sum_and_carry (env : Env) (m : Machine) (x y : Nat) (hx : x < 15)
    (hy : y < 16) :
    ∃ v1, execute env (0x8000 + 0x100 * x + 0x10 * y + 0x4) m
        = .ok { m with chip8 := { m.chip8 with v := v1 } } ∧
      v1 x = (m.chip8.v x + m.chip8.v y) % 256 ∧
      v1 0xF = (if m.chip8.v x + m.chip8.v y > 255 then 1 else 0) ∧
      ∀ k, k ≠ x → k ≠ 0xF → v1 k = m.chip8.v k := by
  have hx16 : x < 16 := by omega
  have hne : x ≠ 15 := by omega
  refine ⟨assign (assign m.chip8.v x ((m.chip8.v x + m.chip8.v y) % 256)) 0xF
    (if m.chip8.v x + m.chip8.v y > 255 then 1 else 0), ?_, ?_, ?_, ?_⟩
  · rw [execute_8xyN env m x y 4 hx16 hy (by decide)]
    simp [ADD, loadV, storeV, load, store, V_SIZE, hx16, hy, bind, Except.bind, pure,
      Except.pure, onChip8]
  · rw [assign_ne _ _ _ _ hne, assign_self]
  · rw [assign_self]
  · intro k hk hkF
    rw [assign_ne _ _ _ _ hkF, assign_ne _ _ _ _ hk]

/-- C2 on the two inputs of the specification: `0xFF + 0x01` gives `V0 = 0x00`, `VF = 1`,
and `0x01 + 0x01` gives `V0 = 0x02`, `VF = 0` (instruction `8014`, `x = 0`, `y = 1`). -/
theorem add_vx_vy_sum_and_carry_witness :
    ((0 : Nat) < 15 ∧ (1 : Nat) < 16) ∧
    (∃ v1, execute env0 0x8014 (withRegs [0xFF, 0x01])
        = .ok { withRegs [0xFF, 0x01] with
                chip8 := { (withRegs [0xFF, 0x01]).chip8 with v := v1 } } ∧
      v1 0 = 0x00 ∧ v1 0xF = 1 ∧ ∀ k, k ≠ 0 → k ≠ 0xF → v1 k = regs [0xFF, 0x01] k) ∧
    (∃ v1, execute env0 0x8014 (withRegs [0x01, 0x01])
        = .ok { withRegs [0x01, 0x01] with
                chip8 := { (withRegs [0x01, 0x01]).chip8 with v := v1 } } ∧
      v1 0 = 0x02 ∧ v1 0xF = 0 ∧ ∀ k, k ≠ 0 → k ≠ 0xF → v1 k = regs [0x01, 0x01] k) :=
  ⟨⟨by decide, by decide⟩,
    add_vx_vy_sum_and_carry env0 (withRegs [0xFF, 0x01]) 0 1 (by decide) (by decide),
    add_vx_vy_sum_and_carry env0 (withRegs [0x01, 0x01]) 0 1 (by decide) (by decide)⟩

/-- C3. `SUB Vx,Vy` (8xy5) and `SUBN Vx,Vy` (8xy7) with `x` in 0..14 and `y` in 0..15.
With `(a, b) = (Vx, Vy)` for 8xy5 and `(a, b) = (Vy, Vx)` for 8xy7, the instruction
succeeds, `Vx` becomes `(a - b) mod 256` (the difference taken in the integers), `VF`
becomes 1 when `a >= b` and 0 otherwise, and no other register changes. -/
theorem sub_subn_difference_and_no_borrow (env : Env) (m : Machine) (x y : Nat) (hx : x < 15)
    (hy : y < 16) :
    (∃ v1, execute env (0x8000 + 0x100 * x + 0x10 * y + 0x5) m
        = .ok { m with chip8 := { m.chip8 with v := v1 } } ∧
      (v1 x : Int) = ((m.chip8.v x : Int) - (m.chip8.v y : Int)) % 256 ∧
      v1 0xF = (if m.chip8.v x ≥ m.chip8.v y then 1 else 0) ∧
      ∀ k, k ≠ x → k ≠ 0xF → v1 k = m.chip8.v k) ∧
    (∃ v1, execute env (0x8000 + 0x100 * x + 0x10 * y + 0x7) m
        = .ok { m with chip8 := { m.chip8 with v := v1 } } ∧
      (v1 x : Int) = ((m.chip8.v y : Int) - (m.chip8.v x : Int)) % 256 ∧
      v1 0xF = (if m.chip8.v y ≥ m.chip8.v x then 1 else 0) ∧
      ∀ k, k ≠ x → k ≠ 0xF → v1 k = m.chip8.v k) := by
  have hx16 : x < 16 := by omega
  have hne : x ≠ 15 := by omega
  constructor
  · refine ⟨assign (assign m.chip8.v x (subOverflow (m.chip8.v x) (m.chip8.v y)).1) 0xF
      (if (subOverflow (m.chip8.v x) (m.chip8.v y)).2 then 0 else 1), ?_, ?_, ?_, ?_⟩
    · rw [execute_8xyN env m x y 5 hx16 hy (by decide)]
      simp [SUB, loadV, storeV, load, store, V_SIZE, hx16, hy, bind, Except.bind, pure,
        Except.pure, onChip8]
    · rw [assign_ne _ _ _ _ hne, assign_self, subOverflow_value]
    · rw [assign_self]
      simp only [subOverflow, decide_eq_true_eq]
      split <;> split <;> omega
    · intro k hk hkF
      rw [assign_ne _ _ _ _ hkF, assign_ne _ _ _ _ hk]
  · refine ⟨assign (assign m.chip8.v x (subOverflow (m.chip8.v y) (m.chip8.v x)).1) 0xF
      (if (subOverflow (m.chip8.v y) (m.chip8.v x)).2 then 0 else 1), ?_, ?_, ?_, ?_⟩
    · rw [execute_8xyN env m x y 7 hx16 hy (by decide)]
      simp [SUBN, loadV, storeV, load, store, V_SIZE, hx16, hy, bind, Except.bind, pure,
        Except.pure, onChip8]
    · rw [assign_ne _ _ _ _ hne, assign_self, subOverflow_value]
    · rw [assign_self]
      simp only [subOverflow, decide_eq_true_eq]
      split <;> split <;> omega
    · intro k hk hkF
      rw [assign_ne _ _ _ _ hkF, assign_ne _ _ _ _ hk]

/-- C3 on the two inputs of the specification, instruction `8015` (`x = 0`, `y = 1`):
`0x05 - 0x03` gives `V0 = 0x02`, `VF = 1`, and `0x03 - 0x05` gives `V0 = 0xFE`, `VF = 0`. -/
theorem sub_subn_difference_and_no_borrow_witness :
    ((0 : Nat) < 15 ∧ (1 : Nat) < 16) ∧
    (∃ v1, execute env0 0x8015 (withRegs [0x05, 0x03])
        = .ok { withRegs [0x05, 0x03] with
                chip8 := { (withRegs [0x05, 0x03]).chip8 with v := v1 } } ∧
      (v1 0 : Int) = 0x02 ∧ v1 0xF = 1 ∧ ∀ k, k ≠ 0 → k ≠ 0xF → v1 k = regs [0x05, 0x03] k) ∧
    (∃ v1, execute env0 0x8015 (withRegs [0x03, 0x05])
        = .ok { withRegs [0x03, 0x05] with
                chip8 := { (withRegs [0x03, 0x05]).chip8 with v := v1 } } ∧
      (v1 0 : Int) = 0xFE ∧ v1 0xF = 0 ∧ ∀ k, k ≠ 0 → k ≠ 0xF → v1 k = regs [0x03, 0x05] k) :=
  ⟨⟨by decide, by decide⟩,
    (sub_subn_difference_and_no_borrow env0 (withRegs [0x05, 0x03]) 0 1 (by decide)
      (by decide)).1,
    (sub_subn_difference_and_no_borrow env0 (withRegs [0x03, 0x05]) 0 1 (by decide)
      (by decide)).1⟩

/-! ## C4: the flag register as destination -/

/-- For `ADD`, `SUB` and `SUBN` the flag is stored after the arithmetic result, so it is
the final value of `VF` for every `x` in 0..15, `x = 0xF` included. -/
theorem flag_written_last_add_sub_subn (env : Env) (m : Machine) (x y : Nat) (hx : x < 16)
    (hy : y < 16) :
    (∃ v1, execute env (0x8000 + 0x100 * x + 0x10 * y + 0x4) m
        = .ok { m with chip8 := { m.chip8 with v := v1 } } ∧
      v1 0xF = (if m.chip8.v x + m.chip8.v y > 255 then 1 else 0)) ∧
    (∃ v1, execute env (0x8000 + 0x100 * x + 0x10 * y + 0x5) m
        = .ok { m with chip8 := { m.chip8 with v := v1 } } ∧
      v1 0xF = (if m.chip8.v x ≥ m.chip8.v y then 1 else 0)) ∧
    (∃ v1, execute env (0x8000 + 0x100 * x + 0x10 * y + 0x7) m
        = .ok { m with chip8 := { m.chip8 with v := v1 } } ∧
      v1 0xF = (if m.chip8.v y ≥ m.chip8.v x then 1 else 0)) := by
  refine ⟨⟨assign (assign m.chip8.v x ((m.chip8.v x + m.chip8.v y) % 256)) 0xF
      (if m.chip8.v x + m.chip8.v y > 255 then 1 else 0), ?_, assign_self _ _ _⟩,
    ⟨assign (assign m.chip8.v x (subOverflow (m.chip8.v x) (m.chip8.v y)).1) 0xF
      (if (subOverflow (m.chip8.v x) (m.chip8.v y)).2 then 0 else 1), ?_, ?_⟩,
    ⟨assign (assign m.chip8.v x (subOverflow (m.chip8.v y) (m.chip8.v x)).1) 0xF
      (if (subOverflow (m.chip8.v y) (m.chip8.v x)).2 then 0 else 1), ?_, ?_⟩⟩
  · rw [execute_8xyN env m x y 4 hx hy (by decide)]
    simp [ADD, loadV, storeV, load, store, V_SIZE, hx, hy, bind, Except.bind, pure,
      Except.pure, onChip8]
  · rw [execute_8xyN env m x y 5 hx hy (by decide)]
    simp [SUB, loadV, storeV, load, store, V_SIZE, hx, hy, bind, Except.bind, pure,
      Except.pure, onChip8]
  · rw [assign_self]
    simp only [subOverflow, decide_eq_true_eq]
    split <;> split <;> omega
  · rw [execute_8xyN env m x y 7 hx hy (by decide)]
    simp [SUBN, loadV, storeV, load, store, V_SIZE, hx, hy, bind, Except.bind, pure,
      Except.pure, onChip8]
  · rw [assign_self]
    simp only [subOverflow, decide_eq_true_eq]
    split <;> split <;> omega

/-- For `SHR` and `SHL` the flag is stored before the shifted value; with `x` in 0..14 the
two stores go to different registers and `VF` ends as the low bit (`SHR`) or as
`Vx >> 7` (`SHL`) of the old `Vx`. -/
theorem flag_of_shift_other_destination (env : Env) (m : Machine) (x y : Nat) (hx : x < 15)
    (hy : y < 16) :
    (∃ v1, execute env (0x8000 + 0x100 * x + 0x10 * y + 0x6) m
        = .ok { m with chip8 := { m.chip8 with v := v1 } } ∧
      v1 0xF = m.chip8.v x % 2 ∧ v1 x = m.chip8.v x / 2) ∧
    (∃ v1, execute env (0x8000 + 0x100 * x + 0x10 * y + 0xE) m
        = .ok { m with chip8 := { m.chip8 with v := v1 } } ∧
      v1 0xF = m.chip8.v x / 128 ∧ v1 x = (2 * m.chip8.v x) % 256) := by
  have hx16 : x < 16 := by omega
  have hne : x ≠ 15 := by omega
  have hne2 : (15 : Nat) ≠ x := by omega
  constructor
  · refine ⟨assign (assign m.chip8.v 0xF (m.chip8.v x &&& 0x1)) x (m.chip8.v x >>> 1),
      ?_, ?_, ?_⟩
    · rw [execute_8xyN env m x y 6 hx16 hy (by decide)]
      simp [SHR, loadV, storeV, load, store, V_SIZE, hx16, bind, Except.bind, pure,
        Except.pure, onChip8, assign, hne]
    · rw [assign_ne _ _ _ _ hne2, assign_self, Nat.and_one_is_mod]
    · rw [assign_self, Nat.shiftRight_eq_div_pow]
  · refine ⟨assign (assign m.chip8.v 0xF (m.chip8.v x >>> 7)) x ((m.chip8.v x <<< 1) % 256),
      ?_, ?_, ?_⟩
    · rw [execute_8xyN env m x y 0xE hx16 hy (by decide)]
      simp [SHL, loadV, storeV, load, store, V_SIZE, hx16, bind, Except.bind, pure,
        Except.pure, onChip8, assign, hne]
    · rw [assign_ne _ _ _ _ hne2, assign_self, Nat.shiftRight_eq_div_pow]
    · rw [assign_self, Nat.shiftLeft_eq]; omega

/-- For every state, `SHR VF` (8F_6) ends with `VF = 0` and `SHL VF` (8F_E) ends with
`VF = 2 * (VF_old >> 7) mod 256`: the shifted value is stored over the flag. -/
theorem flag_of_shift_into_vf (env : Env) (m : Machine) (y : Nat) (hy : y < 16) :
    (∃ v1, execute env (0x8000 + 0x100 * 0xF + 0x10 * y + 0x6) m
        = .ok { m with chip8 := { m.chip8 with v := v1 } } ∧ v1 0xF = 0) ∧
    (∃ v1, execute env (0x8000 + 0x100 * 0xF + 0x10 * y + 0xE) m
        = .ok { m with chip8 := { m.chip8 with v := v1 } } ∧
      v1 0xF = (2 * (m.chip8.v 0xF / 128)) % 256) := by
  constructor
  · refine ⟨assign (assign m.chip8.v 0xF (m.chip8.v 0xF &&& 0x1)) 0xF
      ((m.chip8.v 0xF &&& 0x1) >>> 1), ?_, ?_⟩
    · rw [execute_8xyN env m 0xF y 6 (by decide) hy (by decide)]
      simp [SHR, loadV, storeV, load, store, V_SIZE, bind, Except.bind, pure,
        Except.pure, onChip8, assign]
    · rw [assign_self, Nat.and_one_is_mod, Nat.shiftRight_eq_div_pow]; omega
  · refine ⟨assign (assign m.chip8.v 0xF (m.chip8.v 0xF >>> 7)) 0xF
      (((m.chip8.v 0xF >>> 7) <<< 1) % 256), ?_, ?_⟩
    · rw [execute_8xyN env m 0xF y 0xE (by decide) hy (by decide)]
      simp [SHL, loadV, storeV, load, store, V_SIZE, bind, Except.bind, pure,
        Except.pure, onChip8, assign]
    · rw [assign_self, Nat.shiftRight_eq_div_pow, Nat.shiftLeft_eq]; omega

/-- C4, the code at `x = 0xF`.  `SHR VF` (8F06) with `VF = 0x01`: the low bit of the old
value is 1, and `VF` is 0 after the instruction.  `SHL VF` (8F0E) with `VF = 0x80`: the
high bit of the old value is 1, and `VF` is 2 after the instruction, which is neither 0
nor 1. -/
theorem shift_into_vf_is_not_the_flag :
    (withRegs (List.replicate 15 0 ++ [0x01])).chip8.v 0xF % 2 = 1 ∧
    Except.map (fun m1 => m1.chip8.v 0xF)
      (execute env0 0x8F06 (withRegs (List.replicate 15 0 ++ [0x01]))) = .ok 0 ∧
    (withRegs (List.replicate 15 0 ++ [0x80])).chip8.v 0xF / 128 = 1 ∧
    Except.map (fun m1 => m1.chip8.v 0xF)
      (execute env0 0x8F0E (withRegs (List.replicate 15 0 ++ [0x80]))) = .ok 2 := by
  decide

/-! ## C9: `JP V0,nnn` -/

/-- The jump of `Bnnn` as the code computes it: `pc = opcode & (0x0FFF + V0)`. -/
theorem execute_Bnnn (env : Env) (m : Machine) (nnn : Nat) (h : nnn < 4096) :
    execute env (0xB000 + nnn) m
      = .ok { m with chip8 :=
                { m.chip8 with pc := ((0xB000 + nnn) &&& (0x0FFF + m.chip8.v 0)) % 65536 } } := by
  have h12 : (0xB000 + nnn) >>> 12 = 0xB := by rw [shr_12]; omega
  simp only [execute, h12]
  simp [JP_V0, loadV, load, V_SIZE, bind, Except.bind, pure, Except.pure, onChip8]

/-- C9, the code at `B123` with `V0 = 0x01`: the claim gives `pc = 0x123 + 0x01 = 0x124`,
the code gives `pc = 0xB123 & 0x1000 = 0x1000`; and at `B200` with `V0 = 0x02` the claim
gives `0x202`, the code gives `0xB200 & 0x1001 = 0x1000`. -/
theorem jp_v0_masks_instead_of_adding :
    Except.map (fun m1 => m1.chip8.pc) (execute env0 0xB123 (withRegs [0x01])) = .ok 0x1000 ∧
    0x123 + (withRegs [0x01]).chip8.v 0 = 0x124 ∧
    Except.map (fun m1 => m1.chip8.pc) (execute env0 0xB200 (withRegs [0x02])) = .ok 0x1000 ∧
    0x200 + (withRegs [0x02]).chip8.v 0 = 0x202 := by
  decide

/-! ## `Dxyn`: the drawing loops -/

theorem and_two_pow_ne_zero (b k : Nat) : b &&& 2 ^ k ≠ 0 ↔ b.testBit k = true := by
  constructor
  · intro h
    by_contra hb
    apply h
    apply Nat.eq_of_testBit_eq
    intro i
    simp only [Nat.testBit_and, Nat.testBit_two_pow, Nat.zero_testBit]
    by_cases hki : k = i
    · subst hki
      simp [hb]
    · simp [hki]
  · intro hb h
    have h2 := congrArg (fun z => Nat.testBit z k) h
    simp [Nat.testBit_and, Nat.testBit_two_pow, hb] at h2

/-- The test `heap[(i + row) & 0x0FFF] & (0x80 >> column)` of the source reads bit
`7 - column` of the sprite byte. -/
theorem spritePixel_iff (c8 : Chip8) (r c : Nat) (hc : c < 8) :
    c8.heap ((c8.i + r) &&& 0x0FFF) &&& (0x80 >>> c) ≠ 0 ↔ spriteBit c8 r c := by
  have h : (0x80 : Nat) >>> c = 2 ^ (7 - c) := by
    interval_cases c <;> rfl
  rw [h, and_0xFFF, and_two_pow_ne_zero]
  rfl

theorem drwPixel_clear (x y r c : Nat) (m : Machine) (hc : c < 8)
    (hbit : ¬ spriteBit m.chip8 r c) : drwPixel x y r c m = .ok m := by
  have hlt : (m.chip8.i + r) &&& 0x0FFF < HEAP_SIZE := by
    rw [and_0xFFF]; unfold HEAP_SIZE; omega
  have hb := (spritePixel_iff m.chip8 r c hc).not.mpr hbit
  simp only [drwPixel, loadHeap, load, hlt, if_true, bind, Except.bind, pure, Except.pure]
  simp only [decide_eq_true_eq]
  rw [if_neg hb]

theorem drwPixel_set (x y r c : Nat) (m : Machine) (hc : c < 8)
    (hw : m.windowSurface.w = 64) (hh : m.windowSurface.h = 32)
    (hbit : spriteBit m.chip8 r c) (hidx : pixelIndex 64 x y r c < 2048) :
    drwPixel x y r c m = .ok
      { m with
        chip8 := { m.chip8 with
          v := if m.windowSurface.pixels (pixelIndex 64 x y r c) ≠ 0
               then assign m.chip8.v 0xF 1 else m.chip8.v }
        windowSurface := { m.windowSurface with
          pixels := assign m.windowSurface.pixels (pixelIndex 64 x y r c)
            (m.windowSurface.pixels (pixelIndex 64 x y r c) ^^^ 0x00FFFFFF) } } := by
  have hlt : (m.chip8.i + r) &&& 0x0FFF < HEAP_SIZE := by
    rw [and_0xFFF]; unfold HEAP_SIZE; omega
  have hb := (spritePixel_iff m.chip8 r c hc).mpr hbit
  have hsz : pixelIndex 64 x y r c < 64 * 32 := hidx
  simp only [drwPixel, loadHeap, load, store, storeV, V_SIZE, hlt, if_true, bind, Except.bind,
    pure, Except.pure, hw, hh, hsz]
  simp only [decide_eq_true_eq]
  rw [if_pos hb]
  by_cases hp : m.windowSurface.pixels (pixelIndex 64 x y r c) = 0
  · simp [hp]
  · simp [hp]

theorem Toggled.start (m : Machine) : Toggled m m (fun _ => False) where
  heap := rfl
  stack := rfl
  i := rfl
  pc := rfl
  sp := rfl
  delay := rfl
  sound := rfl
  w := rfl
  h := rfl
  flip := rfl
  updates := rfl
  hit := fun _ h => h.elim
  miss := fun _ _ => rfl
  regs := fun _ _ => rfl
  collide := fun ⟨_, h, _⟩ => h.elim
  clean := fun _ => rfl

theorem Toggled.congr {m0 m1 : Machine} {H H1 : Nat → Prop} (t : Toggled m0 m1 H)
    (h : ∀ k, H k ↔ H1 k) : Toggled m0 m1 H1 where
  heap := t.heap
  stack := t.stack
  i := t.i
  pc := t.pc
  sp := t.sp
  delay := t.delay
  sound := t.sound
  w := t.w
  h := t.h
  flip := t.flip
  updates := t.updates
  hit := fun k hk => t.hit k ((h k).mpr hk)
  miss := fun k hk => t.miss k (fun hk1 => hk ((h k).mp hk1))
  regs := t.regs
  collide := fun ⟨k, hk, hp⟩ => t.collide ⟨k, (h k).mpr hk, hp⟩
  clean := fun hn => t.clean (fun ⟨k, hk, hp⟩ => hn ⟨k, (h k).mp hk, hp⟩)

/-- The sprite bits only depend on the memory and on `I`. -/
theorem spriteBit_congr (c1 c2 : Chip8) (hheap : c1.heap = c2.heap) (hi : c1.i = c2.i)
    (r c : Nat) : spriteBit c1 r c ↔ spriteBit c2 r c := by
  unfold spriteBit
  rw [hheap, hi]

/-- One pass through the body of the inner loop keeps the invariant `Toggled`, adding the
pixel of this row and column to the toggled set when the sprite bit is set. -/
theorem drwPixel_toggled (m0 m : Machine) (H : Nat → Prop) (x y r c : Nat)
    (t : Toggled m0 m H) (hc : c < 8)
    (hw : m0.windowSurface.w = 64) (hh : m0.windowSurface.h = 32)
    (hfree : spriteBit m0.chip8 r c →
      pixelIndex 64 x y r c < 2048 ∧ ¬ H (pixelIndex 64 x y r c)) :
    ∃ m1, drwPixel x y r c m = .ok m1 ∧
      Toggled m0 m1 (fun k => H k ∨ (spriteBit m0.chip8 r c ∧ k = pixelIndex 64 x y r c)) := by
  have hbits := spriteBit_congr m.chip8 m0.chip8 t.heap t.i r c
  by_cases hbit : spriteBit m0.chip8 r c
  · obtain ⟨hidx, hH⟩ := hfree hbit
    refine ⟨_, drwPixel_set x y r c m hc (t.w.trans hw) (t.h.trans hh) (hbits.mpr hbit) hidx, ?_⟩
    have hsame : m.windowSurface.pixels (pixelIndex 64 x y r c)
        = m0.windowSurface.pixels (pixelIndex 64 x y r c) := t.miss _ hH
    refine
      { heap := t.heap, stack := t.stack, i := t.i, pc := t.pc, sp := t.sp, delay := t.delay,
        sound := t.sound, w := t.w, h := t.h, flip := t.flip, updates := t.updates,
        hit := ?_, miss := ?_, regs := ?_, collide := ?_, clean := ?_ }
    · intro k hk
      show assign _ _ _ k = _
      rcases hk with hk | ⟨_, hk⟩
      · have hne : k ≠ pixelIndex 64 x y r c := fun e => hH (e ▸ hk)
        rw [assign_ne _ _ _ _ hne]
        exact t.hit k hk
      · rw [hk, assign_self, hsame]
    · intro k hk
      show assign _ _ _ k = _
      have hne : k ≠ pixelIndex 64 x y r c := fun e => hk (Or.inr ⟨hbit, e⟩)
      rw [assign_ne _ _ _ _ hne]
      exact t.miss k (fun h1 => hk (Or.inl h1))
    · intro j hj
      show (ite _ (assign _ _ _) _ : Nat → Nat) j = _
      split
      · rw [assign_ne _ _ _ _ hj]; exact t.regs j hj
      · exact t.regs j hj
    · rintro ⟨k, hk, hp⟩
      show (ite _ (assign _ _ _) _ : Nat → Nat) 0xF = _
      rcases hk with hk | ⟨_, hk⟩
      · have h1 : m.chip8.v 0xF = 1 := t.collide ⟨k, hk, hp⟩
        split
        · exact assign_self _ _ _
        · exact h1
      · rw [hk, ← hsame] at hp
        rw [if_pos hp]
        exact assign_self _ _ _
    · intro hn
      show (ite _ (assign _ _ _) _ : Nat → Nat) 0xF = _
      have hz : ¬ m.windowSurface.pixels (pixelIndex 64 x y r c) ≠ 0 := by
        rw [hsame]
        exact fun hp => hn ⟨_, Or.inr ⟨hbit, rfl⟩, hp⟩
      rw [if_neg hz]
      exact t.clean (fun ⟨k, hk, hp⟩ => hn ⟨k, Or.inl hk, hp⟩)
  · refine ⟨m, drwPixel_clear x y r c m hc (fun h1 => hbit (hbits.mp h1)), ?_⟩
    exact t.congr (fun k => ⟨fun hk => Or.inl hk, fun hk => hk.elim id (fun h1 => (hbit h1.1).elim)⟩)

theorem rowHits_succ (c8 : Chip8) (x0 y0 r cols k : Nat) :
    rowHits c8 x0 y0 r (cols + 1) k ↔
      rowHits c8 x0 y0 r cols k ∨ (spriteBit c8 r cols ∧ k = pixelIndex 64 x0 y0 r cols) := by
  constructor
  · rintro ⟨c, hc, hb, hk⟩
    by_cases h : c < cols
    · exact Or.inl ⟨c, h, hb, hk⟩
    · have hcc : c = cols := by omega
      subst hcc
      exact Or.inr ⟨hb, hk⟩
  · rintro (⟨c, hc, hb, hk⟩ | ⟨hb, hk⟩)
    · exact ⟨c, by omega, hb, hk⟩
    · exact ⟨cols, by omega, hb, hk⟩

theorem spriteHits_succ (c8 : Chip8) (x0 y0 n k : Nat) :
    spriteHits c8 x0 y0 (n + 1) k ↔ spriteHits c8 x0 y0 n k ∨ rowHits c8 x0 y0 n 8 k := by
  constructor
  · rintro ⟨r, c, hr, hc, hb, hk⟩
    by_cases h : r < n
    · exact Or.inl ⟨r, c, h, hc, hb, hk⟩
    · have hrn : r = n := by omega
      subst hrn
      exact Or.inr ⟨c, hc, hb, hk⟩
  · rintro (⟨r, c, hr, hc, hb, hk⟩ | ⟨c, hc, hb, hk⟩)
    · exact ⟨r, c, by omega, hc, hb, hk⟩
    · exact ⟨n, c, by omega, hc, hb, hk⟩

/-- The inner loop, run for the first `cols` columns of row `r`. -/
theorem drwCols_toggled (m0 m : Machine) (H : Nat → Prop) (x y r : Nat)
    (t : Toggled m0 m H) (hw : m0.windowSurface.w = 64) (hh : m0.windowSurface.h = 32) :
    ∀ cols, cols ≤ 8 →
      (∀ c, c < cols → spriteBit m0.chip8 r c →
        pixelIndex 64 x y r c < 2048 ∧ ¬ H (pixelIndex 64 x y r c)) →
      ∃ m1, forUpTo (fun column => drwPixel x y r column) cols m = .ok m1 ∧
        Toggled m0 m1 (fun k => H k ∨ rowHits m0.chip8 x y r cols k) := by
  intro cols
  induction cols with
  | zero =>
    intro _ _
    refine ⟨m, rfl, t.congr (fun k => ⟨Or.inl, fun h => h.elim id ?_⟩)⟩
    rintro ⟨c, hc, _⟩
    omega
  | succ C ih =>
    intro hC hfree
    obtain ⟨m1, hrun, t1⟩ := ih (by omega) (fun c hc => hfree c (by omega))
    have hstep := drwPixel_toggled m0 m1 _ x y r C t1 (by omega) hw hh (by
      intro hb
      refine ⟨(hfree C (by omega) hb).1, ?_⟩
      rintro (h1 | ⟨c, hc, _, hk⟩)
      · exact (hfree C (by omega) hb).2 h1
      · unfold pixelIndex at hk
        omega)
    obtain ⟨m2, hrun2, t2⟩ := hstep
    refine ⟨m2, ?_, t2.congr (fun k => ?_)⟩
    · simp only [forUpTo, hrun]
      exact hrun2
    · rw [rowHits_succ]
      tauto

/-- The outer loop, run for the first `n` rows, started in `m0`. -/
theorem drwRows_toggled (m0 : Machine) (x y : Nat)
    (hw : m0.windowSurface.w = 64) (hh : m0.windowSurface.h = 32) :
    ∀ n, (∀ r c, r < n → c < 8 → spriteBit m0.chip8 r c → pixelIndex 64 x y r c < 2048) →
      ∃ m1, forUpTo (fun row => drwRow x y row) n m0 = .ok m1 ∧
        Toggled m0 m1 (spriteHits m0.chip8 x y n) := by
  intro n
  induction n with
  | zero =>
    intro _
    refine ⟨m0, rfl, (Toggled.start m0).congr (fun k => ⟨fun h => h.elim, ?_⟩)⟩
    rintro ⟨r, c, hr, _⟩
    omega
  | succ R ih =>
    intro hfit
    obtain ⟨m1, hrun, t1⟩ := ih (fun r c hr hc => hfit r c (by omega) hc)
    obtain ⟨m2, hrun2, t2⟩ := drwCols_toggled m0 m1 _ x y R t1 hw hh 8 (Nat.le_refl 8) (by
      intro c hc hb
      refine ⟨hfit R c (by omega) hc hb, ?_⟩
      rintro ⟨r1, c1, hr1, hc1, _, hk⟩
      unfold pixelIndex at hk
      omega)
    refine ⟨m2, ?_, t2.congr (fun k => (spriteHits_succ _ _ _ _ _).symm)⟩
    simp only [forUpTo, hrun]
    exact hrun2

theorem decode_Dxyn (x y n : Nat) (hx : x < 16) (hy : y < 16) (hn : n < 16) :
    (0xD000 + 0x100 * x + 0x10 * y + n) >>> 12 = 0xD ∧
    ((0xD000 + 0x100 * x + 0x10 * y + n) >>> 8) &&& 0x0F = x ∧
    ((0xD000 + 0x100 * x + 0x10 * y + n) >>> 4) &&& 0x00F = y ∧
    ((0xD000 + 0x100 * x + 0x10 * y + n) &&& 0x000F) % 256 = n := by
  simp only [shr_12, shr_8, shr_4, and_0xF]
  omega

/-- The machine in which the loops of `Dxyn` start: `flip = true` and `VF = 0`. -/
theorem execute_Dxyn (env : Env) (m : Machine) (x y n : Nat) (hx : x < 16) (hy : y < 16)
    (hn : n < 16) (hw : m.windowSurface.w = 64) (hh : m.windowSurface.h = 32) :
    execute env (0xD000 + 0x100 * x + 0x10 * y + n) m =
      forUpTo (fun row => drwRow (m.chip8.v x % 64) (m.chip8.v y % 32) row) n
        { m with flip := true, chip8 := { m.chip8 with v := assign m.chip8.v 0xF 0 } } := by
  obtain ⟨h12, hX, hY, hN⟩ := decode_Dxyn x y n hx hy hn
  have hx0 : m.chip8.v x % 64 % 256 = m.chip8.v x % 64 := by omega
  have hy0 : m.chip8.v y % 32 % 256 = m.chip8.v y % 32 := by omega
  simp only [execute, h12]
  simp [DRW, hX, hY, hN, loadV, storeV, load, store, V_SIZE, hx, hy, hw, hh, hx0, hy0, bind,
    Except.bind, pure, Except.pure, throw, throwThe, MonadExceptOf.throw]

/-- What `Dxyn` does when no set sprite bit falls on an index outside the pixel buffer:
the instruction succeeds, sets `flip`, and the resulting machine is the one with `VF = 0`
in which exactly the pixels reached by a set sprite bit are toggled and `VF` records
whether one of them was on. -/
theorem DRW_toggles (env : Env) (m : Machine) (x y n : Nat) (hx : x < 16) (hy : y < 16)
    (hn : n < 16) (hw : m.windowSurface.w = 64) (hh : m.windowSurface.h = 32)
    (hfit : ∀ r c, r < n → c < 8 → spriteBit m.chip8 r c →
      pixelIndex 64 (m.chip8.v x % 64) (m.chip8.v y % 32) r c < 2048) :
    ∃ m1, execute env (0xD000 + 0x100 * x + 0x10 * y + n) m = .ok m1 ∧
      Toggled { m with flip := true, chip8 := { m.chip8 with v := assign m.chip8.v 0xF 0 } } m1
        (spriteHits m.chip8 (m.chip8.v x % 64) (m.chip8.v y % 32) n) := by
  rw [execute_Dxyn env m x y n hx hy hn hw hh]
  exact drwRows_toggled
    { m with flip := true, chip8 := { m.chip8 with v := assign m.chip8.v 0xF 0 } }
    (m.chip8.v x % 64) (m.chip8.v y % 32) hw hh n hfit

/-! ## C5 to C8: what `Dxyn` draws -/

theorem execute_CLS (env : Env) (m : Machine) : execute env 0x00E0 m = CLS m := by
  have h1 : (0x00E0 : Nat) >>> 12 = 0 := by decide
  have h2 : (0x00E0 : Nat) &&& 0x00FF = 0xe0 := by decide
  simp only [execute, h1, h2, if_true]

/-- A sprite that fits in the grid reaches no index outside the pixel buffer. -/
theorem fit_in_buffer (x0 y0 n : Nat) (hx0 : x0 ≤ 56) (hy0 : y0 ≤ 32 - n) (hn : n < 16)
    (r c : Nat) (hr : r < n) (hc : c < 8) : pixelIndex 64 x0 y0 r c < 2048 := by
  unfold pixelIndex
  omega

/-- Within one sprite, different (row, column) pairs have different pixel indices. -/
theorem pixelIndex_inj (x0 y0 r c r1 c1 : Nat) (hc : c < 8) (hc1 : c1 < 8)
    (h : pixelIndex 64 x0 y0 r c = pixelIndex 64 x0 y0 r1 c1) : r = r1 ∧ c = c1 := by
  unfold pixelIndex at h
  omega

theorem spriteHits_index_iff (c8 : Chip8) (x0 y0 n r c : Nat) (hr : r < n) (hc : c < 8) :
    spriteHits c8 x0 y0 n (pixelIndex 64 x0 y0 r c) ↔ spriteBit c8 r c := by
  constructor
  · rintro ⟨r1, c1, _, hc1, hb, hk⟩
    obtain ⟨rfl, rfl⟩ := pixelIndex_inj x0 y0 r c r1 c1 hc hc1 hk
    exact hb
  · intro hb
    exact ⟨r, c, hr, hc, hb, rfl⟩

theorem xor_mask_ne_zero_of_zero : (0 : Nat) ^^^ 0x00FFFFFF ≠ 0 := by decide

theorem xor_mask_ne_self (p : Nat) : p ^^^ 0x00FFFFFF ≠ p := by
  intro h
  have h1 : p ^^^ (p ^^^ 0x00FFFFFF) = 0x00FFFFFF := Nat.xor_cancel_left p _
  rw [h, Nat.xor_self] at h1
  exact absurd h1 (by decide)

/-- C5. `Dxyn` on the surface left by `CLS` (00E0), for a sprite that fits in the grid
(`x0 = Vx mod 64 <= 56`, `y0 = Vy mod 32 <= 32 - n`): both instructions succeed, `CLS`
leaves every pixel off and `chip8` unchanged, and after `Dxyn` the pixel
`(x0 + c, y0 + r)` with `r < n`, `c < 8` is on exactly when bit `7 - c` of
`heap[(I + r) mod 4096]` is 1, every pixel outside that rectangle is off, and `VF = 0`. -/
theorem drw_after_cls_renders_sprite (env : Env) (m : Machine) (x y n : Nat)
    (hx : x < 16) (hy : y < 16) (hn : n < 16)
    (hw : m.windowSurface.w = WIDTH) (hh : m.windowSurface.h = HEIGHT)
    (hx0 : m.chip8.v x % 64 ≤ 56) (hy0 : m.chip8.v y % 32 ≤ 32 - n) :
    ∃ m1 m2, execute env 0x00E0 m = .ok m1 ∧ m1.chip8 = m.chip8 ∧
      (∀ px py, px < 64 → py < 32 → ¬ m1.windowSurface.on px py) ∧
      execute env (0xD000 + 0x100 * x + 0x10 * y + n) m1 = .ok m2 ∧
      (∀ r c, r < n → c < 8 →
        (m2.windowSurface.on (m.chip8.v x % 64 + c) (m.chip8.v y % 32 + r) ↔
          (m.chip8.heap ((m.chip8.i + r) % 4096)).testBit (7 - c) = true)) ∧
      (∀ px py, px < 64 → py < 32 →
        ¬ (m.chip8.v x % 64 ≤ px ∧ px < m.chip8.v x % 64 + 8 ∧
           m.chip8.v y % 32 ≤ py ∧ py < m.chip8.v y % 32 + n) →
        ¬ m2.windowSurface.on px py) ∧
      m2.chip8.v 0xF = 0 := by
  have hw1 : m.windowSurface.w = 64 := hw
  have hh1 : m.windowSurface.h = 32 := hh
  -- the machine after `CLS`
  obtain ⟨m1, hm1⟩ : ∃ m1 : Machine, m1 = { m with windowSurface := { m.windowSurface with
      pixels := fun k => if k < m.windowSurface.w * m.windowSurface.h then 0
                         else m.windowSurface.pixels k } } := ⟨_, rfl⟩
  have hcls : execute env 0x00E0 m = .ok m1 := by rw [execute_CLS, hm1]; rfl
  have hchip : m1.chip8 = m.chip8 := by rw [hm1]
  have hw2 : m1.windowSurface.w = 64 := by rw [hm1]; exact hw1
  have hh2 : m1.windowSurface.h = 32 := by rw [hm1]; exact hh1
  have hoff : ∀ k, k < 2048 → m1.windowSurface.pixels k = 0 := by
    intro k hk
    rw [hm1]
    show (if k < m.windowSurface.w * m.windowSurface.h then 0 else _) = 0
    rw [hw1, hh1, if_pos hk]
  obtain ⟨m2, hdrw, t⟩ := DRW_toggles env m1 x y n hx hy hn hw2 hh2 (by
    intro r c hr hc _
    rw [hchip]
    exact fit_in_buffer _ _ n hx0 hy0 hn r c hr hc)
  rw [hchip] at t
  have hw3 : m2.windowSurface.w = 64 := t.w.trans hw2
  refine ⟨m1, m2, hcls, hchip, ?_, hdrw, ?_, ?_, ?_⟩
  · intro px py hpx hpy
    simp only [Surface.on, Surface.pixel, hw2, ne_eq, not_not]
    exact hoff _ (by omega)
  · intro r c hr hc
    have hidx : pixelIndex 64 (m.chip8.v x % 64) (m.chip8.v y % 32) r c < 2048 :=
      fit_in_buffer _ _ n hx0 hy0 hn r c hr hc
    have hon : m2.windowSurface.on (m.chip8.v x % 64 + c) (m.chip8.v y % 32 + r) ↔
        m2.windowSurface.pixels (pixelIndex 64 (m.chip8.v x % 64) (m.chip8.v y % 32) r c) ≠ 0 := by
      simp only [Surface.on, Surface.pixel, hw3, pixelIndex]
    rw [hon]
    by_cases hb : spriteBit m.chip8 r c
    · have h1 := t.hit _ ((spriteHits_index_iff m.chip8 _ _ n r c hr hc).mpr hb)
      rw [h1]
      show _ ^^^ _ ≠ 0 ↔ _
      rw [hoff _ hidx]
      exact ⟨fun _ => hb, fun _ => xor_mask_ne_zero_of_zero⟩
    · have h1 := t.miss _ (fun h => hb ((spriteHits_index_iff m.chip8 _ _ n r c hr hc).mp h))
      rw [h1]
      show _ ≠ 0 ↔ _
      rw [hoff _ hidx]
      exact ⟨fun h => (h rfl).elim, fun h => (hb h).elim⟩
  · intro px py hpx hpy hout
    simp only [Surface.on, Surface.pixel, hw3, ne_eq, not_not]
    have h1 := t.miss (py * 64 + px) (by
      rintro ⟨r, c, hr, hc, _, hk⟩
      unfold pixelIndex at hk
      omega)
    rw [h1]
    exact hoff _ (by omega)
  · have h1 := t.clean (by
      rintro ⟨k, ⟨r, c, hr, hc, _, hk⟩, hp⟩
      have hidx : k < 2048 := hk ▸ fit_in_buffer _ _ n hx0 hy0 hn r c hr hc
      exact hp (hoff k hidx))
    rw [h1]
    show assign m.chip8.v 0xF 0 0xF = 0
    exact assign_self _ _ _

/-- C5 for the font glyph of the digit `A` (rows `F0 90 F0 90 90`) drawn at (0, 0) by
`00E0` followed by `D015`: the hypotheses hold, the conclusion of the theorem holds, and
the five rows of eight pixels at the top left are the bit patterns of the glyph. -/
theorem drw_after_cls_renders_sprite_witness :
    ((0 : Nat) < 16 ∧ (1 : Nat) < 16 ∧ (5 : Nat) < 16 ∧
      mGlyph.windowSurface.w = WIDTH ∧ mGlyph.windowSurface.h = HEIGHT ∧
      mGlyph.chip8.v 0 % 64 ≤ 56 ∧ mGlyph.chip8.v 1 % 32 ≤ 32 - 5) ∧
    (∃ m1 m2, execute env0 0x00E0 mGlyph = .ok m1 ∧ m1.chip8 = mGlyph.chip8 ∧
      (∀ px py, px < 64 → py < 32 → ¬ m1.windowSurface.on px py) ∧
      execute env0 0xD015 m1 = .ok m2 ∧
      (∀ r c, r < 5 → c < 8 →
        (m2.windowSurface.on (mGlyph.chip8.v 0 % 64 + c) (mGlyph.chip8.v 1 % 32 + r) ↔
          (mGlyph.chip8.heap ((mGlyph.chip8.i + r) % 4096)).testBit (7 - c) = true)) ∧
      (∀ px py, px < 64 → py < 32 →
        ¬ (mGlyph.chip8.v 0 % 64 ≤ px ∧ px < mGlyph.chip8.v 0 % 64 + 8 ∧
           mGlyph.chip8.v 1 % 32 ≤ py ∧ py < mGlyph.chip8.v 1 % 32 + 5) →
        ¬ m2.windowSurface.on px py) ∧
      m2.chip8.v 0xF = 0) ∧
    Except.map
        (fun m2 => (List.range 5).map (fun r =>
          (List.range 8).map (fun c => decide (m2.windowSurface.on c r))))
        (match execute env0 0x00E0 mGlyph with
          | .ok m1 => execute env0 0xD015 m1
          | .error e => .error e)
      = .ok [[true, true, true, true, false, false, false, false],
             [true, false, false, true, false, false, false, false],
             [true, true, true, true, false, false, false, false],
             [true, false, false, true, false, false, false, false],
             [true, false, false, true, false, false, false, false]] :=
  ⟨⟨by decide, by decide, by decide, rfl, rfl, by decide, by decide⟩,
    drw_after_cls_renders_sprite env0 mGlyph 0 1 5 (by decide) (by decide) (by decide) rfl rfl
      (by decide) (by decide),
    by decide⟩

/-- What `Dxyn` does to a sprite that fits in the grid, read in pixel coordinates. -/
theorem DRW_fit (env : Env) (m : Machine) (x y n : Nat)
    (hx : x < 16) (hy : y < 16) (hn : n < 16)
    (hw : m.windowSurface.w = WIDTH) (hh : m.windowSurface.h = HEIGHT)
    (hx0 : m.chip8.v x % 64 ≤ 56) (hy0 : m.chip8.v y % 32 ≤ 32 - n) :
    ∃ m1, execute env (0xD000 + 0x100 * x + 0x10 * y + n) m = .ok m1 ∧
      Toggled { m with flip := true, chip8 := { m.chip8 with v := assign m.chip8.v 0xF 0 } } m1
        (spriteHits m.chip8 (m.chip8.v x % 64) (m.chip8.v y % 32) n) ∧
      (∀ r c, r < n → c < 8 → spriteBit m.chip8 r c →
        m1.windowSurface.pixel (m.chip8.v x % 64 + c) (m.chip8.v y % 32 + r) =
          m.windowSurface.pixel (m.chip8.v x % 64 + c) (m.chip8.v y % 32 + r) ^^^ 0x00FFFFFF) ∧
      (∀ r c, r < n → c < 8 → ¬ spriteBit m.chip8 r c →
        m1.windowSurface.pixel (m.chip8.v x % 64 + c) (m.chip8.v y % 32 + r) =
          m.windowSurface.pixel (m.chip8.v x % 64 + c) (m.chip8.v y % 32 + r)) ∧
      ((∃ r c, r < n ∧ c < 8 ∧ spriteBit m.chip8 r c ∧
          m.windowSurface.on (m.chip8.v x % 64 + c) (m.chip8.v y % 32 + r)) →
        m1.chip8.v 0xF = 1) ∧
      ((¬ ∃ r c, r < n ∧ c < 8 ∧ spriteBit m.chip8 r c ∧
          m.windowSurface.on (m.chip8.v x % 64 + c) (m.chip8.v y % 32 + r)) →
        m1.chip8.v 0xF = 0) := by
  have hw1 : m.windowSurface.w = 64 := hw
  have hh1 : m.windowSurface.h = 32 := hh
  obtain ⟨m1, hdrw, t⟩ := DRW_toggles env m x y n hx hy hn hw1 hh1
    (fun r c hr hc _ => fit_in_buffer _ _ n hx0 hy0 hn r c hr hc)
  have hw3 : m1.windowSurface.w = 64 := t.w.trans hw1
  have hpix : ∀ r c, m1.windowSurface.pixel (m.chip8.v x % 64 + c) (m.chip8.v y % 32 + r)
      = m1.windowSurface.pixels (pixelIndex 64 (m.chip8.v x % 64) (m.chip8.v y % 32) r c) := by
    intro r c
    simp only [Surface.pixel, hw3, pixelIndex]
  have hpix0 : ∀ r c, m.windowSurface.pixel (m.chip8.v x % 64 + c) (m.chip8.v y % 32 + r)
      = m.windowSurface.pixels (pixelIndex 64 (m.chip8.v x % 64) (m.chip8.v y % 32) r c) := by
    intro r c
    simp only [Surface.pixel, hw1, pixelIndex]
  refine ⟨m1, hdrw, t, ?_, ?_, ?_, ?_⟩
  · intro r c hr hc hb
    rw [hpix, hpix0]
    exact t.hit _ ((spriteHits_index_iff m.chip8 _ _ n r c hr hc).mpr hb)
  · intro r c hr hc hb
    rw [hpix, hpix0]
    exact t.miss _ (fun h => hb ((spriteHits_index_iff m.chip8 _ _ n r c hr hc).mp h))
  · rintro ⟨r, c, hr, hc, hb, hon⟩
    refine t.collide ⟨_, ⟨r, c, hr, hc, hb, rfl⟩, ?_⟩
    unfold Surface.on at hon
    rw [hpix0] at hon
    exact hon
  · intro hno
    have h1 := t.clean (by
      rintro ⟨k, ⟨r, c, hr, hc, hb, hk⟩, hp⟩
      refine hno ⟨r, c, hr, hc, hb, ?_⟩
      unfold Surface.on
      rw [hpix0, ← hk]
      exact hp)
    rw [h1]
    show assign m.chip8.v 0xF 0 0xF = 0
    exact assign_self _ _ _

theorem spriteHits_congr (c1 c2 : Chip8) (hheap : c1.heap = c2.heap) (hi : c1.i = c2.i)
    (x0 y0 n k : Nat) : spriteHits c1 x0 y0 n k ↔ spriteHits c2 x0 y0 n k := by
  unfold spriteHits
  constructor
  · rintro ⟨r, c, hr, hc, hb, hk⟩
    exact ⟨r, c, hr, hc, (spriteBit_congr c1 c2 hheap hi r c).mp hb, hk⟩
  · rintro ⟨r, c, hr, hc, hb, hk⟩
    exact ⟨r, c, hr, hc, (spriteBit_congr c1 c2 hheap hi r c).mpr hb, hk⟩

theorem surface_eq (s1 s2 : Surface) (hw : s1.w = s2.w) (hh : s1.h = s2.h)
    (hp : s1.pixels = s2.pixels) : s1 = s2 := by
  cases s1
  cases s2
  simp_all

/-- C6. The collision flag of `Dxyn` for a sprite that fits in the grid (`x0 = Vx mod 64
<= 56`, `y0 = Vy mod 32 <= 32 - n`), whatever the framebuffer and `VF` were: the
instruction succeeds, `VF = 1` afterwards exactly when some set sprite bit (row `r < n`,
column `c < 8`) has its target pixel `(x0 + c, y0 + r)` on before the instruction, and
`VF = 0` exactly when there is none.  Consequently, if all pixels were off and the sprite
has a set bit, `VF = 0` after this draw, and a second execution of the same instruction
that draws at the same place succeeds with `VF = 1`. -/
theorem drw_collision_flag (env : Env) (m : Machine) (x y n : Nat)
    (hx : x < 16) (hy : y < 16) (hn : n < 16)
    (hw : m.windowSurface.w = WIDTH) (hh : m.windowSurface.h = HEIGHT)
    (hx0 : m.chip8.v x % 64 ≤ 56) (hy0 : m.chip8.v y % 32 ≤ 32 - n) :
    ∃ m1, execute env (0xD000 + 0x100 * x + 0x10 * y + n) m = .ok m1 ∧
      (m1.chip8.v 0xF = 1 ↔
        ∃ r c, r < n ∧ c < 8 ∧ spriteBit m.chip8 r c ∧
          m.windowSurface.on (m.chip8.v x % 64 + c) (m.chip8.v y % 32 + r)) ∧
      (m1.chip8.v 0xF = 0 ↔
        ¬ ∃ r c, r < n ∧ c < 8 ∧ spriteBit m.chip8 r c ∧
          m.windowSurface.on (m.chip8.v x % 64 + c) (m.chip8.v y % 32 + r)) ∧
      ((∀ px py, px < 64 → py < 32 → ¬ m.windowSurface.on px py) →
        (∃ r c, r < n ∧ c < 8 ∧ spriteBit m.chip8 r c) →
        m1.chip8.v x % 64 = m.chip8.v x % 64 → m1.chip8.v y % 32 = m.chip8.v y % 32 →
        m1.chip8.v 0xF = 0 ∧
        ∃ m2, execute env (0xD000 + 0x100 * x + 0x10 * y + n) m1 = .ok m2 ∧
          m2.chip8.v 0xF = 1) := by
  obtain ⟨m1, hdrw, t, hset, _, hcol, hclean⟩ := DRW_fit env m x y n hx hy hn hw hh hx0 hy0
  refine ⟨m1, hdrw, ⟨fun h1 => ?_, hcol⟩, ⟨fun h0 => ?_, hclean⟩, ?_⟩
  · by_contra hno
    rw [hclean hno] at h1
    exact absurd h1 (by decide)
  · intro hyes
    rw [hcol hyes] at h0
    exact absurd h0 (by decide)
  · rintro hoff ⟨r, c, hr, hc, hb⟩ hsx hsy
    have hpx : m.chip8.v x % 64 + c < 64 := by omega
    have hpy : m.chip8.v y % 32 + r < 32 := by omega
    refine ⟨hclean ?_, ?_⟩
    · rintro ⟨r1, c1, hr1, hc1, _, hon⟩
      exact hoff _ _ (by omega) (by omega) hon
    · have hw1 : m1.windowSurface.w = WIDTH := t.w.trans hw
      have hh1 : m1.windowSurface.h = HEIGHT := t.h.trans hh
      obtain ⟨m2, hdrw2, _, _, _, hcol2, _⟩ := DRW_fit env m1 x y n hx hy hn hw1 hh1
        (by rw [hsx]; exact hx0) (by rw [hsy]; exact hy0)
      refine ⟨m2, hdrw2, hcol2 ⟨r, c, hr, hc, ?_, ?_⟩⟩
      · exact (spriteBit_congr m1.chip8 m.chip8 t.heap t.i r c).mpr hb
      · rw [hsx, hsy]
        unfold Surface.on
        rw [hset r c hr hc hb]
        have hz : m.windowSurface.pixel (m.chip8.v x % 64 + c) (m.chip8.v y % 32 + r) = 0 := by
          have := hoff (m.chip8.v x % 64 + c) (m.chip8.v y % 32 + r) hpx hpy
          unfold Surface.on at this
          exact not_not.mp this
        rw [hz]
        exact xor_mask_ne_zero_of_zero

/-- C6 for the glyph of the digit `A` drawn at (0, 0) by `D015` on the all-off surface:
the hypotheses hold, the conclusion of the theorem holds, `VF` is 0 after the first draw
and 1 after the second. -/
theorem drw_collision_flag_witness :
    ((0 : Nat) < 16 ∧ (1 : Nat) < 16 ∧ (5 : Nat) < 16 ∧
      mGlyph.windowSurface.w = WIDTH ∧ mGlyph.windowSurface.h = HEIGHT ∧
      mGlyph.chip8.v 0 % 64 ≤ 56 ∧ mGlyph.chip8.v 1 % 32 ≤ 32 - 5) ∧
    (∃ m1, execute env0 0xD015 mGlyph = .ok m1 ∧
      (m1.chip8.v 0xF = 1 ↔
        ∃ r c, r < 5 ∧ c < 8 ∧ spriteBit mGlyph.chip8 r c ∧
          mGlyph.windowSurface.on (mGlyph.chip8.v 0 % 64 + c) (mGlyph.chip8.v 1 % 32 + r)) ∧
      (m1.chip8.v 0xF = 0 ↔
        ¬ ∃ r c, r < 5 ∧ c < 8 ∧ spriteBit mGlyph.chip8 r c ∧
          mGlyph.windowSurface.on (mGlyph.chip8.v 0 % 64 + c) (mGlyph.chip8.v 1 % 32 + r)) ∧
      ((∀ px py, px < 64 → py < 32 → ¬ mGlyph.windowSurface.on px py) →
        (∃ r c, r < 5 ∧ c < 8 ∧ spriteBit mGlyph.chip8 r c) →
        m1.chip8.v 0 % 64 = mGlyph.chip8.v 0 % 64 → m1.chip8.v 1 % 32 = mGlyph.chip8.v 1 % 32 →
        m1.chip8.v 0xF = 0 ∧
        ∃ m2, execute env0 0xD015 m1 = .ok m2 ∧ m2.chip8.v 0xF = 1)) ∧
    Except.map (fun m1 => m1.chip8.v 0xF) (execute env0 0xD015 mGlyph) = .ok 0 ∧
    Except.map (fun m2 => m2.chip8.v 0xF)
        (match execute env0 0xD015 mGlyph with
          | .ok m1 => execute env0 0xD015 m1
          | .error e => .error e) = .ok 1 :=
  ⟨⟨by decide, by decide, by decide, rfl, rfl, by decide, by decide⟩,
    drw_collision_flag env0 mGlyph 0 1 5 (by decide) (by decide) (by decide) rfl rfl
      (by decide) (by decide),
    by decide, by decide⟩

/-- C7. `Dxyn` is its own inverse on the framebuffer: for `x` and `y` other than `0xF` and
a sprite that fits in the grid, executing the instruction twice in succession succeeds and
leaves the surface exactly as it was before the first execution, whatever it held; in
particular an all-off framebuffer is all-off again. -/
theorem drw_twice_restores_surface (env : Env) (m : Machine) (x y n : Nat)
    (hx : x < 15) (hy : y < 15) (hn : n < 16)
    (hw : m.windowSurface.w = WIDTH) (hh : m.windowSurface.h = HEIGHT)
    (hx0 : m.chip8.v x % 64 ≤ 56) (hy0 : m.chip8.v y % 32 ≤ 32 - n) :
    ∃ m1 m2, execute env (0xD000 + 0x100 * x + 0x10 * y + n) m = .ok m1 ∧
      execute env (0xD000 + 0x100 * x + 0x10 * y + n) m1 = .ok m2 ∧
      m1.chip8.heap = m.chip8.heap ∧ m1.chip8.i = m.chip8.i ∧
      m1.chip8.v x = m.chip8.v x ∧ m1.chip8.v y = m.chip8.v y ∧
      m2.windowSurface = m.windowSurface ∧
      ((∀ px py, px < 64 → py < 32 → ¬ m.windowSurface.on px py) →
        ∀ px py, px < 64 → py < 32 → ¬ m2.windowSurface.on px py) := by
  have hw1 : m.windowSurface.w = 64 := hw
  have hh1 : m.windowSurface.h = 32 := hh
  obtain ⟨m1, hdrw, t⟩ := DRW_toggles env m x y n (by omega) (by omega) hn hw1 hh1
    (fun r c hr hc _ => fit_in_buffer _ _ n hx0 hy0 hn r c hr hc)
  have hvx : m1.chip8.v x = m.chip8.v x := by
    rw [t.regs x (by omega)]
    exact assign_ne _ _ _ _ (by omega)
  have hvy : m1.chip8.v y = m.chip8.v y := by
    rw [t.regs y (by omega)]
    exact assign_ne _ _ _ _ (by omega)
  have hw2 : m1.windowSurface.w = 64 := t.w.trans hw1
  have hh2 : m1.windowSurface.h = 32 := t.h.trans hh1
  obtain ⟨m2, hdrw2, t2⟩ := DRW_toggles env m1 x y n (by omega) (by omega) hn hw2 hh2 (by
    intro r c hr hc _
    rw [hvx, hvy]
    exact fit_in_buffer _ _ n hx0 hy0 hn r c hr hc)
  rw [hvx, hvy] at t2
  have t3 := t2.congr (spriteHits_congr m1.chip8 m.chip8 t.heap t.i _ _ n)
  have hsurf : m2.windowSurface = m.windowSurface := by
    apply surface_eq
    · exact t2.w.trans t.w
    · exact t2.h.trans t.h
    · funext k
      by_cases hk : spriteHits m.chip8 (m.chip8.v x % 64) (m.chip8.v y % 32) n k
      · rw [t3.hit k hk]
        show m1.windowSurface.pixels k ^^^ _ = _
        rw [t.hit k hk]
        exact Nat.xor_cancel_right _ _
      · rw [t3.miss k hk]
        exact t.miss k hk
  refine ⟨m1, m2, hdrw, hdrw2, t.heap, t.i, hvx, hvy, hsurf, ?_⟩
  intro hoff px py hpx hpy
  rw [hsurf]
  exact hoff px py hpx hpy

/-- C7 for the glyph of the digit `A` drawn twice at (0, 0) by `D015`. -/
theorem drw_twice_restores_surface_witness :
    ((0 : Nat) < 15 ∧ (1 : Nat) < 15 ∧ (5 : Nat) < 16 ∧
      mGlyph.windowSurface.w = WIDTH ∧ mGlyph.windowSurface.h = HEIGHT ∧
      mGlyph.chip8.v 0 % 64 ≤ 56 ∧ mGlyph.chip8.v 1 % 32 ≤ 32 - 5) ∧
    ∃ m1 m2, execute env0 0xD015 mGlyph = .ok m1 ∧
      execute env0 0xD015 m1 = .ok m2 ∧
      m1.chip8.heap = mGlyph.chip8.heap ∧ m1.chip8.i = mGlyph.chip8.i ∧
      m1.chip8.v 0 = mGlyph.chip8.v 0 ∧ m1.chip8.v 1 = mGlyph.chip8.v 1 ∧
      m2.windowSurface = mGlyph.windowSurface ∧
      ((∀ px py, px < 64 → py < 32 → ¬ mGlyph.windowSurface.on px py) →
        ∀ px py, px < 64 → py < 32 → ¬ m2.windowSurface.on px py) :=
  ⟨⟨by decide, by decide, by decide, rfl, rfl, by decide, by decide⟩,
    drw_twice_restores_surface env0 mGlyph 0 1 5 (by decide) (by decide) (by decide) rfl rfl
      (by decide) (by decide)⟩

/-- C8, the code at the edges of the grid.  The claim is that `Dxyn` clips: it changes
only pixels with `x0 <= px < min(x0 + 8, 64)` and `y0 <= py < min(y0 + n, 32)`, and every
pixel index it writes is inside the grid.  The loop has no bounds test.  `D011` with
`V0 = 62`, `V1 = 0` and the sprite row `0xF0`: the claim allows changes only at
`62 <= px < min(62 + 8, 64)`, `0 <= py < min(0 + 1, 32)`, but the pixels (0, 1) and (1, 1)
at the start of the next row are switched on (sprite columns 2 and 3, for which
`x0 + c >= 64`).  `D012` with `V0 = 0`, `V1 = 31` and the rows `0xF0, 0x90`: the second
row is addressed at index 2048, one past the end of the buffer of `64 * 32` pixels. -/
theorem drw_does_not_clip :
    mEdge.chip8.v 0 % 64 = 62 ∧ mEdge.chip8.v 1 % 32 = 0 ∧
    mEdge.windowSurface.pixel 0 1 = 0 ∧ mEdge.windowSurface.pixel 1 1 = 0 ∧
    Except.map (fun m1 => (m1.windowSurface.pixel 0 1, m1.windowSurface.pixel 1 1))
      (execute env0 0xD011 mEdge) = .ok (0x00FFFFFF, 0x00FFFFFF) ∧
    ¬ (62 ≤ 0 ∧ 0 < min (62 + 8) 64 ∧ 0 ≤ 1 ∧ 1 < min (0 + 1) 32) ∧
    mBottom.chip8.v 0 % 64 = 0 ∧ mBottom.chip8.v 1 % 32 = 31 ∧
    Except.map (fun _ => ()) (execute env0 0xD012 mBottom)
      = .error (.outOfBounds .pixels 2048) := by
  decide

/-- What `Dxyn` writes when no set sprite bit falls outside the pixel buffer.  The
instruction does not clip: with `x0 = Vx mod 64` and `y0 = Vy mod 32`, if
every set sprite bit (row `r < n`, column `c < 8`) has its index
`(y0 + r) * 64 + (x0 + c)` below `64 * 32`, the instruction succeeds and the entries of
the pixel buffer that change are exactly those indices; each of them is XORed with
`0x00FFFFFF`.  In coordinates the pixel of sprite bit `(r, c)` is column
`(x0 + c) mod 64` of row `y0 + r + (x0 + c) / 64`, so a sprite column with
`x0 + c >= 64` lands at the start of the following row. -/
theorem drw_toggles_linear_indices (env : Env) (m : Machine) (x y n : Nat)
    (hx : x < 16) (hy : y < 16) (hn : n < 16)
    (hw : m.windowSurface.w = WIDTH) (hh : m.windowSurface.h = HEIGHT)
    (hin : ∀ r c, r < n → c < 8 → spriteBit m.chip8 r c →
      (m.chip8.v y % 32 + r) * 64 + (m.chip8.v x % 64 + c) < 64 * 32) :
    ∃ m1, execute env (0xD000 + 0x100 * x + 0x10 * y + n) m = .ok m1 ∧
      (∀ k, m1.windowSurface.pixels k ≠ m.windowSurface.pixels k ↔
        ∃ r c, r < n ∧ c < 8 ∧ spriteBit m.chip8 r c ∧
          k = (m.chip8.v y % 32 + r) * 64 + (m.chip8.v x % 64 + c)) ∧
      (∀ k, m1.windowSurface.pixels k ≠ m.windowSurface.pixels k → k < 64 * 32) ∧
      (∀ px py, px < 64 → py < 32 →
        m1.windowSurface.pixel px py ≠ m.windowSurface.pixel px py →
        ∃ r c, r < n ∧ c < 8 ∧ spriteBit m.chip8 r c ∧
          px = (m.chip8.v x % 64 + c) % 64 ∧
          py = m.chip8.v y % 32 + r + (m.chip8.v x % 64 + c) / 64) ∧
      (∀ r c, r < n → c < 8 → spriteBit m.chip8 r c →
        m1.windowSurface.pixel ((m.chip8.v x % 64 + c) % 64)
            (m.chip8.v y % 32 + r + (m.chip8.v x % 64 + c) / 64) =
          m.windowSurface.pixel ((m.chip8.v x % 64 + c) % 64)
            (m.chip8.v y % 32 + r + (m.chip8.v x % 64 + c) / 64) ^^^ 0x00FFFFFF) := by
  have hw1 : m.windowSurface.w = 64 := hw
  have hh1 : m.windowSurface.h = 32 := hh
  obtain ⟨m1, hdrw, t⟩ := DRW_toggles env m x y n hx hy hn hw1 hh1 hin
  have hw3 : m1.windowSurface.w = 64 := t.w.trans hw1
  have hchg : ∀ k, m1.windowSurface.pixels k ≠ m.windowSurface.pixels k ↔
      ∃ r c, r < n ∧ c < 8 ∧ spriteBit m.chip8 r c ∧
        k = (m.chip8.v y % 32 + r) * 64 + (m.chip8.v x % 64 + c) := by
    intro k
    constructor
    · intro hne
      by_contra hno
      exact hne (t.miss k hno)
    · intro hk
      rw [t.hit k hk]
      exact xor_mask_ne_self _
  refine ⟨m1, hdrw, hchg, ?_, ?_, ?_⟩
  · intro k hne
    obtain ⟨r, c, hr, hc, hb, hk⟩ := (hchg k).mp hne
    rw [hk]
    exact hin r c hr hc hb
  · intro px py hpx hpy hne
    simp only [Surface.pixel, hw3, hw1] at hne
    obtain ⟨r, c, hr, hc, hb, hk⟩ := (hchg _).mp hne
    exact ⟨r, c, hr, hc, hb, by omega, by omega⟩
  · intro r c hr hc hb
    have hk : (m.chip8.v y % 32 + r + (m.chip8.v x % 64 + c) / 64) * 64
        + (m.chip8.v x % 64 + c) % 64
        = (m.chip8.v y % 32 + r) * 64 + (m.chip8.v x % 64 + c) := by omega
    simp only [Surface.pixel, hw3, hw1, hk]
    exact t.hit _ ⟨r, c, hr, hc, hb, rfl⟩

/-- The theorem `drw_toggles_linear_indices` at `D011` with `V0 = 62`, `V1 = 0` and the
sprite row `0xF0`. -/
theorem drw_toggles_linear_indices_witness :
    ((0 : Nat) < 16 ∧ (1 : Nat) < 16 ∧ (1 : Nat) < 16 ∧
      mEdge.windowSurface.w = WIDTH ∧ mEdge.windowSurface.h = HEIGHT ∧
      (∀ r c, r < 1 → c < 8 → spriteBit mEdge.chip8 r c →
        (mEdge.chip8.v 1 % 32 + r) * 64 + (mEdge.chip8.v 0 % 64 + c) < 64 * 32)) ∧
    ∃ m1, execute env0 0xD011 mEdge = .ok m1 ∧
      (∀ k, m1.windowSurface.pixels k ≠ mEdge.windowSurface.pixels k ↔
        ∃ r c, r < 1 ∧ c < 8 ∧ spriteBit mEdge.chip8 r c ∧
          k = (mEdge.chip8.v 1 % 32 + r) * 64 + (mEdge.chip8.v 0 % 64 + c)) ∧
      (∀ k, m1.windowSurface.pixels k ≠ mEdge.windowSurface.pixels k → k < 64 * 32) ∧
      (∀ px py, px < 64 → py < 32 →
        m1.windowSurface.pixel px py ≠ mEdge.windowSurface.pixel px py →
        ∃ r c, r < 1 ∧ c < 8 ∧ spriteBit mEdge.chip8 r c ∧
          px = (mEdge.chip8.v 0 % 64 + c) % 64 ∧
          py = mEdge.chip8.v 1 % 32 + r + (mEdge.chip8.v 0 % 64 + c) / 64) ∧
      (∀ r c, r < 1 → c < 8 → spriteBit mEdge.chip8 r c →
        m1.windowSurface.pixel ((mEdge.chip8.v 0 % 64 + c) % 64)
            (mEdge.chip8.v 1 % 32 + r + (mEdge.chip8.v 0 % 64 + c) / 64) =
          mEdge.windowSurface.pixel ((mEdge.chip8.v 0 % 64 + c) % 64)
            (mEdge.chip8.v 1 % 32 + r + (mEdge.chip8.v 0 % 64 + c) / 64) ^^^ 0x00FFFFFF) :=
  have hin : ∀ r c, r < 1 → c < 8 → spriteBit mEdge.chip8 r c →
      (mEdge.chip8.v 1 % 32 + r) * 64 + (mEdge.chip8.v 0 % 64 + c) < 64 * 32 := by
    intro r c hr hc _
    have h0 : mEdge.chip8.v 0 % 64 = 62 := by decide
    have h1 : mEdge.chip8.v 1 % 32 = 0 := by decide
    rw [h0, h1]
    omega
  ⟨⟨by decide, by decide, by decide, rfl, rfl, hin⟩,
    drw_toggles_linear_indices env0 mEdge 0 1 1 (by decide) (by decide) (by decide) rfl rfl hin⟩

/-! ## C10: the call stack -/

theorem present_chip8 (m : Machine) : (present m).chip8 = m.chip8 := by
  unfold present
  split <;> rfl

theorem tick_pc (m : Machine) : (tick m).chip8.pc = m.chip8.pc := by
  unfold tick
  dsimp only
  split <;> split <;> rfl

theorem tick_sp (m : Machine) : (tick m).chip8.sp = m.chip8.sp := by
  unfold tick
  dsimp only
  split <;> split <;> rfl

theorem tick_stack (m : Machine) : (tick m).chip8.stack = m.chip8.stack := by
  unfold tick
  dsimp only
  split <;> split <;> rfl

/-- One iteration that fetches `2nnn`. -/
theorem cycle_CALL (env : Env) (m : Machine) (nnn : Nat) (hq : env.quit = false)
    (hf : fetch m.chip8 = .ok (0x2000 + nnn)) (hn : nnn < 4096) :
    ∃ m1, cycle env m = .ok m1 ∧ m1.chip8.pc = nnn ∧
      m1.chip8.sp = (m.chip8.sp + 1) % 256 ∧
      m1.chip8.stack = assign m.chip8.stack (m.chip8.sp % 16) ((m.chip8.pc + 2) % 65536) := by
  have h12 : (0x2000 + nnn) >>> 12 = 0x2 := by rw [shr_12]; omega
  have hnnn : (0x2000 + nnn) &&& 0x0FFF = nnn := by rw [and_0xFFF]; omega
  have hsp : m.chip8.sp % 16 < STACK_SIZE := by unfold STACK_SIZE; omega
  have hex : ∃ me, execute env (0x2000 + nnn) (advance m) = .ok me ∧ me.chip8.pc = nnn ∧
      me.chip8.sp = (m.chip8.sp + 1) % 256 ∧
      me.chip8.stack = assign m.chip8.stack (m.chip8.sp % 16) ((m.chip8.pc + 2) % 65536) := by
    refine ⟨{ advance m with chip8 := { (advance m).chip8 with
          stack := assign m.chip8.stack (m.chip8.sp % 16) ((m.chip8.pc + 2) % 65536)
          sp := (m.chip8.sp + 1) % 256
          pc := nnn } }, ?_, rfl, rfl, rfl⟩
    simp only [execute, h12]
    simp [CALL, store, hnnn, and_0xF, hsp, advance, bind, Except.bind, pure, Except.pure,
      onChip8]
  obtain ⟨me, hex, hpc, hsp1, hst⟩ := hex
  refine ⟨tick (present me), ?_, ?_, ?_, ?_⟩
  · simp only [cycle, hq, hf, hex, Bool.false_eq_true, if_false]
  · rw [tick_pc, present_chip8, hpc]
  · rw [tick_sp, present_chip8, hsp1]
  · rw [tick_stack, present_chip8, hst]

/-- One iteration that fetches `00EE`. -/
theorem cycle_RET (env : Env) (m : Machine) (hq : env.quit = false)
    (hf : fetch m.chip8 = .ok 0x00EE) :
    ∃ m1, cycle env m = .ok m1 ∧
      m1.chip8.pc = m.chip8.stack (((m.chip8.sp + 255) % 256) % 16) ∧
      m1.chip8.sp = (m.chip8.sp + 255) % 256 ∧
      m1.chip8.stack = m.chip8.stack := by
  have h12 : (0x00EE : Nat) >>> 12 = 0x0 := by decide
  have h1 : (0x00EE : Nat) &&& 0x00FF ≠ 0xe0 := by decide
  have h2 : (0x00EE : Nat) &&& 0x00FF = 0xee := by decide
  have hsp : ((m.chip8.sp + 255) % 256) % 16 < STACK_SIZE := by unfold STACK_SIZE; omega
  have hex : ∃ me, execute env 0x00EE (advance m) = .ok me ∧
      me.chip8.pc = m.chip8.stack (((m.chip8.sp + 255) % 256) % 16) ∧
      me.chip8.sp = (m.chip8.sp + 255) % 256 ∧ me.chip8.stack = m.chip8.stack := by
    refine ⟨{ advance m with chip8 := { (advance m).chip8 with
          sp := (m.chip8.sp + 255) % 256
          pc := m.chip8.stack (((m.chip8.sp + 255) % 256) % 16) } }, ?_, rfl, rfl, rfl⟩
    simp only [execute, h12, h1, h2, if_true, if_false]
    simp [RET, load, and_0xF, hsp, advance, bind, Except.bind, pure, Except.pure, onChip8]
  obtain ⟨me, hex, hpc, hsp1, hst⟩ := hex
  refine ⟨tick (present me), ?_, ?_, ?_, ?_⟩
  · simp only [cycle, hq, hf, hex, Bool.false_eq_true, if_false]
  · rw [tick_pc, present_chip8, hpc]
  · rw [tick_sp, present_chip8, hsp1]
  · rw [tick_stack, present_chip8, hst]

theorem run_succ_of_ok (envs : Nat → Env) (j : Nat) (m mj : Machine)
    (h : run envs j m = .ok mj) : run envs (j + 1) m = cycle (envs j) mj := by
  simp only [run, h]

theorem stateAt_of_ok (envs : Nat → Env) (j : Nat) (m mj : Machine)
    (h : run envs j m = .ok mj) : stateAt envs j m = mj := by
  simp only [stateAt, h]

theorem fetch_of_opcodeAt (envs : Nat → Env) (j : Nat) (m : Machine) (op : Nat)
    (h : opcodeAt envs j m = .ok op) :
    ∀ mj, run envs j m = .ok mj → fetch mj.chip8 = .ok op := by
  intro mj hmj
  simp only [opcodeAt, hmj] at h
  exact h

/-- The 17 calls: after `j <= 17` of them the stack pointer has advanced by `j` and the
slots of the last 16 calls hold their return addresses. -/
theorem calls_fill_stack (envs : Nat → Env) (m : Machine) (nnn : Nat → Nat)
    (hsp0 : m.chip8.sp < 256)
    (hq : ∀ j, j < 34 → (envs j).quit = false)
    (hnnn : ∀ j, j < 17 → nnn j < 4096)
    (hcall : ∀ j, j < 17 → ∀ mj, run envs j m = .ok mj →
      fetch mj.chip8 = .ok (0x2000 + nnn j)) :
    ∀ j, j ≤ 17 →
      run envs j m = .ok (stateAt envs j m) ∧
      (stateAt envs j m).chip8.sp = (m.chip8.sp + j) % 256 ∧
      (∀ i, 1 ≤ i → i ≤ j → j < i + 16 →
        (stateAt envs j m).chip8.stack ((m.chip8.sp + i - 1) % 16)
          = ((stateAt envs (i - 1) m).chip8.pc + 2) % 65536) := by
  intro j
  induction j with
  | zero =>
    intro _
    refine ⟨rfl, ?_, ?_⟩
    · show m.chip8.sp = (m.chip8.sp + 0) % 256
      omega
    · intro i h1 h2
      omega
  | succ j ih =>
    intro hj
    obtain ⟨hrun, hsp, hstack⟩ := ih (by omega)
    obtain ⟨m1, hcyc, _, hsp1, hst1⟩ := cycle_CALL (envs j) (stateAt envs j m) (nnn j)
      (hq j (by omega)) (hcall j (by omega) _ hrun) (hnnn j (by omega))
    have hrun1 : run envs (j + 1) m = .ok m1 := by
      rw [run_succ_of_ok envs j m _ hrun, hcyc]
    have hst : stateAt envs (j + 1) m = m1 := stateAt_of_ok envs (j + 1) m m1 hrun1
    rw [hst]
    refine ⟨hrun1, ?_, ?_⟩
    · rw [hsp1, hsp]
      omega
    · intro i h1 h2 h3
      rw [hst1, hsp]
      by_cases hi : i = j + 1
      · subst hi
        have hslot : (m.chip8.sp + (j + 1) - 1) % 16 = (m.chip8.sp + j) % 256 % 16 := by omega
        rw [hslot, assign_self]
        rfl
      · have hne : (m.chip8.sp + i - 1) % 16 ≠ (m.chip8.sp + j) % 256 % 16 := by omega
        rw [assign_ne _ _ _ _ hne]
        exact hstack i h1 (by omega) (by omega)

/-- The 17 returns that follow: the stack is no longer written, the stack pointer goes
back by one each time and `pc` is loaded from the slot it then designates. -/
theorem rets_read_stack (envs : Nat → Env) (m : Machine)
    (hq : ∀ j, j < 34 → (envs j).quit = false)
    (h17 : run envs 17 m = .ok (stateAt envs 17 m))
    (hsp17 : (stateAt envs 17 m).chip8.sp = (m.chip8.sp + 17) % 256)
    (hret : ∀ j, 17 ≤ j → j < 34 → ∀ mj, run envs j m = .ok mj →
      fetch mj.chip8 = .ok 0x00EE) :
    ∀ j, j ≤ 17 →
      run envs (17 + j) m = .ok (stateAt envs (17 + j) m) ∧
      (stateAt envs (17 + j) m).chip8.sp = (m.chip8.sp + 17 - j) % 256 ∧
      (stateAt envs (17 + j) m).chip8.stack = (stateAt envs 17 m).chip8.stack ∧
      (1 ≤ j → (stateAt envs (17 + j) m).chip8.pc
        = (stateAt envs 17 m).chip8.stack ((m.chip8.sp + 17 - j) % 16)) := by
  intro j
  induction j with
  | zero =>
    intro _
    refine ⟨h17, hsp17, rfl, ?_⟩
    intro h
    omega
  | succ j ih =>
    intro hj
    obtain ⟨hrun, hsp, hstack, _⟩ := ih (by omega)
    obtain ⟨m1, hcyc, hpc1, hsp1, hst1⟩ := cycle_RET (envs (17 + j)) (stateAt envs (17 + j) m)
      (hq (17 + j) (by omega)) (hret (17 + j) (by omega) (by omega) _ hrun)
    have hrun1 : run envs (17 + (j + 1)) m = .ok m1 := by
      show run envs (17 + j + 1) m = .ok m1
      rw [run_succ_of_ok envs (17 + j) m _ hrun, hcyc]
    have hst : stateAt envs (17 + (j + 1)) m = m1 :=
      stateAt_of_ok envs (17 + (j + 1)) m m1 hrun1
    rw [hst]
    have hslot : ((m.chip8.sp + 17 - j) % 256 + 255) % 256 = (m.chip8.sp + 17 - (j + 1)) % 256 := by
      omega
    refine ⟨hrun1, ?_, ?_, ?_⟩
    · rw [hsp1, hsp, hslot]
    · rw [hst1, hstack]
    · intro _
      rw [hpc1, hsp, hstack, hslot]
      have h16 : (m.chip8.sp + 17 - (j + 1)) % 256 % 16 = (m.chip8.sp + 17 - (j + 1)) % 16 := by
        omega
      rw [h16]

/-- C10. The call stack wraps modulo 16 without error.  Take any machine whose stack
pointer `sp0` is an 8-bit value and any 34 iterations without a quit request in which the
first 17 instructions fetched are `CALL`s (`2nnn`) and the following 17 are `RET`s
(`00EE`).  Then all 34 iterations succeed; the
`k`-th `CALL` leaves its return address (the `pc` at which it was fetched, plus 2) in stack
slot `(sp0 + k - 1) mod 16`, the slot of the 17th being the slot of the 1st, which after
the 17 calls holds the return address of the 17th; the `j`-th `RET` for `j = 1..16` sets
`pc` to the return address of call `18 - j` (calls 17, 16, ..., 2), and the 17th `RET` sets
`pc` to the return address of the 17th `CALL` (hence not to that of the 1st whenever the
two differ). -/
theorem call_stack_wraps_mod_16 (envs : Nat → Env) (m : Machine) (nnn : Nat → Nat)
    (hsp0 : m.chip8.sp < 256)
    (hq : ∀ j, j < 34 → (envs j).quit = false)
    (hnnn : ∀ j, j < 17 → nnn j < 4096)
    (hcall : ∀ j, j < 17 → ∀ mj, run envs j m = .ok mj →
      fetch mj.chip8 = .ok (0x2000 + nnn j))
    (hret : ∀ j, 17 ≤ j → j < 34 → ∀ mj, run envs j m = .ok mj →
      fetch mj.chip8 = .ok 0x00EE) :
    (∀ j, j ≤ 34 → run envs j m = .ok (stateAt envs j m)) ∧
    (∀ k, 1 ≤ k → k ≤ 17 →
      (stateAt envs k m).chip8.stack ((m.chip8.sp + k - 1) % 16)
        = ((stateAt envs (k - 1) m).chip8.pc + 2) % 65536) ∧
    (m.chip8.sp + 17 - 1) % 16 = (m.chip8.sp + 1 - 1) % 16 ∧
    (stateAt envs 17 m).chip8.stack ((m.chip8.sp + 1 - 1) % 16)
      = ((stateAt envs 16 m).chip8.pc + 2) % 65536 ∧
    (∀ j, 1 ≤ j → j ≤ 16 →
      (stateAt envs (17 + j) m).chip8.pc
        = ((stateAt envs (17 - j) m).chip8.pc + 2) % 65536) ∧
    (stateAt envs 34 m).chip8.pc = ((stateAt envs 16 m).chip8.pc + 2) % 65536 ∧
    (((stateAt envs 16 m).chip8.pc + 2) % 65536 ≠ (m.chip8.pc + 2) % 65536 →
      (stateAt envs 34 m).chip8.pc ≠ (m.chip8.pc + 2) % 65536) := by
  have hc := calls_fill_stack envs m nnn hsp0 hq hnnn hcall
  obtain ⟨h17, hsp17, hst17⟩ := hc 17 (Nat.le_refl 17)
  have hr := rets_read_stack envs m hq h17 hsp17 hret
  have hslot17 : (m.chip8.sp + 1 - 1) % 16 = (m.chip8.sp + 17 - 1) % 16 := by omega
  have h34 : (stateAt envs 34 m).chip8.pc = ((stateAt envs 16 m).chip8.pc + 2) % 65536 := by
    have h := (hr 17 (Nat.le_refl 17)).2.2.2 (by omega)
    have hs : (m.chip8.sp + 17 - 17) % 16 = (m.chip8.sp + 17 - 1) % 16 := by omega
    rw [hs] at h
    rw [show (34 : Nat) = 17 + 17 from rfl, h]
    exact hst17 17 (by omega) (by omega) (by omega)
  refine ⟨?_, ?_, hslot17.symm, ?_, ?_, h34, ?_⟩
  · intro j hj
    by_cases h : j ≤ 17
    · exact (hc j h).1
    · have hj2 : j = 17 + (j - 17) := by omega
      rw [hj2]
      exact (hr (j - 17) (by omega)).1
  · intro k h1 h2
    exact (hc k h2).2.2 k h1 (Nat.le_refl k) (by omega)
  · rw [hslot17]
    exact hst17 17 (by omega) (by omega) (by omega)
  · intro j h1 h2
    have h := (hr j (by omega)).2.2.2 h1
    have hs : (m.chip8.sp + 17 - j) % 16 = (m.chip8.sp + (18 - j) - 1) % 16 := by omega
    rw [h, hs, hst17 (18 - j) (by omega) (by omega) (by omega)]
    have hidx : 18 - j - 1 = 17 - j := by omega
    rw [hidx]
  · intro hne
    rw [h34]
    exact hne

/-- C10 on the program `callChainRom`, started with `sp = 250`: the hypotheses hold (the
first 17 instructions fetched are the calls to `0x204, 0x208, ..., 0x244`, the next 17 are
returns), the conclusion of the theorem holds, and the 17th return sets `pc` to `0x242`,
the return address of the 17th call, while that of the 1st call is `0x202`. -/
theorem call_stack_wraps_mod_16_witness :
    (mCalls.chip8.sp < 256 ∧
      (∀ j, j < 34 → ((fun _ => env0) j).quit = false) ∧
      (∀ j, j < 17 → (fun j => 0x204 + 4 * j) j < 4096) ∧
      (∀ j, j < 17 → ∀ mj, run (fun _ => env0) j mCalls = .ok mj →
        fetch mj.chip8 = .ok (0x2000 + (fun j => 0x204 + 4 * j) j)) ∧
      (∀ j, 17 ≤ j → j < 34 → ∀ mj, run (fun _ => env0) j mCalls = .ok mj →
        fetch mj.chip8 = .ok 0x00EE)) ∧
    ((∀ j, j ≤ 34 → run (fun _ => env0) j mCalls = .ok (stateAt (fun _ => env0) j mCalls)) ∧
      (∀ k, 1 ≤ k → k ≤ 17 →
        (stateAt (fun _ => env0) k mCalls).chip8.stack ((mCalls.chip8.sp + k - 1) % 16)
          = ((stateAt (fun _ => env0) (k - 1) mCalls).chip8.pc + 2) % 65536) ∧
      (mCalls.chip8.sp + 17 - 1) % 16 = (mCalls.chip8.sp + 1 - 1) % 16 ∧
      (stateAt (fun _ => env0) 17 mCalls).chip8.stack ((mCalls.chip8.sp + 1 - 1) % 16)
        = ((stateAt (fun _ => env0) 16 mCalls).chip8.pc + 2) % 65536 ∧
      (∀ j, 1 ≤ j → j ≤ 16 →
        (stateAt (fun _ => env0) (17 + j) mCalls).chip8.pc
          = ((stateAt (fun _ => env0) (17 - j) mCalls).chip8.pc + 2) % 65536) ∧
      (stateAt (fun _ => env0) 34 mCalls).chip8.pc
        = ((stateAt (fun _ => env0) 16 mCalls).chip8.pc + 2) % 65536 ∧
      (((stateAt (fun _ => env0) 16 mCalls).chip8.pc + 2) % 65536
          ≠ (mCalls.chip8.pc + 2) % 65536 →
        (stateAt (fun _ => env0) 34 mCalls).chip8.pc ≠ (mCalls.chip8.pc + 2) % 65536)) ∧
    (stateAt (fun _ => env0) 34 mCalls).chip8.pc = 0x242 ∧
    (mCalls.chip8.pc + 2) % 65536 = 0x202 :=
  have hcalls : ∀ j, j < 17 →
      opcodeAt (fun _ => env0) j mCalls = .ok (0x2000 + (0x204 + 4 * j)) := by decide
  have hrets : ∀ j, j < 34 → 17 ≤ j → opcodeAt (fun _ => env0) j mCalls = .ok 0x00EE := by
    decide
  have hsp : mCalls.chip8.sp < 256 := by decide
  have hq : ∀ j, j < 34 → ((fun _ => env0) j).quit = false := fun _ _ => rfl
  have hnnn : ∀ j, j < 17 → (fun j => 0x204 + 4 * j) j < 4096 := by
    intro j hj
    show 0x204 + 4 * j < 4096
    omega
  have hcall : ∀ j, j < 17 → ∀ mj, run (fun _ => env0) j mCalls = .ok mj →
      fetch mj.chip8 = .ok (0x2000 + (fun j => 0x204 + 4 * j) j) :=
    fun j hj => fetch_of_opcodeAt _ j mCalls _ (hcalls j hj)
  have hret : ∀ j, 17 ≤ j → j < 34 → ∀ mj, run (fun _ => env0) j mCalls = .ok mj →
      fetch mj.chip8 = .ok 0x00EE :=
    fun j h1 h2 => fetch_of_opcodeAt _ j mCalls _ (hrets j h2 h1)
  ⟨⟨hsp, hq, hnnn, hcall, hret⟩,
    call_stack_wraps_mod_16 (fun _ => env0) mCalls (fun j => 0x204 + 4 * j) hsp hq hnnn hcall
      hret,
    by decide, by decide⟩

/-! ## The `0xF` group -/

theorem decode_Fxnn (x nn : Nat) (hx : x < 16) (hnn : nn < 256) :
    (0xF000 + 0x100 * x + nn) >>> 12 = 0xF ∧
    ((0xF000 + 0x100 * x + nn) >>> 8) &&& 0x0F = x ∧
    (0xF000 + 0x100 * x + nn) &&& 0x00FF = nn := by
  simp only [shr_12, shr_8, and_0xF, and_0xFF]
  omega

theorem execute_Fxnn (env : Env) (m : Machine) (x nn : Nat) (hx : x < 16) (hnn : nn < 256) :
    execute env (0xF000 + 0x100 * x + nn) m =
      if nn = 0x07 then onChip8 m (LD_Vx_DT x m.chip8)
      else if nn = 0x0A then onChip8 m (LD_Vx_K env x m.chip8)
      else if nn = 0x15 then onChip8 m (LD_DT_Vx x m.chip8)
      else if nn = 0x18 then onChip8 m (LD_ST_Vx x m.chip8)
      else if nn = 0x1E then onChip8 m (ADD_I_Vx x m.chip8)
      else if nn = 0x29 then onChip8 m (LD_F_Vx x m.chip8)
      else if nn = 0x33 then onChip8 m (LD_B_Vx x m.chip8)
      else if nn = 0x55 then onChip8 m (LD_I_Vx x m.chip8)
      else if nn = 0x65 then onChip8 m (LD_Vx_I x m.chip8)
      else .ok m := by
  obtain ⟨h12, hX, hN⟩ := decode_Fxnn x nn hx hnn
  simp only [execute, h12, hX, hN]
  simp

/-! ## C11: `Fx55` and `Fx65` -/

/-- The storing loop of `Fx55`, run for the registers `V0..V(n-1)`. -/
theorem store_loop (c : Chip8) :
    ∀ n, n ≤ 16 →
      ∃ h1, forUpTo (fun k c => do
          let a ← loadV c.v k
          let h1 ← storeHeap c.heap ((c.i + k) &&& 0x0FFF) a
          pure { c with heap := h1 }) n c = .ok { c with heap := h1 } ∧
        (∀ j, j < n → h1 ((c.i + j) % 4096) = c.v j) ∧
        (∀ a, (∀ j, j < n → a ≠ (c.i + j) % 4096) → h1 a = c.heap a) := by
  intro n
  induction n with
  | zero =>
    intro _
    refine ⟨c.heap, rfl, ?_, fun _ _ => rfl⟩
    intro j hj
    omega
  | succ n ih =>
    intro hn
    obtain ⟨h1, hrun, hset, hrest⟩ := ih (by omega)
    have hn16 : n < V_SIZE := by unfold V_SIZE; omega
    have hlt : (c.i + n) % 4096 < HEAP_SIZE := by unfold HEAP_SIZE; omega
    refine ⟨assign h1 ((c.i + n) % 4096) (c.v n), ?_, ?_, ?_⟩
    · simp only [forUpTo, hrun]
      simp [loadV, storeHeap, load, store, and_0xFFF, hn16, hlt, bind, Except.bind, pure,
        Except.pure]
    · intro j hj
      by_cases hjn : j = n
      · subst hjn
        exact assign_self _ _ _
      · have hne : (c.i + j) % 4096 ≠ (c.i + n) % 4096 := by omega
        rw [assign_ne _ _ _ _ hne]
        exact hset j (by omega)
    · intro a ha
      rw [assign_ne _ _ _ _ (ha n (by omega))]
      exact hrest a (fun j hj => ha j (by omega))

/-- The loading loop of `Fx65`, run for the registers `V0..V(n-1)`. -/
theorem load_loop (c : Chip8) :
    ∀ n, n ≤ 16 →
      ∃ v1, forUpTo (fun k c => do
          let a ← loadHeap c.heap ((c.i + k) &&& 0x0FFF)
          let v1 ← storeV c.v k a
          pure { c with v := v1 }) n c = .ok { c with v := v1 } ∧
        (∀ j, j < n → v1 j = c.heap ((c.i + j) % 4096)) ∧
        (∀ j, n ≤ j → v1 j = c.v j) := by
  intro n
  induction n with
  | zero =>
    intro _
    refine ⟨c.v, rfl, ?_, fun _ _ => rfl⟩
    intro j hj
    omega
  | succ n ih =>
    intro hn
    obtain ⟨v1, hrun, hset, hrest⟩ := ih (by omega)
    have hn16 : n < V_SIZE := by unfold V_SIZE; omega
    have hlt : (c.i + n) % 4096 < HEAP_SIZE := by unfold HEAP_SIZE; omega
    refine ⟨assign v1 n (c.heap ((c.i + n) % 4096)), ?_, ?_, ?_⟩
    · simp only [forUpTo, hrun]
      simp [loadHeap, storeV, load, store, and_0xFFF, hn16, hlt, bind, Except.bind, pure,
        Except.pure]
    · intro j hj
      by_cases hjn : j = n
      · subst hjn
        exact assign_self _ _ _
      · rw [assign_ne _ _ _ _ hjn]
        exact hset j (by omega)
    · intro j hj
      rw [assign_ne _ _ _ _ (by omega)]
      exact hrest j (by omega)

/-- C11. `Fk55` followed by `Fk65`, for every `k` in 0..15 and every `I` (also when
`I + j` passes 4096).  `Fk55` succeeds and changes only the memory: afterwards
`heap[(I + j) mod 4096] = Vj` for all `j <= k`, every other byte is as before, and the
registers and `I` are unchanged.  If the registers are then replaced by arbitrary values
`v2` (memory and `I` kept), `Fk65` succeeds and changes only the registers: `V0..Vk` are
the original values again, and `V(k+1)..V15` keep the values of `v2`. -/
theorem store_then_load_round_trip (env : Env) (m : Machine) (k : Nat) (hk : k < 16) :
    ∃ h1, execute env (0xF000 + 0x100 * k + 0x55) m
        = .ok { m with chip8 := { m.chip8 with heap := h1 } } ∧
      (∀ j, j ≤ k → h1 ((m.chip8.i + j) % 4096) = m.chip8.v j) ∧
      (∀ a, (∀ j, j ≤ k → a ≠ (m.chip8.i + j) % 4096) → h1 a = m.chip8.heap a) ∧
      ∀ v2 : Nat → Nat, ∃ v3,
        execute env (0xF000 + 0x100 * k + 0x65)
            { m with chip8 := { m.chip8 with heap := h1, v := v2 } }
          = .ok { m with chip8 := { m.chip8 with heap := h1, v := v3 } } ∧
        (∀ j, j ≤ k → v3 j = m.chip8.v j) ∧
        (∀ j, k < j → v3 j = v2 j) := by
  obtain ⟨h1, hrun, hset, hrest⟩ := store_loop m.chip8 (k + 1) (by omega)
  refine ⟨h1, ?_, fun j hj => hset j (by omega),
    fun a ha => hrest a (fun j hj => ha j (by omega)), ?_⟩
  · rw [execute_Fxnn env m k 0x55 hk (by decide)]
    simp only [LD_I_Vx, hrun, onChip8]
    simp
  · intro v2
    obtain ⟨v3, hrun2, hset2, hrest2⟩ :=
      load_loop { m.chip8 with heap := h1, v := v2 } (k + 1) (by omega)
    refine ⟨v3, ?_, ?_, fun j hj => hrest2 j (by omega)⟩
    · rw [execute_Fxnn env _ k 0x65 hk (by decide)]
      simp only [LD_Vx_I, hrun2, onChip8]
      simp
    · intro j hj
      rw [hset2 j (by omega)]
      exact hset j (by omega)

/-- C11 for `FF55` / `FF65` with `I = 0x0FFE` and `V0..VF = 1..16`: the block crosses the
end of the memory, `V0, V1` go to `0xFFE, 0xFFF` and `V2, ..., VF` to `0x000, ..., 0x00D`;
loading back over zeroed registers gives 1..16 again. -/
theorem store_then_load_round_trip_witness :
    (15 : Nat) < 16 ∧
    (∃ h1, execute env0 0xFF55 mBlock
        = .ok { mBlock with chip8 := { mBlock.chip8 with heap := h1 } } ∧
      (∀ j, j ≤ 15 → h1 ((mBlock.chip8.i + j) % 4096) = mBlock.chip8.v j) ∧
      (∀ a, (∀ j, j ≤ 15 → a ≠ (mBlock.chip8.i + j) % 4096) → h1 a = mBlock.chip8.heap a) ∧
      ∀ v2 : Nat → Nat, ∃ v3,
        execute env0 0xFF65
            { mBlock with chip8 := { mBlock.chip8 with heap := h1, v := v2 } }
          = .ok { mBlock with chip8 := { mBlock.chip8 with heap := h1, v := v3 } } ∧
        (∀ j, j ≤ 15 → v3 j = mBlock.chip8.v j) ∧
        (∀ j, 15 < j → v3 j = v2 j)) ∧
    Except.map (fun m1 => [m1.chip8.heap 0xFFE, m1.chip8.heap 0xFFF, m1.chip8.heap 0x000,
        m1.chip8.heap 0x00D, m1.chip8.heap 0x00E, m1.chip8.i])
      (execute env0 0xFF55 mBlock) = .ok [1, 2, 3, 16, 0, 0xFFE] ∧
    Except.map (fun m2 => (List.range 16).map m2.chip8.v)
      (match execute env0 0xFF55 mBlock with
        | .ok m1 => execute env0 0xFF65 { m1 with chip8 := { m1.chip8 with v := fun _ => 0 } }
        | .error e => .error e)
      = .ok [1, 2, 3, 4, 5, 6, 7, 8, 9, 10, 11, 12, 13, 14, 15, 16] :=
  ⟨by decide, store_then_load_round_trip env0 mBlock 15 (by decide), by decide, by decide⟩

/-! ## C12: `Fx33` -/

/-- C12. `Fx33` for every `x` in 0..15, every 8-bit value `v` of `Vx` and every `I`: the
instruction succeeds and changes only the memory; afterwards `heap[I mod 4096] = v / 100`,
`heap[(I + 1) mod 4096] = (v / 10) mod 10` and `heap[(I + 2) mod 4096] = v mod 10`, each of
the three is a decimal digit, `100 * heap[I] + 10 * heap[I + 1] + heap[I + 2] = v`, and
every other byte is as before. -/
theorem bcd_stores_three_digits (env : Env) (m : Machine) (x : Nat) (hx : x < 16)
    (hv : m.chip8.v x < 256) :
    ∃ h1, execute env (0xF000 + 0x100 * x + 0x33) m
        = .ok { m with chip8 := { m.chip8 with heap := h1 } } ∧
      h1 (m.chip8.i % 4096) = m.chip8.v x / 100 ∧
      h1 ((m.chip8.i + 1) % 4096) = (m.chip8.v x / 10) % 10 ∧
      h1 ((m.chip8.i + 2) % 4096) = m.chip8.v x % 10 ∧
      (h1 (m.chip8.i % 4096) < 10 ∧ h1 ((m.chip8.i + 1) % 4096) < 10 ∧
        h1 ((m.chip8.i + 2) % 4096) < 10) ∧
      100 * h1 (m.chip8.i % 4096) + 10 * h1 ((m.chip8.i + 1) % 4096)
        + h1 ((m.chip8.i + 2) % 4096) = m.chip8.v x ∧
      (∀ a, a ≠ m.chip8.i % 4096 → a ≠ (m.chip8.i + 1) % 4096 →
        a ≠ (m.chip8.i + 2) % 4096 → h1 a = m.chip8.heap a) := by
  have hx16 : x < V_SIZE := hx
  have h0 : m.chip8.i % 4096 < HEAP_SIZE := by unfold HEAP_SIZE; omega
  have h1 : (m.chip8.i + 1) % 4096 < HEAP_SIZE := by unfold HEAP_SIZE; omega
  have h2 : (m.chip8.i + 2) % 4096 < HEAP_SIZE := by unfold HEAP_SIZE; omega
  have hne01 : m.chip8.i % 4096 ≠ (m.chip8.i + 1) % 4096 := by omega
  have hne02 : m.chip8.i % 4096 ≠ (m.chip8.i + 2) % 4096 := by omega
  have hne12 : (m.chip8.i + 1) % 4096 ≠ (m.chip8.i + 2) % 4096 := by omega
  have e0 : assign (assign (assign m.chip8.heap ((m.chip8.i + 2) % 4096) (m.chip8.v x % 10))
      ((m.chip8.i + 1) % 4096) (m.chip8.v x / 10 % 256 % 10)) (m.chip8.i % 4096)
      (m.chip8.v x / 10 % 256 / 10 % 256 % 10) (m.chip8.i % 4096) = m.chip8.v x / 100 := by
    rw [assign_self]
    omega
  have e1 : assign (assign (assign m.chip8.heap ((m.chip8.i + 2) % 4096) (m.chip8.v x % 10))
      ((m.chip8.i + 1) % 4096) (m.chip8.v x / 10 % 256 % 10)) (m.chip8.i % 4096)
      (m.chip8.v x / 10 % 256 / 10 % 256 % 10) ((m.chip8.i + 1) % 4096)
      = m.chip8.v x / 10 % 10 := by
    rw [assign_ne _ _ _ _ hne01.symm, assign_self]
    omega
  have e2 : assign (assign (assign m.chip8.heap ((m.chip8.i + 2) % 4096) (m.chip8.v x % 10))
      ((m.chip8.i + 1) % 4096) (m.chip8.v x / 10 % 256 % 10)) (m.chip8.i % 4096)
      (m.chip8.v x / 10 % 256 / 10 % 256 % 10) ((m.chip8.i + 2) % 4096)
      = m.chip8.v x % 10 := by
    rw [assign_ne _ _ _ _ hne02.symm, assign_ne _ _ _ _ hne12.symm, assign_self]
  refine ⟨_, ?_, e0, e1, e2, ?_, ?_, ?_⟩
  · rw [execute_Fxnn env m x 0x33 hx (by decide)]
    simp [LD_B_Vx, loadV, storeHeap, load, store, and_0xFFF, hx16, h0, h1, h2, bind,
      Except.bind, pure, Except.pure, onChip8]
  · rw [e0, e1, e2]
    omega
  · rw [e0, e1, e2]
    omega
  · intro a ha0 ha1 ha2
    rw [assign_ne _ _ _ _ ha0, assign_ne _ _ _ _ ha1, assign_ne _ _ _ _ ha2]

/-- C12 for `F333` with `V3 = 157` and `I = 0x0FFF`: the digits 1, 5, 7 are stored at
`0xFFF`, `0x000`, `0x001`. -/
theorem bcd_stores_three_digits_witness :
    ((3 : Nat) < 16 ∧ mBcd.chip8.v 3 < 256) ∧
    (∃ h1, execute env0 0xF333 mBcd
        = .ok { mBcd with chip8 := { mBcd.chip8 with heap := h1 } } ∧
      h1 (mBcd.chip8.i % 4096) = mBcd.chip8.v 3 / 100 ∧
      h1 ((mBcd.chip8.i + 1) % 4096) = (mBcd.chip8.v 3 / 10) % 10 ∧
      h1 ((mBcd.chip8.i + 2) % 4096) = mBcd.chip8.v 3 % 10 ∧
      (h1 (mBcd.chip8.i % 4096) < 10 ∧ h1 ((mBcd.chip8.i + 1) % 4096) < 10 ∧
        h1 ((mBcd.chip8.i + 2) % 4096) < 10) ∧
      100 * h1 (mBcd.chip8.i % 4096) + 10 * h1 ((mBcd.chip8.i + 1) % 4096)
        + h1 ((mBcd.chip8.i + 2) % 4096) = mBcd.chip8.v 3 ∧
      (∀ a, a ≠ mBcd.chip8.i % 4096 → a ≠ (mBcd.chip8.i + 1) % 4096 →
        a ≠ (mBcd.chip8.i + 2) % 4096 → h1 a = mBcd.chip8.heap a)) ∧
    Except.map (fun m1 => [m1.chip8.heap 0xFFF, m1.chip8.heap 0x000, m1.chip8.heap 0x001])
      (execute env0 0xF333 mBcd) = .ok [1, 5, 7] :=
  ⟨⟨by decide, by decide⟩, bcd_stores_three_digits env0 mBcd 3 (by decide) (by decide),
    by decide⟩

/-! ## C13: `Fx29` -/

/-- The set-up phase leaves the font table at `FONT_START`: the byte at
`FONT_START + k` is `font[k]` for `k < 80`, whatever program is loaded. -/
theorem boot_font (rom : List Nat) (surface : Surface) (k : Nat) (hk : k < 80) :
    (boot rom surface).chip8.heap (FONT_START + k) = font.getD k 0 := by
  have hlen : font.length = 80 := by decide
  have h1 : ¬ (ROM_START ≤ FONT_START + k ∧ FONT_START + k < HEAP_SIZE) := by
    unfold ROM_START FONT_START HEAP_SIZE
    omega
  have h2 : FONT_START ≤ FONT_START + k ∧ FONT_START + k < FONT_START + font.length := by
    rw [hlen]
    omega
  simp only [boot, if_neg h1, if_pos h2, Nat.add_sub_cancel_left]

/-- C13 as stated fails.  `F029` with `V0 = 0x1A`: the claim gives
`I = 0x50 + 5 * (0x1A mod 16) = 0x82`, the code gives `I = 0x50 + 5 * 0x1A = 0xD2`, which
is not below `0x0A0`, the end of the font region. -/
theorem font_address_not_reduced_mod_16 :
    Except.map (fun m1 => m1.chip8.i) (execute env0 0xF029 (withRegs [0x1A])) = .ok 0xD2 ∧
    0x50 + 5 * ((withRegs [0x1A]).chip8.v 0 % 16) = 0x82 ∧
    ¬ (0xD2 < 0x0A0) := by
  decide

/-- C13 as amended.  `Fx29` for every `x` in 0..15 and every 8-bit value of `Vx`: the
instruction succeeds and changes only `I`, which becomes `0x50 + 5 * Vx` (the value of
`Vx` is not reduced to its low nibble).  When `Vx` is in 0..15 this is
`0x50 + 5 * (Vx mod 16)`, it lies in the font region `[0x050, 0x0A0)`, and in the initial
memory image the 5 bytes at `I` are the rows of the font table entry of the digit `Vx`. -/
theorem font_address_of_digit (env : Env) (m : Machine) (x : Nat) (hx : x < 16)
    (hv : m.chip8.v x < 256) :
    execute env (0xF000 + 0x100 * x + 0x29) m
      = .ok { m with chip8 := { m.chip8 with i := 0x50 + 5 * m.chip8.v x } } ∧
    (m.chip8.v x < 16 →
      0x50 + 5 * m.chip8.v x = 0x50 + 5 * (m.chip8.v x % 16) ∧
      0x050 ≤ 0x50 + 5 * m.chip8.v x ∧ 0x50 + 5 * m.chip8.v x < 0x0A0 ∧
      ∀ (rom : List Nat) (surface : Surface) (r : Nat), r < 5 →
        (boot rom surface).chip8.heap (0x50 + 5 * m.chip8.v x + r)
          = font.getD (5 * m.chip8.v x + r) 0) := by
  have hx16 : x < V_SIZE := hx
  have hmod : (FONT_START + 5 * m.chip8.v x) % 65536 = 0x50 + 5 * m.chip8.v x := by
    unfold FONT_START
    omega
  refine ⟨?_, ?_⟩
  · rw [execute_Fxnn env m x 0x29 hx (by decide)]
    simp [LD_F_Vx, loadV, load, hx16, hmod, bind, Except.bind, pure, Except.pure, onChip8]
  · intro hd
    refine ⟨by omega, by omega, by omega, ?_⟩
    intro rom surface r hr
    have h := boot_font rom surface (5 * m.chip8.v x + r) (by omega)
    have ha : 0x50 + 5 * m.chip8.v x + r = FONT_START + (5 * m.chip8.v x + r) := by
      unfold FONT_START
      omega
    rw [ha]
    exact h

/-- C13 as amended, for `F029` with `V0 = 0xA`: `I` becomes `0x82`, where the initial
memory image holds the rows `F0 90 F0 90 90` of the digit `A`. -/
theorem font_address_of_digit_witness :
    ((0 : Nat) < 16 ∧ (withRegs [0xA]).chip8.v 0 < 256) ∧
    (execute env0 0xF029 (withRegs [0xA])
      = .ok { withRegs [0xA] with chip8 := { (withRegs [0xA]).chip8 with i := 0x82 } } ∧
    ((withRegs [0xA]).chip8.v 0 < 16 →
      0x50 + 5 * (withRegs [0xA]).chip8.v 0 = 0x50 + 5 * ((withRegs [0xA]).chip8.v 0 % 16) ∧
      0x050 ≤ 0x50 + 5 * (withRegs [0xA]).chip8.v 0 ∧
      0x50 + 5 * (withRegs [0xA]).chip8.v 0 < 0x0A0 ∧
      ∀ (rom : List Nat) (surface : Surface) (r : Nat), r < 5 →
        (boot rom surface).chip8.heap (0x50 + 5 * (withRegs [0xA]).chip8.v 0 + r)
          = font.getD (5 * (withRegs [0xA]).chip8.v 0 + r) 0)) ∧
    (withRegs [0xA]).chip8.v 0 < 16 ∧
    (List.range 5).map (fun r => (boot [] blank).chip8.heap (0x82 + r))
      = [0xF0, 0x90, 0xF0, 0x90, 0x90] :=
  ⟨⟨by decide, by decide⟩,
    font_address_of_digit env0 (withRegs [0xA]) 0 (by decide) (by decide),
    by decide, by decide⟩

/-! ## C16: the timers -/

theorem tick_delay (m : Machine) :
    (tick m).chip8.delay_timer = m.chip8.delay_timer - 1 := by
  unfold tick
  dsimp only
  split <;> split <;> simp_all

theorem tick_sound (m : Machine) :
    (tick m).chip8.sound_timer = m.chip8.sound_timer - 1 := by
  unfold tick
  dsimp only
  split <;> split <;> simp_all

theorem iterate_tick_delay (m : Machine) (n : Nat) :
    (Nat.iterate tick n m).chip8.delay_timer = m.chip8.delay_timer - n := by
  induction n with
  | zero => rfl
  | succ n ih =>
    rw [Function.iterate_succ_apply', tick_delay, ih]
    omega

theorem iterate_tick_sound (m : Machine) (n : Nat) :
    (Nat.iterate tick n m).chip8.sound_timer = m.chip8.sound_timer - n := by
  induction n with
  | zero => rfl
  | succ n ih =>
    rw [Function.iterate_succ_apply', tick_sound, ih]
    omega

/-- C16. The timers saturate at zero: after `n` executions of the two timer statements
at the end of the loop body, with nothing else writing the timers, the delay timer is
`d - n` in the natural numbers, that is `max (d - n) 0` in the integers, where `d` is its
initial value; so it is never above `d` and stays 0 once it is 0.  The same holds for the
sound timer. -/
theorem timers_saturate_at_zero (m : Machine) (n : Nat) :
    (Nat.iterate tick n m).chip8.delay_timer = m.chip8.delay_timer - n ∧
    (((Nat.iterate tick n m).chip8.delay_timer : Nat) : Int)
      = max ((m.chip8.delay_timer : Int) - (n : Int)) 0 ∧
    (Nat.iterate tick n m).chip8.sound_timer = m.chip8.sound_timer - n ∧
    (((Nat.iterate tick n m).chip8.sound_timer : Nat) : Int)
      = max ((m.chip8.sound_timer : Int) - (n : Int)) 0 := by
  have hd := iterate_tick_delay m n
  have hs := iterate_tick_sound m n
  refine ⟨hd, ?_, hs, ?_⟩
  · rw [hd]
    omega
  · rw [hs]
    omega

/-- C16 for `delay = 5`: the timer reads 0 after 5 ticks and still 0 after the 6th. -/
theorem timers_saturate_at_zero_witness :
    mTimers.chip8.delay_timer = 5 ∧
    (Nat.iterate tick 5 mTimers).chip8.delay_timer = 0 ∧
    (Nat.iterate tick 6 mTimers).chip8.delay_timer = 0 ∧
    (Nat.iterate tick 6 mTimers).chip8.sound_timer = 0 :=
  ⟨rfl, (timers_saturate_at_zero mTimers 5).1, (timers_saturate_at_zero mTimers 6).1,
    (timers_saturate_at_zero mTimers 6).2.2.1⟩

/-! ## C17: `Cxnn` -/

/-- C17. `Cxnn` for every `x` in 0..15, every mask `nn` in 0..255 and every value `r`
returned by `rand()`: the instruction succeeds and changes only `Vx`, which becomes
`(r mod 256) AND nn`; every bit that is clear in `nn` is clear in `Vx`, and with `nn = 0`
the register is 0. -/
theorem rnd_is_masked (env : Env) (m : Machine) (x nn : Nat) (hx : x < 16) (hnn : nn < 256) :
    ∃ v1, execute env (0xC000 + 0x100 * x + nn) m
        = .ok { m with chip8 := { m.chip8 with v := v1 } } ∧
      v1 x = (env.rand % 256) &&& nn ∧
      (∀ b, nn.testBit b = false → (v1 x).testBit b = false) ∧
      (nn = 0 → v1 x = 0) ∧
      (∀ k, k ≠ x → v1 k = m.chip8.v k) := by
  have hx16 : x < V_SIZE := hx
  have h12 : (0xC000 + 0x100 * x + nn) >>> 12 = 0xC := by rw [shr_12]; omega
  have hX : ((0xC000 + 0x100 * x + nn) >>> 8) &&& 0x0F = x := by rw [shr_8, and_0xF]; omega
  have hN : (0xC000 + 0x100 * x + nn) &&& 0x00FF = nn := by rw [and_0xFF]; omega
  have hr : env.rand % 0x100 % 256 = env.rand % 256 := by omega
  have hm : nn % 256 = nn := by omega
  refine ⟨assign m.chip8.v x ((env.rand % 256) &&& nn), ?_, assign_self _ _ _, ?_, ?_,
    fun k hk => assign_ne _ _ _ _ hk⟩
  · simp only [execute, h12, hX, hN]
    simp [RND, storeV, store, hx16, hr, hm, hN, bind, Except.bind, pure, Except.pure, onChip8]
  · intro b hb
    rw [assign_self, Nat.testBit_and, hb, Bool.and_false]
  · intro h0
    rw [assign_self, h0, Nat.and_zero]

/-- C17 with `rand() = 0x1ABCD`: `C10F` sets `V1 = 0xCD AND 0x0F = 0x0D`, and `C100` sets
`V1 = 0`. -/
theorem rnd_is_masked_witness :
    ((1 : Nat) < 16 ∧ (0x0F : Nat) < 256 ∧ (0x00 : Nat) < 256) ∧
    (∃ v1, execute envRand 0xC10F (withRegs [7, 7, 7])
        = .ok { withRegs [7, 7, 7] with chip8 := { (withRegs [7, 7, 7]).chip8 with v := v1 } } ∧
      v1 1 = (envRand.rand % 256) &&& 0x0F ∧
      (∀ b, (0x0F : Nat).testBit b = false → (v1 1).testBit b = false) ∧
      ((0x0F : Nat) = 0 → v1 1 = 0) ∧
      (∀ k, k ≠ 1 → v1 k = (withRegs [7, 7, 7]).chip8.v k)) ∧
    (∃ v1, execute envRand 0xC100 (withRegs [7, 7, 7])
        = .ok { withRegs [7, 7, 7] with chip8 := { (withRegs [7, 7, 7]).chip8 with v := v1 } } ∧
      v1 1 = (envRand.rand % 256) &&& 0x00 ∧
      (∀ b, (0x00 : Nat).testBit b = false → (v1 1).testBit b = false) ∧
      ((0x00 : Nat) = 0 → v1 1 = 0) ∧
      (∀ k, k ≠ 1 → v1 k = (withRegs [7, 7, 7]).chip8.v k)) ∧
    Except.map (fun m1 => m1.chip8.v 1) (execute envRand 0xC10F (withRegs [7, 7, 7]))
      = .ok 0x0D ∧
    Except.map (fun m1 => m1.chip8.v 1) (execute envRand 0xC100 (withRegs [7, 7, 7]))
      = .ok 0 :=
  ⟨⟨by decide, by decide, by decide⟩,
    rnd_is_masked envRand (withRegs [7, 7, 7]) 1 0x0F (by decide) (by decide),
    rnd_is_masked envRand (withRegs [7, 7, 7]) 1 0x00 (by decide) (by decide),
    by decide, by decide⟩

/-! ## C14: instruction words without a case -/

/-- The `switch` does nothing for the words that reach one of its `default:` branches. -/
theorem execute_unrecognised (env : Env) (m : Machine) (op : Nat)
    (hop :
      (op / 4096 = 0x0 ∧ op % 256 ≠ 0xE0 ∧ op % 256 ≠ 0xEE) ∨
      (op / 4096 = 0x8 ∧ (op % 16 = 0x8 ∨ op % 16 = 0x9 ∨ op % 16 = 0xA ∨ op % 16 = 0xB ∨
        op % 16 = 0xC ∨ op % 16 = 0xD ∨ op % 16 = 0xF)) ∨
      (op / 4096 = 0xE ∧ op % 256 ≠ 0x9E ∧ op % 256 ≠ 0xA1) ∨
      (op / 4096 = 0xF ∧ op % 256 ≠ 0x07 ∧ op % 256 ≠ 0x0A ∧ op % 256 ≠ 0x15 ∧
        op % 256 ≠ 0x18 ∧ op % 256 ≠ 0x1E ∧ op % 256 ≠ 0x29 ∧ op % 256 ≠ 0x33 ∧
        op % 256 ≠ 0x55 ∧ op % 256 ≠ 0x65)) :
    execute env op m = .ok m := by
  simp only [execute, shr_12, and_0xFF, and_0xF]
  rcases hop with ⟨h, h1, h2⟩ | ⟨h, hN⟩ | ⟨h, h1, h2⟩ | ⟨h, h1, h2, h3, h4, h5, h6, h7, h8, h9⟩
  · simp [h, h1, h2]
  · rcases hN with hN | hN | hN | hN | hN | hN | hN <;> simp [h, hN]
  · simp [h, h1, h2]
  · simp [h, h1, h2, h3, h4, h5, h6, h7, h8, h9]

/-- C14. Unrecognised instruction words are no-ops.  Let the loop be at the top of an
iteration (no quit request; `flip = false`, as at the top of every iteration, see
`flip_false_at_loop_top`) and let the word fetched be one that the decoder
has no case for: `0nnn` with a low byte other than `E0`/`EE`, `8xyN` with `N` in
`{8, 9, A, B, C, D, F}`, `Exnn` with `nn` other than `9E`/`A1`, or `Fxnn` with `nn` other
than `07, 0A, 15, 18, 1E, 29, 33, 55, 65`.  Then the instruction itself succeeds and
changes nothing, the iteration succeeds, and it leaves the memory, `V0..VF`, `I`, the
stack, the stack pointer and the surface unchanged, requests no presentation, sets `pc` to
`pc + 2` modulo 2^16 (`pc + 2` itself unless that is 2^16 or more), and decrements each
timer that is not 0. -/
theorem unrecognised_opcode_is_noop (env : Env) (m : Machine) (op : Nat)
    (hq : env.quit = false) (hflip : m.flip = false) (hfetch : fetch m.chip8 = .ok op)
    (hop :
      (op / 4096 = 0x0 ∧ op % 256 ≠ 0xE0 ∧ op % 256 ≠ 0xEE) ∨
      (op / 4096 = 0x8 ∧ (op % 16 = 0x8 ∨ op % 16 = 0x9 ∨ op % 16 = 0xA ∨ op % 16 = 0xB ∨
        op % 16 = 0xC ∨ op % 16 = 0xD ∨ op % 16 = 0xF)) ∨
      (op / 4096 = 0xE ∧ op % 256 ≠ 0x9E ∧ op % 256 ≠ 0xA1) ∨
      (op / 4096 = 0xF ∧ op % 256 ≠ 0x07 ∧ op % 256 ≠ 0x0A ∧ op % 256 ≠ 0x15 ∧
        op % 256 ≠ 0x18 ∧ op % 256 ≠ 0x1E ∧ op % 256 ≠ 0x29 ∧ op % 256 ≠ 0x33 ∧
        op % 256 ≠ 0x55 ∧ op % 256 ≠ 0x65)) :
    execute env op (advance m) = .ok (advance m) ∧
    ∃ m1, cycle env m = .ok m1 ∧
      m1.chip8.heap = m.chip8.heap ∧ m1.chip8.v = m.chip8.v ∧ m1.chip8.i = m.chip8.i ∧
      m1.chip8.stack = m.chip8.stack ∧ m1.chip8.sp = m.chip8.sp ∧
      m1.windowSurface = m.windowSurface ∧
      m1.flip = false ∧ m1.updates = m.updates ∧
      m1.chip8.pc = (m.chip8.pc + 2) % 65536 ∧
      (m.chip8.pc + 2 < 65536 → m1.chip8.pc = m.chip8.pc + 2) ∧
      m1.chip8.delay_timer = m.chip8.delay_timer - 1 ∧
      m1.chip8.sound_timer = m.chip8.sound_timer - 1 := by
  have hex := execute_unrecognised env (advance m) op hop
  have hpres : present (advance m) = advance m := by
    unfold present
    rw [if_neg]
    show ¬ m.flip = true
    rw [hflip]
    decide
  have hcyc : cycle env m = .ok (tick (advance m)) := by
    simp only [cycle, hq, hfetch, hex, hpres, Bool.false_eq_true, if_false]
  refine ⟨hex, tick (advance m), hcyc, ?_, ?_, ?_, ?_, ?_, rfl, hflip, rfl, ?_, ?_, ?_, ?_⟩
  · unfold tick; dsimp only; split <;> split <;> rfl
  · unfold tick; dsimp only; split <;> split <;> rfl
  · unfold tick; dsimp only; split <;> split <;> rfl
  · rw [tick_stack]; rfl
  · rw [tick_sp]; rfl
  · rw [tick_pc]; rfl
  · intro hlt
    rw [tick_pc]
    show (m.chip8.pc + 2) % 65536 = m.chip8.pc + 2
    omega
  · rw [tick_delay]; rfl
  · rw [tick_sound]; rfl

/-- C14 for the program `8008` with the delay timer at 3: the word fetched at `0x200` is
`0x8008`, the iteration succeeds, and afterwards `pc = 0x202`, the delay timer is 2, the
sound timer is still 0 and no presentation was requested. -/
theorem unrecognised_opcode_is_noop_witness :
    (env0.quit = false ∧ mNoop.flip = false ∧ fetch mNoop.chip8 = .ok 0x8008 ∧
      (((0x8008 : Nat) / 4096 = 0x0 ∧ (0x8008 : Nat) % 256 ≠ 0xE0 ∧ (0x8008 : Nat) % 256 ≠ 0xEE) ∨
       ((0x8008 : Nat) / 4096 = 0x8 ∧ ((0x8008 : Nat) % 16 = 0x8 ∨ (0x8008 : Nat) % 16 = 0x9 ∨
          (0x8008 : Nat) % 16 = 0xA ∨ (0x8008 : Nat) % 16 = 0xB ∨ (0x8008 : Nat) % 16 = 0xC ∨
          (0x8008 : Nat) % 16 = 0xD ∨ (0x8008 : Nat) % 16 = 0xF)) ∨
       ((0x8008 : Nat) / 4096 = 0xE ∧ (0x8008 : Nat) % 256 ≠ 0x9E ∧
          (0x8008 : Nat) % 256 ≠ 0xA1) ∨
       ((0x8008 : Nat) / 4096 = 0xF ∧ (0x8008 : Nat) % 256 ≠ 0x07 ∧
          (0x8008 : Nat) % 256 ≠ 0x0A ∧ (0x8008 : Nat) % 256 ≠ 0x15 ∧
          (0x8008 : Nat) % 256 ≠ 0x18 ∧ (0x8008 : Nat) % 256 ≠ 0x1E ∧
          (0x8008 : Nat) % 256 ≠ 0x29 ∧ (0x8008 : Nat) % 256 ≠ 0x33 ∧
          (0x8008 : Nat) % 256 ≠ 0x55 ∧ (0x8008 : Nat) % 256 ≠ 0x65))) ∧
    (execute env0 0x8008 (advance mNoop) = .ok (advance mNoop) ∧
      ∃ m1, cycle env0 mNoop = .ok m1 ∧
        m1.chip8.heap = mNoop.chip8.heap ∧ m1.chip8.v = mNoop.chip8.v ∧
        m1.chip8.i = mNoop.chip8.i ∧
        m1.chip8.stack = mNoop.chip8.stack ∧ m1.chip8.sp = mNoop.chip8.sp ∧
        m1.windowSurface = mNoop.windowSurface ∧
        m1.flip = false ∧ m1.updates = mNoop.updates ∧
        m1.chip8.pc = (mNoop.chip8.pc + 2) % 65536 ∧
        (mNoop.chip8.pc + 2 < 65536 → m1.chip8.pc = mNoop.chip8.pc + 2) ∧
        m1.chip8.delay_timer = mNoop.chip8.delay_timer - 1 ∧
        m1.chip8.sound_timer = mNoop.chip8.sound_timer - 1) ∧
    Except.map (fun m1 => [m1.chip8.pc, m1.chip8.delay_timer, m1.chip8.sound_timer, m1.updates])
      (cycle env0 mNoop) = .ok [0x202, 2, 0, 0] :=
  have hop : ((0x8008 : Nat) / 4096 = 0x0 ∧ (0x8008 : Nat) % 256 ≠ 0xE0 ∧
        (0x8008 : Nat) % 256 ≠ 0xEE) ∨
      ((0x8008 : Nat) / 4096 = 0x8 ∧ ((0x8008 : Nat) % 16 = 0x8 ∨ (0x8008 : Nat) % 16 = 0x9 ∨
        (0x8008 : Nat) % 16 = 0xA ∨ (0x8008 : Nat) % 16 = 0xB ∨ (0x8008 : Nat) % 16 = 0xC ∨
        (0x8008 : Nat) % 16 = 0xD ∨ (0x8008 : Nat) % 16 = 0xF)) ∨
      ((0x8008 : Nat) / 4096 = 0xE ∧ (0x8008 : Nat) % 256 ≠ 0x9E ∧
        (0x8008 : Nat) % 256 ≠ 0xA1) ∨
      ((0x8008 : Nat) / 4096 = 0xF ∧ (0x8008 : Nat) % 256 ≠ 0x07 ∧
        (0x8008 : Nat) % 256 ≠ 0x0A ∧ (0x8008 : Nat) % 256 ≠ 0x15 ∧
        (0x8008 : Nat) % 256 ≠ 0x18 ∧ (0x8008 : Nat) % 256 ≠ 0x1E ∧
        (0x8008 : Nat) % 256 ≠ 0x29 ∧ (0x8008 : Nat) % 256 ≠ 0x33 ∧
        (0x8008 : Nat) % 256 ≠ 0x55 ∧ (0x8008 : Nat) % 256 ≠ 0x65) := by decide
  have hf : fetch mNoop.chip8 = .ok 0x8008 := by decide
  ⟨⟨rfl, rfl, hf, hop⟩, unrecognised_opcode_is_noop env0 mNoop 0x8008 rfl rfl hf hop,
    by decide⟩

/-! ## C15: the request for a presentation -/

/-- When `Dxyn` completes, `flip` is set, so the iteration calls
`SDL_UpdateWindowSurface`. -/
theorem drw_sets_flip (env : Env) (m : Machine) (x y n : Nat) (hx : x < 16) (hy : y < 16)
    (hn : n < 16) (hw : m.windowSurface.w = 64) (hh : m.windowSurface.h = 32)
    (hfit : ∀ r c, r < n → c < 8 → spriteBit m.chip8 r c →
      pixelIndex 64 (m.chip8.v x % 64) (m.chip8.v y % 32) r c < 2048) :
    ∃ m1, execute env (0xD000 + 0x100 * x + 0x10 * y + n) m = .ok m1 ∧ m1.flip = true ∧
      (present m1).updates = m1.updates + 1 := by
  obtain ⟨m1, hdrw, t⟩ := DRW_toggles env m x y n hx hy hn hw hh hfit
  have hflip : m1.flip = true := t.flip
  refine ⟨m1, hdrw, hflip, ?_⟩
  unfold present
  rw [if_pos hflip]

/-- C15, the code at `CLS` on a surface with a lit pixel.  The machine `mLit` is at the
top of an iteration (`flip = false`), its top left pixel is on and the word at `pc` is
`00E0`.  After the instruction the pixel is off, so the framebuffer has changed, and `flip`
is still false; after the whole iteration the count of calls to `SDL_UpdateWindowSurface`
is still 0: no presentation was requested. -/
theorem cls_changes_pixels_without_flip :
    mLit.flip = false ∧ mLit.updates = 0 ∧ mLit.windowSurface.pixel 0 0 = 0x00FFFFFF ∧
    fetch mLit.chip8 = .ok 0x00E0 ∧
    Except.map (fun m1 => (m1.windowSurface.pixel 0 0, m1.flip))
      (execute env0 0x00E0 (advance mLit)) = .ok (0, false) ∧
    Except.map (fun m1 => (m1.windowSurface.pixel 0 0, m1.flip, m1.updates))
      (cycle env0 mLit) = .ok (0, false, 0) := by
  decide

/-! ## C20: the key table -/

/-- For a logical key `k` in 0..15 the lookup `keys[keyMap[k]]` is inside both arrays. -/
theorem keyDown_in_table (keys : Nat → Nat) (k : Nat) (hk : k < 16) :
    keyDown keys k = .ok (decide (keys (keyMap.getD k 0) ≠ 0)) := by
  interval_cases k <;> simp [keyDown, keyMap, load, KEYS_SIZE]

theorem decode_Exnn (x nn : Nat) (hx : x < 16) (hnn : nn < 256) :
    (0xE000 + 0x100 * x + nn) >>> 12 = 0xE ∧
    ((0xE000 + 0x100 * x + nn) >>> 8) &&& 0x0F = x ∧
    (0xE000 + 0x100 * x + nn) &&& 0x00FF = nn := by
  simp only [shr_12, shr_8, and_0xF, and_0xFF]
  omega

/-- When `Vx` is in 0..15, `Ex9E` and `ExA1` succeed: `Ex9E` adds 2 to `pc` (which the
fetch has already advanced by 2) exactly when the key `Vx` is down, `ExA1` exactly when it
is not, and nothing else changes. -/
theorem skip_on_key_of_digit (env : Env) (m : Machine) (x : Nat) (hx : x < 16)
    (hv : m.chip8.v x < 16) :
    execute env (0xE000 + 0x100 * x + 0x9E) m
      = .ok { m with chip8 :=
          if env.keys (keyMap.getD (m.chip8.v x) 0) ≠ 0
          then { m.chip8 with pc := (m.chip8.pc + 2) % 65536 } else m.chip8 } ∧
    execute env (0xE000 + 0x100 * x + 0xA1) m
      = .ok { m with chip8 :=
          if env.keys (keyMap.getD (m.chip8.v x) 0) = 0
          then { m.chip8 with pc := (m.chip8.pc + 2) % 65536 } else m.chip8 } := by
  have hx16 : x < V_SIZE := hx
  obtain ⟨h12, hX, hN⟩ := decode_Exnn x 0x9E hx (by decide)
  obtain ⟨h12a, hXa, hNa⟩ := decode_Exnn x 0xA1 hx (by decide)
  constructor
  · simp only [execute, h12, hX, hN]
    simp only [SKP, loadV, load, hx16, if_true, bind, Except.bind, pure, Except.pure,
      keyDown_in_table env.keys _ hv, onChip8]
    by_cases hk : env.keys (keyMap.getD (m.chip8.v x) 0) = 0 <;> simp [hk]
  · simp only [execute, h12a, hXa, hNa]
    simp only [SKNP, loadV, load, hx16, if_true, bind, Except.bind, pure, Except.pure,
      keyDown_in_table env.keys _ hv, onChip8]
    by_cases hk : env.keys (keyMap.getD (m.chip8.v x) 0) = 0 <;> simp [hk]

/-- C20, the code at `Vx` outside 0..15.  `E09E` with `V0 = 0x10` reads `keyMap[16]`, and
`E0A1` with `V0 = 0xFF` reads `keyMap[255]`: both indices are outside the table of 16
entries, and the instruction neither skips nor continues. -/
theorem key_lookup_outside_table :
    (withRegs [0x10]).chip8.v 0 = 0x10 ∧ keyMap.length = 16 ∧
    Except.map (fun m1 => m1.chip8.pc) (execute env0 0xE09E (withRegs [0x10]))
      = .error (.outOfBounds .keyMap 0x10) ∧
    Except.map (fun m1 => m1.chip8.pc) (execute env0 0xE0A1 (withRegs [0xFF]))
      = .error (.outOfBounds .keyMap 0xFF) := by
  decide

/-! ## C19: calls and returns up to depth 16 -/

/-- After `j <= K` calls in a row the stack pointer has advanced by `j` and the slots of
the last 16 calls hold their return addresses. -/
theorem calls_push (envs : Nat → Env) (m : Machine) (nnn : Nat → Nat) (K : Nat)
    (hsp0 : m.chip8.sp < 256)
    (hq : ∀ j, j < K → (envs j).quit = false)
    (hnnn : ∀ j, j < K → nnn j < 4096)
    (hcall : ∀ j, j < K → ∀ mj, run envs j m = .ok mj →
      fetch mj.chip8 = .ok (0x2000 + nnn j)) :
    ∀ j, j ≤ K →
      run envs j m = .ok (stateAt envs j m) ∧
      (stateAt envs j m).chip8.sp = (m.chip8.sp + j) % 256 ∧
      (∀ i, 1 ≤ i → i ≤ j → j < i + 16 →
        (stateAt envs j m).chip8.stack ((m.chip8.sp + i - 1) % 16)
          = ((stateAt envs (i - 1) m).chip8.pc + 2) % 65536) := by
  intro j
  induction j with
  | zero =>
    intro _
    refine ⟨rfl, ?_, ?_⟩
    · show m.chip8.sp = (m.chip8.sp + 0) % 256
      omega
    · intro i h1 h2
      omega
  | succ j ih =>
    intro hj
    obtain ⟨hrun, hsp, hstack⟩ := ih (by omega)
    obtain ⟨m1, hcyc, _, hsp1, hst1⟩ := cycle_CALL (envs j) (stateAt envs j m) (nnn j)
      (hq j (by omega)) (hcall j (by omega) _ hrun) (hnnn j (by omega))
    have hrun1 : run envs (j + 1) m = .ok m1 := by
      rw [run_succ_of_ok envs j m _ hrun, hcyc]
    have hst : stateAt envs (j + 1) m = m1 := stateAt_of_ok envs (j + 1) m m1 hrun1
    rw [hst]
    refine ⟨hrun1, ?_, ?_⟩
    · rw [hsp1, hsp]
      omega
    · intro i h1 h2 h3
      rw [hst1, hsp]
      by_cases hi : i = j + 1
      · subst hi
        have hslot : (m.chip8.sp + (j + 1) - 1) % 16 = (m.chip8.sp + j) % 256 % 16 := by omega
        rw [hslot, assign_self]
        rfl
      · have hne : (m.chip8.sp + i - 1) % 16 ≠ (m.chip8.sp + j) % 256 % 16 := by omega
        rw [assign_ne _ _ _ _ hne]
        exact hstack i h1 (by omega) (by omega)

/-- After `K` calls, `j <= K` returns in a row leave the stack as it is, move the stack
pointer back by `j`, and the last of them loads `pc` from the slot the stack pointer then
designates. -/
theorem rets_pop (envs : Nat → Env) (m : Machine) (K : Nat)
    (hq : ∀ j, K ≤ j → j < K + K → (envs j).quit = false)
    (hK : run envs K m = .ok (stateAt envs K m))
    (hspK : (stateAt envs K m).chip8.sp = (m.chip8.sp + K) % 256)
    (hret : ∀ j, K ≤ j → j < K + K → ∀ mj, run envs j m = .ok mj →
      fetch mj.chip8 = .ok 0x00EE) :
    ∀ j, j ≤ K →
      run envs (K + j) m = .ok (stateAt envs (K + j) m) ∧
      (stateAt envs (K + j) m).chip8.sp = (m.chip8.sp + K - j) % 256 ∧
      (stateAt envs (K + j) m).chip8.stack = (stateAt envs K m).chip8.stack ∧
      (1 ≤ j → (stateAt envs (K + j) m).chip8.pc
        = (stateAt envs K m).chip8.stack ((m.chip8.sp + K - j) % 16)) := by
  intro j
  induction j with
  | zero =>
    intro _
    refine ⟨hK, hspK, rfl, ?_⟩
    intro h
    omega
  | succ j ih =>
    intro hj
    obtain ⟨hrun, hsp, hstack, _⟩ := ih (by omega)
    obtain ⟨m1, hcyc, hpc1, hsp1, hst1⟩ := cycle_RET (envs (K + j)) (stateAt envs (K + j) m)
      (hq (K + j) (by omega) (by omega)) (hret (K + j) (by omega) (by omega) _ hrun)
    have hrun1 : run envs (K + (j + 1)) m = .ok m1 := by
      show run envs (K + j + 1) m = .ok m1
      rw [run_succ_of_ok envs (K + j) m _ hrun, hcyc]
    have hst : stateAt envs (K + (j + 1)) m = m1 :=
      stateAt_of_ok envs (K + (j + 1)) m m1 hrun1
    rw [hst]
    have hslot : ((m.chip8.sp + K - j) % 256 + 255) % 256 = (m.chip8.sp + K - (j + 1)) % 256 := by
      omega
    refine ⟨hrun1, ?_, ?_, ?_⟩
    · rw [hsp1, hsp, hslot]
    · rw [hst1, hstack]
    · intro _
      rw [hpc1, hsp, hstack, hslot]
      have h16 : (m.chip8.sp + K - (j + 1)) % 256 % 16 = (m.chip8.sp + K - (j + 1)) % 16 := by
        omega
      rw [h16]

/-- C19. `CALL` / `RET` are last-in first-out up to depth 16.  Take any machine whose
stack pointer is an 8-bit value, any `k` in 1..16 and any `2 * k` iterations without a quit
request in which the first `k` instructions fetched are `CALL`s (`2nnn`) and the following
`k` are `RET`s (`00EE`).  Then all `2 * k` iterations succeed, the `j`-th `RET` sets `pc`
to the return address of the `(k - j + 1)`-th `CALL` (the `pc` at which that `CALL` was
fetched, plus 2), and after the `k`-th `RET` the stack pointer has its initial value.  For
`k = 1` the `RET` resumes at the instruction after the `CALL`. -/
theorem call_ret_lifo (envs : Nat → Env) (m : Machine) (nnn : Nat → Nat) (k : Nat)
    (hk1 : 1 ≤ k) (hk16 : k ≤ 16) (hsp0 : m.chip8.sp < 256)
    (hq : ∀ j, j < k + k → (envs j).quit = false)
    (hnnn : ∀ j, j < k → nnn j < 4096)
    (hcall : ∀ j, j < k → ∀ mj, run envs j m = .ok mj →
      fetch mj.chip8 = .ok (0x2000 + nnn j))
    (hret : ∀ j, k ≤ j → j < k + k → ∀ mj, run envs j m = .ok mj →
      fetch mj.chip8 = .ok 0x00EE) :
    (∀ j, j ≤ k + k → run envs j m = .ok (stateAt envs j m)) ∧
    (∀ j, 1 ≤ j → j ≤ k →
      (stateAt envs (k + j) m).chip8.pc
        = ((stateAt envs (k - j) m).chip8.pc + 2) % 65536) ∧
    (stateAt envs (k + k) m).chip8.sp = m.chip8.sp ∧
    (k = 1 → (stateAt envs 2 m).chip8.pc = (m.chip8.pc + 2) % 65536) := by
  have hc := calls_push envs m nnn k hsp0 (fun j hj => hq j (by omega)) hnnn hcall
  obtain ⟨hK, hspK, hstK⟩ := hc k (Nat.le_refl k)
  have hr := rets_pop envs m k (fun j _ h2 => hq j h2) hK hspK hret
  have hpc : ∀ j, 1 ≤ j → j ≤ k →
      (stateAt envs (k + j) m).chip8.pc
        = ((stateAt envs (k - j) m).chip8.pc + 2) % 65536 := by
    intro j h1 h2
    have h := (hr j h2).2.2.2 h1
    have hs : (m.chip8.sp + k - j) % 16 = (m.chip8.sp + (k - j + 1) - 1) % 16 := by omega
    rw [h, hs, hstK (k - j + 1) (by omega) (by omega) (by omega)]
    have hidx : k - j + 1 - 1 = k - j := by omega
    rw [hidx]
  refine ⟨?_, hpc, ?_, ?_⟩
  · intro j hj
    by_cases h : j ≤ k
    · exact (hc j h).1
    · have hj2 : j = k + (j - k) := by omega
      rw [hj2]
      exact (hr (j - k) (by omega)).1
  · rw [(hr k (Nat.le_refl k)).2.1]
    omega
  · intro hk
    subst hk
    have h := hpc 1 (Nat.le_refl 1) (Nat.le_refl 1)
    have h0 : stateAt envs (1 - 1) m = m := rfl
    rw [h0] at h
    exact h

/-- C19 on the program `lifoRom` with `k = 16`, started with `sp = 7`: the hypotheses hold
(16 calls to `0x204, 0x208, ..., 0x240`, then 16 returns), the conclusion of the theorem
holds, and after the 32 iterations `pc = 0x202`, the address after the first call, and
`sp = 7`. -/
theorem call_ret_lifo_witness :
    ((1 : Nat) ≤ 16 ∧ (16 : Nat) ≤ 16 ∧ mLifo.chip8.sp < 256 ∧
      (∀ j, j < 16 + 16 → ((fun _ => env0) j).quit = false) ∧
      (∀ j, j < 16 → (fun j => 0x204 + 4 * j) j < 4096) ∧
      (∀ j, j < 16 → ∀ mj, run (fun _ => env0) j mLifo = .ok mj →
        fetch mj.chip8 = .ok (0x2000 + (fun j => 0x204 + 4 * j) j)) ∧
      (∀ j, 16 ≤ j → j < 16 + 16 → ∀ mj, run (fun _ => env0) j mLifo = .ok mj →
        fetch mj.chip8 = .ok 0x00EE)) ∧
    ((∀ j, j ≤ 16 + 16 → run (fun _ => env0) j mLifo = .ok (stateAt (fun _ => env0) j mLifo)) ∧
      (∀ j, 1 ≤ j → j ≤ 16 →
        (stateAt (fun _ => env0) (16 + j) mLifo).chip8.pc
          = ((stateAt (fun _ => env0) (16 - j) mLifo).chip8.pc + 2) % 65536) ∧
      (stateAt (fun _ => env0) (16 + 16) mLifo).chip8.sp = mLifo.chip8.sp ∧
      ((16 : Nat) = 1 → (stateAt (fun _ => env0) 2 mLifo).chip8.pc
        = (mLifo.chip8.pc + 2) % 65536)) ∧
    (stateAt (fun _ => env0) 32 mLifo).chip8.pc = 0x202 ∧
    (stateAt (fun _ => env0) 32 mLifo).chip8.sp = 7 :=
  have hcalls : ∀ j, j < 16 →
      opcodeAt (fun _ => env0) j mLifo = .ok (0x2000 + (0x204 + 4 * j)) := by decide
  have hrets : ∀ j, j < 32 → 16 ≤ j → opcodeAt (fun _ => env0) j mLifo = .ok 0x00EE := by
    decide
  have hsp : mLifo.chip8.sp < 256 := by decide
  have hq : ∀ j, j < 16 + 16 → ((fun _ => env0) j).quit = false := fun _ _ => rfl
  have hnnn : ∀ j, j < 16 → (fun j => 0x204 + 4 * j) j < 4096 := by
    intro j hj
    show 0x204 + 4 * j < 4096
    omega
  have hcall : ∀ j, j < 16 → ∀ mj, run (fun _ => env0) j mLifo = .ok mj →
      fetch mj.chip8 = .ok (0x2000 + (fun j => 0x204 + 4 * j) j) :=
    fun j hj => fetch_of_opcodeAt _ j mLifo _ (hcalls j hj)
  have hret : ∀ j, 16 ≤ j → j < 16 + 16 → ∀ mj, run (fun _ => env0) j mLifo = .ok mj →
      fetch mj.chip8 = .ok 0x00EE :=
    fun j h1 h2 => fetch_of_opcodeAt _ j mLifo _ (hrets j h2 h1)
  ⟨⟨by decide, by decide, hsp, hq, hnnn, hcall, hret⟩,
    call_ret_lifo (fun _ => env0) mLifo (fun j => 0x204 + 4 * j) 16 (by decide) (by decide)
      hsp hq hnnn hcall hret,
    by decide, by decide⟩

/-! ## C18: the accesses to `heap`, `stack` and `v` -/

@[simp] theorem inBounds_ok {α : Type} (x : α) : InBounds (Except.ok x : Except Halt α) := by
  intro idx
  simp

theorem inBounds_pixels {α : Type} (k : Nat) :
    InBounds (Except.error (.outOfBounds .pixels k) : Except Halt α) := by
  intro idx
  simp

theorem inBounds_keyMap {α : Type} (k : Nat) :
    InBounds (Except.error (.outOfBounds .keyMap k) : Except Halt α) := by
  intro idx
  simp

theorem inBounds_keys {α : Type} (k : Nat) :
    InBounds (Except.error (.outOfBounds .keys k) : Except Halt α) := by
  intro idx
  simp

theorem inBounds_divideByZero {α : Type} :
    InBounds (Except.error .divideByZero : Except Halt α) := by
  intro idx
  simp

theorem inBounds_quit {α : Type} : InBounds (Except.error .quit : Except Halt α) := by
  intro idx
  simp

theorem inBounds_starved {α : Type} : InBounds (Except.error .starved : Except Halt α) := by
  intro idx
  simp

theorem onChip8_inBounds (m : Machine) (r : Except Halt Chip8) (h : InBounds r) :
    InBounds (onChip8 m r) := by
  cases r with
  | ok c => exact inBounds_ok _
  | error e =>
    intro idx
    have := h idx
    simpa [onChip8] using this

theorem forUpTo_inBounds {σ : Type} (body : Nat → σ → Except Halt σ)
    (hbody : ∀ k s, InBounds (body k s)) (n : Nat) (s : σ) :
    InBounds (forUpTo body n s) := by
  induction n with
  | zero => exact inBounds_ok _
  | succ n ih =>
    simp only [forUpTo]
    cases h : forUpTo body n s with
    | ok s1 => exact hbody n s1
    | error e =>
      rw [h] at ih
      intro idx
      have := ih idx
      simpa using this

theorem drwPixel_inBounds (x y row column : Nat) (m : Machine) :
    InBounds (drwPixel x y row column m) := by
  have hlt : (m.chip8.i + row) &&& 0x0FFF < HEAP_SIZE := by
    rw [and_0xFFF]; unfold HEAP_SIZE; omega
  have h15 : (0xF : Nat) < V_SIZE := by decide
  simp only [drwPixel, loadHeap, storeV, load, store, hlt, h15, if_true, bind, Except.bind,
    pure, Except.pure]
  split
  · by_cases hidx : pixelIndex m.windowSurface.w x y row column
        < m.windowSurface.w * m.windowSurface.h
    · simp only [hidx, if_true]
      split <;> exact inBounds_ok _
    · simp only [hidx, if_false]
      exact inBounds_pixels _
  · exact inBounds_ok _

theorem DRW_inBounds (opcode : Nat) (m : Machine) : InBounds (DRW opcode m) := by
  have hX : (opcode >>> 8) &&& 0x0F < V_SIZE := by
    rw [and_0xF]; unfold V_SIZE; omega
  have hY : (opcode >>> 4) &&& 0x00F < V_SIZE := by
    rw [and_0xF]; unfold V_SIZE; omega
  have h15 : (0xF : Nat) < V_SIZE := by decide
  simp only [DRW, loadV, storeV, load, store, hX, hY, h15, if_true, bind, Except.bind, pure,
    Except.pure, throw, throwThe, MonadExceptOf.throw]
  by_cases hw : m.windowSurface.w = 0
  · simp only [hw, if_true]
    exact inBounds_divideByZero
  · simp only [hw, if_false]
    by_cases hh : m.windowSurface.h = 0
    · simp only [hh, if_true]
      exact inBounds_divideByZero
    · simp only [hh, if_false]
      exact forUpTo_inBounds _
        (fun row s => forUpTo_inBounds _ (fun column s1 => drwPixel_inBounds _ _ row column s1)
          8 s) _ _

theorem keyDown_inBounds (keys : Nat → Nat) (k : Nat) : InBounds (keyDown keys k) := by
  unfold keyDown
  cases h : keyMap[k]? with
  | none => exact inBounds_keyMap _
  | some sc =>
    by_cases hsc : sc < KEYS_SIZE
    · simp only [load, hsc, if_true]
      exact inBounds_ok _
    · simp only [load, hsc, if_false]
      exact inBounds_keys _

theorem scanKeys_inBounds (keys : Nat → Nat) (l : List Nat) : InBounds (scanKeys keys l) := by
  induction l with
  | nil => exact inBounds_ok _
  | cons k rest ih =>
    have hk := keyDown_inBounds keys k
    unfold scanKeys
    cases h : keyDown keys k with
    | ok b =>
      cases b with
      | true => exact inBounds_ok _
      | false => exact ih
    | error e =>
      rw [h] at hk
      intro idx
      have := hk idx
      simpa using this

theorem awaitKey_inBounds (events : List Event) : InBounds (awaitKey events) := by
  induction events with
  | nil => exact inBounds_starved
  | cons ev es ih =>
    cases ev with
    | quit => exact inBounds_quit
    | other => exact ih
    | keydown keys =>
      have hs := scanKeys_inBounds keys (List.range 16)
      unfold awaitKey
      cases h : scanKeys keys (List.range 16) with
      | ok o =>
        cases o with
        | some k => exact inBounds_ok _
        | none => exact ih
      | error e =>
        rw [h] at hs
        intro idx
        have := hs idx
        simpa using this

theorem LD_Vx_K_inBounds (env : Env) (X : Nat) (c : Chip8) (hX : X < V_SIZE) :
    InBounds (LD_Vx_K env X c) := by
  have hs := scanKeys_inBounds env.keys (List.range 16)
  have ha := awaitKey_inBounds env.events
  simp only [LD_Vx_K, storeV, store, hX, if_true, bind, Except.bind, pure, Except.pure]
  cases h : scanKeys env.keys (List.range 16) with
  | ok o =>
    cases o with
    | some k => exact inBounds_ok _
    | none =>
      cases h2 : awaitKey env.events with
      | ok k => exact inBounds_ok _
      | error e =>
        rw [h2] at ha
        intro idx
        have := ha idx
        simpa using this
  | error e =>
    rw [h] at hs
    intro idx
    have := hs idx
    simpa using this

theorem SKP_inBounds (keys : Nat → Nat) (X : Nat) (c : Chip8) (hX : X < V_SIZE) :
    InBounds (SKP keys X c) := by
  have hk := keyDown_inBounds keys (c.v X)
  simp only [SKP, loadV, load, hX, if_true, bind, Except.bind, pure, Except.pure]
  cases h : keyDown keys (c.v X) with
  | ok b => exact inBounds_ok _
  | error e =>
    rw [h] at hk
    intro idx
    have := hk idx
    simpa using this

theorem SKNP_inBounds (keys : Nat → Nat) (X : Nat) (c : Chip8) (hX : X < V_SIZE) :
    InBounds (SKNP keys X c) := by
  have hk := keyDown_inBounds keys (c.v X)
  simp only [SKNP, loadV, load, hX, if_true, bind, Except.bind, pure, Except.pure]
  cases h : keyDown keys (c.v X) with
  | ok b => exact inBounds_ok _
  | error e =>
    rw [h] at hk
    intro idx
    have := hk idx
    simpa using this

theorem LD_I_Vx_inBounds (X : Nat) (c : Chip8) (hX : X < V_SIZE) :
    InBounds (LD_I_Vx X c) := by
  obtain ⟨h1, hrun, _⟩ := store_loop c (X + 1) (by unfold V_SIZE at hX; omega)
  unfold LD_I_Vx
  rw [hrun]
  exact inBounds_ok _

theorem LD_Vx_I_inBounds (X : Nat) (c : Chip8) (hX : X < V_SIZE) :
    InBounds (LD_Vx_I X c) := by
  obtain ⟨v1, hrun, _⟩ := load_loop c (X + 1) (by unfold V_SIZE at hX; omega)
  unfold LD_Vx_I
  rw [hrun]
  exact inBounds_ok _

/-- The fetch always succeeds: both byte addresses are reduced modulo 4096. -/
theorem fetch_ok (c : Chip8) : ∃ op, fetch c = .ok op := by
  have h1 : c.pc &&& 0x0FFF < HEAP_SIZE := by rw [and_0xFFF]; unfold HEAP_SIZE; omega
  have h2 : (c.pc + 1) &&& 0x0FFF < HEAP_SIZE := by rw [and_0xFFF]; unfold HEAP_SIZE; omega
  refine ⟨((c.heap (c.pc &&& 0x0FFF) <<< 8) ||| c.heap ((c.pc + 1) &&& 0x0FFF)) % 65536, ?_⟩
  simp only [fetch, loadHeap, load, h1, h2, if_true, bind, Except.bind, pure, Except.pure]

/-- The instructions made of register, stack and memory accesses only: each of them
succeeds, hence stays inside the three arrays. -/
theorem direct_instructions_inBounds (rand opcode X Y : Nat) (c : Chip8) (hX : X < 16)
    (hY : Y < 16) :
    (InBounds (RET c) ∧ InBounds (JP opcode c) ∧ InBounds (CALL opcode c) ∧
      InBounds (SE_imm X opcode c) ∧ InBounds (SNE_imm X opcode c) ∧
      InBounds (SE_reg X Y c) ∧ InBounds (LD_imm X opcode c) ∧
      InBounds (ADD_imm X opcode c)) ∧
    (InBounds (LD_reg X Y c) ∧ InBounds (OR X Y c) ∧ InBounds (AND X Y c) ∧
      InBounds (XOR X Y c) ∧ InBounds (ADD X Y c) ∧ InBounds (SUB X Y c) ∧
      InBounds (SHR X c) ∧ InBounds (SUBN X Y c) ∧ InBounds (SHL X c)) ∧
    (InBounds (SNE_reg X Y c) ∧ InBounds (LD_I opcode c) ∧ InBounds (JP_V0 opcode c) ∧
      InBounds (RND rand X opcode c)) ∧
    (InBounds (LD_Vx_DT X c) ∧ InBounds (LD_DT_Vx X c) ∧ InBounds (LD_ST_Vx X c) ∧
      InBounds (ADD_I_Vx X c) ∧ InBounds (LD_F_Vx X c) ∧ InBounds (LD_B_Vx X c)) := by
  have hsp : c.sp &&& 0x0F < 16 := by rw [and_0xF]; omega
  have hsp1 : ((c.sp + 255) % 256) &&& 0x0F < 16 := by rw [and_0xF]; omega
  have hi0 : c.i &&& 0x0FFF < 4096 := by rw [and_0xFFF]; omega
  have hi1 : (c.i + 1) &&& 0x0FFF < 4096 := by rw [and_0xFFF]; omega
  have hi2 : (c.i + 2) &&& 0x0FFF < 4096 := by rw [and_0xFFF]; omega
  refine ⟨⟨?_, ?_, ?_, ?_, ?_, ?_, ?_, ?_⟩, ⟨?_, ?_, ?_, ?_, ?_, ?_, ?_, ?_, ?_⟩,
    ⟨?_, ?_, ?_, ?_⟩, ⟨?_, ?_, ?_, ?_, ?_, ?_⟩⟩
  · simp [RET, load, STACK_SIZE, hsp1, bind, Except.bind, pure, Except.pure]
  · simp [JP, pure, Except.pure]
  · simp [CALL, store, STACK_SIZE, hsp, bind, Except.bind, pure, Except.pure]
  · simp [SE_imm, loadV, load, V_SIZE, hX, bind, Except.bind, pure, Except.pure]
  · simp [SNE_imm, loadV, load, V_SIZE, hX, bind, Except.bind, pure, Except.pure]
  · simp [SE_reg, loadV, load, V_SIZE, hX, hY, bind, Except.bind, pure, Except.pure]
  · simp [LD_imm, storeV, store, V_SIZE, hX, bind, Except.bind, pure, Except.pure]
  · simp [ADD_imm, loadV, storeV, load, store, V_SIZE, hX, bind, Except.bind, pure,
      Except.pure]
  · simp [LD_reg, loadV, storeV, load, store, V_SIZE, hX, hY, bind, Except.bind, pure,
      Except.pure]
  · simp [OR, loadV, storeV, load, store, V_SIZE, hX, hY, bind, Except.bind, pure,
      Except.pure]
  · simp [AND, loadV, storeV, load, store, V_SIZE, hX, hY, bind, Except.bind, pure,
      Except.pure]
  · simp [XOR, loadV, storeV, load, store, V_SIZE, hX, hY, bind, Except.bind, pure,
      Except.pure]
  · simp [ADD, loadV, storeV, load, store, V_SIZE, hX, hY, bind, Except.bind, pure,
      Except.pure]
  · simp [SUB, loadV, storeV, load, store, V_SIZE, hX, hY, bind, Except.bind, pure,
      Except.pure]
  · simp [SHR, loadV, storeV, load, store, V_SIZE, hX, bind, Except.bind, pure,
      Except.pure]
  · simp [SUBN, loadV, storeV, load, store, V_SIZE, hX, hY, bind, Except.bind, pure,
      Except.pure]
  · simp [SHL, loadV, storeV, load, store, V_SIZE, hX, bind, Except.bind, pure,
      Except.pure]
  · simp [SNE_reg, loadV, load, V_SIZE, hX, hY, bind, Except.bind, pure, Except.pure]
  · simp [LD_I, pure, Except.pure]
  · simp [JP_V0, loadV, load, V_SIZE, bind, Except.bind, pure, Except.pure]
  · simp [RND, storeV, store, V_SIZE, hX, bind, Except.bind, pure, Except.pure]
  · simp [LD_Vx_DT, storeV, store, V_SIZE, hX, bind, Except.bind, pure, Except.pure]
  · simp [LD_DT_Vx, loadV, load, V_SIZE, hX, bind, Except.bind, pure, Except.pure]
  · simp [LD_ST_Vx, loadV, load, V_SIZE, hX, bind, Except.bind, pure, Except.pure]
  · simp [ADD_I_Vx, loadV, load, V_SIZE, hX, bind, Except.bind, pure, Except.pure]
  · simp [LD_F_Vx, loadV, load, V_SIZE, hX, bind, Except.bind, pure, Except.pure]
  · simp [LD_B_Vx, loadV, storeHeap, load, store, V_SIZE, HEAP_SIZE, hX, hi0, hi1, hi2, bind,
      Except.bind, pure, Except.pure]

theorem inBounds_ite {α : Type} (p : Prop) [Decidable p] (a b : Except Halt α)
    (ha : InBounds a) (hb : InBounds b) : InBounds (if p then a else b) := by
  split
  · exact ha
  · exact hb

/-- The `switch` never indexes `heap`, `stack` or `v` outside its bounds. -/
theorem execute_inBounds (env : Env) (opcode : Nat) (m : Machine) :
    InBounds (execute env opcode m) := by
  have hX : (opcode >>> 8) &&& 0x0F < 16 := by rw [and_0xF]; omega
  have hY : (opcode >>> 4) &&& 0x00F < 16 := by rw [and_0xF]; omega
  obtain ⟨⟨d1, d2, d3, d4, d5, d6, d7, d8⟩, ⟨a0, a1, a2, a3, a4, a5, a6, a7, a8⟩,
      ⟨b1, b2, b3, b4⟩, ⟨f1, f2, f3, f4, f5, f6⟩⟩ :=
    direct_instructions_inBounds env.rand opcode _ _ m.chip8 hX hY
  unfold execute
  apply inBounds_ite
  · apply inBounds_ite
    · exact inBounds_ok _
    · exact inBounds_ite _ _ _ (onChip8_inBounds _ _ d1) (inBounds_ok _)
  apply inBounds_ite _ _ _ (onChip8_inBounds _ _ d2)
  apply inBounds_ite _ _ _ (onChip8_inBounds _ _ d3)
  apply inBounds_ite _ _ _ (onChip8_inBounds _ _ d4)
  apply inBounds_ite _ _ _ (onChip8_inBounds _ _ d5)
  apply inBounds_ite _ _ _ (onChip8_inBounds _ _ d6)
  apply inBounds_ite _ _ _ (onChip8_inBounds _ _ d7)
  apply inBounds_ite _ _ _ (onChip8_inBounds _ _ d8)
  apply inBounds_ite
  · apply inBounds_ite _ _ _ (onChip8_inBounds _ _ a0)
    apply inBounds_ite _ _ _ (onChip8_inBounds _ _ a1)
    apply inBounds_ite _ _ _ (onChip8_inBounds _ _ a2)
    apply inBounds_ite _ _ _ (onChip8_inBounds _ _ a3)
    apply inBounds_ite _ _ _ (onChip8_inBounds _ _ a4)
    apply inBounds_ite _ _ _ (onChip8_inBounds _ _ a5)
    apply inBounds_ite _ _ _ (onChip8_inBounds _ _ a6)
    apply inBounds_ite _ _ _ (onChip8_inBounds _ _ a7)
    exact inBounds_ite _ _ _ (onChip8_inBounds _ _ a8) (inBounds_ok _)
  apply inBounds_ite _ _ _ (onChip8_inBounds _ _ b1)
  apply inBounds_ite _ _ _ (onChip8_inBounds _ _ b2)
  apply inBounds_ite _ _ _ (onChip8_inBounds _ _ b3)
  apply inBounds_ite _ _ _ (onChip8_inBounds _ _ b4)
  apply inBounds_ite _ _ _ (DRW_inBounds _ _)
  apply inBounds_ite
  · apply inBounds_ite _ _ _ (onChip8_inBounds _ _ (SKP_inBounds _ _ _ hX))
    exact inBounds_ite _ _ _ (onChip8_inBounds _ _ (SKNP_inBounds _ _ _ hX)) (inBounds_ok _)
  apply inBounds_ite
  · apply inBounds_ite _ _ _ (onChip8_inBounds _ _ f1)
    apply inBounds_ite _ _ _ (onChip8_inBounds _ _ (LD_Vx_K_inBounds _ _ _ hX))
    apply inBounds_ite _ _ _ (onChip8_inBounds _ _ f2)
    apply inBounds_ite _ _ _ (onChip8_inBounds _ _ f3)
    apply inBounds_ite _ _ _ (onChip8_inBounds _ _ f4)
    apply inBounds_ite _ _ _ (onChip8_inBounds _ _ f5)
    apply inBounds_ite _ _ _ (onChip8_inBounds _ _ f6)
    apply inBounds_ite _ _ _ (onChip8_inBounds _ _ (LD_I_Vx_inBounds _ _ hX))
    exact inBounds_ite _ _ _ (onChip8_inBounds _ _ (LD_Vx_I_inBounds _ _ hX))
      (inBounds_ok _)
  exact inBounds_ok _

theorem cycle_inBounds (env : Env) (m : Machine) : InBounds (cycle env m) := by
  obtain ⟨op, hop⟩ := fetch_ok m.chip8
  have hex := execute_inBounds env op (advance m)
  unfold cycle
  rw [hop]
  apply inBounds_ite _ _ _ inBounds_quit
  cases h : execute env op (advance m) with
  | ok m1 =>
    simp only [h]
    exact inBounds_ok _
  | error e =>
    rw [h] at hex
    simp only [h]
    exact hex

/-- C18. The accesses to the memory, the call stack and the register file never leave
their arrays.  For every machine state (no condition on `pc`, `I`, the stack pointer or the
registers), every environment and every instruction word: the fetch succeeds, and neither
the decode-and-execute step nor the whole iteration ends on an index outside
`heap[4096]`, `stack[16]` or `v[16]`; the out-of-range branch of the checked accesses to
these three arrays is unreachable.  The index expressions themselves are bounded: an
address masked with `0x0FFF` is below 4096, a stack pointer masked with `0x0F` is below
16, and both register fields of the word are below 16. -/
theorem chip8_arrays_never_out_of_bounds (env : Env) (opcode : Nat) (m : Machine) :
    (∃ op, fetch m.chip8 = .ok op) ∧
    InBounds (execute env opcode m) ∧
    InBounds (cycle env m) ∧
    (∀ idx, cycle env m ≠ .error (.outOfBounds .heap idx) ∧
      cycle env m ≠ .error (.outOfBounds .stack idx) ∧
      cycle env m ≠ .error (.outOfBounds .v idx)) ∧
    (∀ a : Nat, a &&& 0x0FFF < HEAP_SIZE) ∧
    (∀ sp : Nat, sp &&& 0x0F < STACK_SIZE) ∧
    (opcode >>> 8) &&& 0x0F < V_SIZE ∧ (opcode >>> 4) &&& 0x00F < V_SIZE := by
  refine ⟨fetch_ok m.chip8, execute_inBounds env opcode m, cycle_inBounds env m,
    cycle_inBounds env m, ?_, ?_, ?_, ?_⟩
  · intro a
    rw [and_0xFFF]
    unfold HEAP_SIZE
    omega
  · intro sp
    rw [and_0xF]
    unfold STACK_SIZE
    omega
  · rw [and_0xF]
    unfold V_SIZE
    omega
  · rw [and_0xF]
    unfold V_SIZE
    omega

/-! ## The local `flip` at the top of an iteration -/

/-- The local `flip` is false at the top of every iteration: it is false after the set-up
phase, and every completed iteration leaves it false. -/
theorem flip_false_at_loop_top (rom : List Nat) (surface : Surface) (env : Env)
    (m m1 : Machine) (h : cycle env m = .ok m1) :
    (boot rom surface).flip = false ∧ m1.flip = false := by
  refine ⟨rfl, ?_⟩
  unfold cycle at h
  split at h
  · exact absurd h (by simp)
  · split at h
    · exact absurd h (by simp)
    · split at h
      · exact absurd h (by simp)
      · rename_i m2 _
        have hm : tick (present m2) = m1 := by
          simpa using h
        rw [← hm]
        show (present m2).flip = false
        unfold present
        by_cases hf : m2.flip = true
        · rw [if_pos hf]
        · rw [if_neg hf]
          simpa using hf

end Chip8Emu
